import Mathlib

/-!
# IOTRegistry chaincode: a shallow embedding

The chaincode of `IOTRegistry.go` (`Init`, `verify`, `Invoke`, `Query`) as
Lean functions over an explicit ledger.

* Go's `string` is `String`, `[]byte` is a list of byte values (`Bytes`), a
  `nil` slice is the empty list (the code only ever takes `len` of a slice or
  hands it to a library).
* The world state behind `shim.ChaincodeStubInterface` is a finite map from
  keys to values, `Ledger`; the stub handed to one call is that map together
  with the errors `GetState` and `PutState` report during the call.
* A Go result `([]byte, error)` is a `Result`: the payload (`none` for `nil`)
  and the error (`none` for `nil`), with the error's message as a string.
* What the chaincode imports is a parameter: the generated protocol-buffer
  packages with `proto.Marshal`, `proto.Unmarshal` and `json.Marshal`
  (`Codec`), and `btcec` with `sha256` (`Crypto`).
-/

namespace IOTRegistry

/-- A Go byte slice. -/
abbrev Bytes := List Nat

/-! ## Records of the protocol-buffer packages -/

/-- Go's `IOTRegistryTX.RegisterIdentityTX`, as `Invoke` reads it. -/
structure RegisterIdentityTX where
  OwnerName : String
  PubKey : Bytes
  Data : String
  Signature : Bytes
deriving DecidableEq, Repr, Inhabited

/-- Go's `IOTRegistryTX.RegisterThingTX`, as `Invoke` reads it. -/
structure RegisterThingTX where
  Nonce : Bytes
  OwnerName : String
  Identities : List String
  Spec : String
  Data : String
  Signature : Bytes
deriving DecidableEq, Repr, Inhabited

/-- Go's `IOTRegistryTX.RegisterSpecTX`, as `Invoke` reads it. -/
structure RegisterSpecTX where
  SpecName : String
  OwnerName : String
  Data : String
  Signature : Bytes
deriving DecidableEq, Repr, Inhabited

/-- Go's `IOTRegistryStore.Identities`: the record stored for an owner. -/
structure Identities where
  OwnerName : String
  Pubkey : Bytes
deriving DecidableEq, Repr, Inhabited

/-- Go's `IOTRegistryStore.Alias`: the record stored for an alias. -/
structure Alias where
  Nonce : Bytes
deriving DecidableEq, Repr, Inhabited

/-- Go's `IOTRegistryStore.Things`: the record stored for a thing. -/
structure Things where
  Alias : List String
  OwnerName : String
  Data : String
  Spec : String
deriving DecidableEq, Repr, Inhabited

/-- Go's `IOTRegistryStore.Spec`: the record stored for a specification. -/
structure Spec where
  OwnerName : String
  Data : String
deriving DecidableEq, Repr, Inhabited

/-! ## The imported libraries, as parameters -/

/-- The protocol-buffer and JSON codec the chaincode calls.  `proto.Unmarshal`
fills the record it is given and reports an error; the record it leaves behind
on an error is part of the result, because `Invoke` goes on with it.
`proto.Marshal` and `json.Marshal` return the bytes or an error. -/
structure Codec where
  unmarshalRegisterIdentityTX : Bytes → RegisterIdentityTX × Option String
  unmarshalRegisterThingTX : Bytes → RegisterThingTX × Option String
  unmarshalRegisterSpecTX : Bytes → RegisterSpecTX × Option String
  unmarshalIdentities : Bytes → Identities × Option String
  unmarshalThings : Bytes → Things × Option String
  unmarshalSpec : Bytes → Spec × Option String
  marshalIdentities : Identities → Except String Bytes
  marshalAlias : Alias → Except String Bytes
  marshalThings : Things → Except String Bytes
  marshalSpec : Spec → Except String Bytes
  jsonIdentities : Identities → Except String Bytes
  jsonThings : Things → Except String Bytes
  jsonSpec : Spec → Except String Bytes

/-- The cryptographic library the chaincode calls: `btcec.ParsePubKey` and
`btcec.ParseDERSignature` on the curve `btcec.S256()` (a parsed key is its
point, a parsed signature its pair `(R, S)`), `sha256.Sum256` of the bytes of a
string, and `Signature.Verify`. -/
structure Crypto where
  ParsePubKey : Bytes → Option (Nat × Nat)
  ParseDERSignature : Bytes → Option (Nat × Nat)
  Sum256 : String → Bytes
  Verify : Nat × Nat → Bytes → Nat × Nat → Bool

/-! ## The ledger and the stub -/

/-- The world state: the value under each key, `none` where the key is absent. -/
abbrev Ledger := String → Option Bytes

/-- The ledger with nothing in it. -/
def Ledger.empty : Ledger := fun _ => none

/-- The ledger with `value` under `key`. -/
def Ledger.put (l : Ledger) (key : String) (value : Bytes) : Ledger :=
  fun k => if k = key then some value else l k

/-- The stub of one call: the world state, and the error (if any) that
`GetState` reports for a key and `PutState` for a key and a value. -/
structure Stub where
  State : Ledger
  getErr : String → Option String
  putErr : String → Bytes → Option String

/-- Go's `stub.GetState(key)`: the value (`nil` for an absent key) and no error, or
`nil` and the error. -/
def Stub.GetState (stub : Stub) (key : String) : Bytes × Option String :=
  match stub.getErr key with
  | some e => ([], some e)
  | none => ((stub.State key).getD [], none)

/-- Go's `stub.PutState(key, value)`: the stub after the call and the error.  A
write that reports an error leaves the world state as it was. -/
def Stub.PutState (stub : Stub) (key : String) (value : Bytes) : Stub × Option String :=
  match stub.putErr key value with
  | some e => (stub, some e)
  | none => ({ stub with State := stub.State.put key value }, none)

/-- A Go result `([]byte, error)`. -/
structure Result where
  payload : Option Bytes
  err : Option String
deriving DecidableEq, Repr

/-- The result `return nil, nil`. -/
def Result.nilnil : Result := ⟨none, none⟩

/-- The result `return nil, err`. -/
def Result.fail (msg : String) : Result := ⟨none, some msg⟩

/-- What `json.Marshal` returns, as the result of `Query`. -/
def Result.ofMarshal : Except String Bytes → Result
  | .ok b => ⟨some b, none⟩
  | .error e => ⟨none, some e⟩

/-- The bytes of `bytes, err := proto.Marshal(..)`: `nil` on an error. -/
def marshalled : Except String Bytes → Bytes
  | .ok b => b
  | .error _ => []

/-! ## `encoding/hex` -/

/-- The digit of `hextable = "0123456789abcdef"` at index `n`. -/
def hexDigit (n : Nat) : Char :=
  if n < 10 then Char.ofNat (48 + n) else Char.ofNat (87 + n)

/-- Go's `hex.EncodeToString`: two lower-case digits for each byte. -/
def hexEncodeToString (b : Bytes) : String :=
  String.mk (b.flatMap fun v => [hexDigit (v / 16 % 16), hexDigit (v % 16)])

/-- Go's `fromHexChar`: the value of a hexadecimal digit of either case. -/
def fromHexChar (c : Char) : Option Nat :=
  if 48 ≤ c.toNat ∧ c.toNat ≤ 57 then some (c.toNat - 48)
  else if 97 ≤ c.toNat ∧ c.toNat ≤ 102 then some (c.toNat - 97 + 10)
  else if 65 ≤ c.toNat ∧ c.toNat ≤ 70 then some (c.toNat - 65 + 10)
  else none

/-- The loop of `hex.Decode` over the characters of the source: `none` for a
character that is no digit and for an odd number of them. -/
def hexDecodeChars : List Char → Option Bytes
  | [] => some []
  | [_] => none
  | c₁ :: c₂ :: rest =>
    match fromHexChar c₁, fromHexChar c₂ with
    | some a, some b =>
      match hexDecodeChars rest with
      | some bs => some ((a * 16 + b) :: bs)
      | none => none
    | _, _ => none

/-- Go's `hex.DecodeString`: the bytes, or `none` for an error. -/
def hexDecodeString (s : String) : Option Bytes := hexDecodeChars s.data

/-! ## The chaincode -/

/-- The text `fmt` prints for a byte slice under the verb v: `[1 2 3]`. -/
def fmtBytes (b : Bytes) : String :=
  "[" ++ " ".intercalate (b.map toString) ++ "]"

/-- The chaincode's `Init`: with no argument an error; otherwise the digest of the first
argument is put under `"CounterSeed"`. -/
def Init (cr : Crypto) (stub : Stub) (_function : String) (args : List String) :
    Result × Stub :=
  match args with
  | [] => (Result.fail "Invalid Init Arg: ([])", stub)
  | arg0 :: _ =>
    let counterSeed := cr.Sum256 arg0
    match stub.PutState "CounterSeed" counterSeed with
    | (stub₁, some _) =>
      (Result.fail ("Error initializing CounterSeed: (" ++ String.mk (counterSeed.map Char.ofNat)
        ++ ")"), stub₁)
    | (stub₁, none) => (Result.nilnil, stub₁)

/-- The chaincode's `verify`: `none` for `nil`, otherwise the error. -/
def verify (cr : Crypto) (pubKeyBytes sigBytes : Bytes) (message : String) : Option String :=
  match cr.ParsePubKey pubKeyBytes with
  | none => some "Invalid Creator key"
  | some creatorKey =>
    match cr.ParseDERSignature sigBytes with
    | none => some "Bad Creator signature encoding"
    | some signature =>
      let messageBytes := cr.Sum256 message
      if !cr.Verify signature messageBytes creatorKey then some "Invalid Creator Signature"
      else none

/-- The case `"registerOwner"` of `Invoke`.  An error of `proto.Unmarshal` is
printed and the call goes on with the record as it stands, and so is an error
of `proto.Marshal`. -/
def registerOwner (cd : Codec) (cr : Crypto) (stub : Stub) (argsBytes : Bytes) :
    Result × Stub :=
  let registerNameArgs := (cd.unmarshalRegisterIdentityTX argsBytes).1
  match stub.GetState ("OwnerName: " ++ registerNameArgs.OwnerName) with
  | (_, some _) => (Result.fail "Could not get OwnerName State", stub)
  | (registerNameBytes, none) =>
    if registerNameBytes.length ≠ 0 then (Result.fail "OwnerName is unavailable", stub)
    else
      let creatorKeyBytes := registerNameArgs.PubKey
      let creatorSig := registerNameArgs.Signature
      let message := registerNameArgs.OwnerName ++ ":" ++ registerNameArgs.Data
      match verify cr creatorKeyBytes creatorSig message with
      | some _ => (Result.fail "Error verifying signature", stub)
      | none =>
        let store : Identities :=
          { OwnerName := registerNameArgs.OwnerName, Pubkey := registerNameArgs.PubKey }
        let storeBytes := marshalled (cd.marshalIdentities store)
        match stub.PutState ("OwnerName: " ++ registerNameArgs.OwnerName) storeBytes with
        | (stub₁, some e) => (Result.fail e, stub₁)
        | (stub₁, none) => (Result.nilnil, stub₁)

/-- The first loop over `registerThingArgs.Identities`: the error it returns,
or `none` when it runs to its end. -/
def checkIdentities (stub : Stub) : List String → Option String
  | [] => none
  | identity :: rest =>
    match stub.GetState ("OwnerName: " ++ identity) with
    | (_, some _) => some "Could not get Identity State"
    | (aliasCheckBytes, none) =>
      if aliasCheckBytes.length ≠ 0 then
        some ("OwnerName: (" ++ identity ++ ") is already in registry")
      else checkIdentities stub rest

/-- The second loop over `registerThingArgs.Identities`: the signed message. -/
def thingMessage (registerThingArgs : RegisterThingTX) : String :=
  let message := registerThingArgs.Identities.foldl (fun message identity =>
    message ++ (":" ++ identity)) registerThingArgs.OwnerName
  let message := message ++ (":" ++ registerThingArgs.Data)
  message ++ (":" ++ registerThingArgs.Spec)

/-- The third loop over `registerThingArgs.Identities`: an alias record is put
under `"Alias:" + identity` for each one, and what `PutState` returns is
dropped; the loop returns an error when the alias record does not marshal. -/
def putAliases (cd : Codec) (nonce : Bytes) (stub : Stub) : List String → Option String × Stub
  | [] => (none, stub)
  | identity :: rest =>
    let aliasRecord : Alias := { Nonce := nonce }
    match cd.marshalAlias aliasRecord with
    | .error _ =>
      (some ("Error marshalling alias (\x7b" ++ fmtBytes aliasRecord.Nonce ++ "\x7d) into bytes"),
        stub)
    | .ok aliasStoreBytes =>
      putAliases cd nonce (stub.PutState ("Alias:" ++ identity) aliasStoreBytes).1 rest

/-- The case `"registerThing"` of `Invoke`. -/
def registerThing (cd : Codec) (cr : Crypto) (stub : Stub) (argsBytes : Bytes) :
    Result × Stub :=
  let registerThingArgs := (cd.unmarshalRegisterThingTX argsBytes).1
  match stub.GetState ("Nonce: " ++ hexEncodeToString registerThingArgs.Nonce) with
  | (_, some _) => (Result.fail "Could not get Nonce State", stub)
  | (nonceCheckBytes, none) =>
    if nonceCheckBytes.length ≠ 0 then
      (Result.fail ("Nonce is unavailable " ++ hexEncodeToString registerThingArgs.Nonce), stub)
    else
      match stub.GetState ("OwnerName: " ++ registerThingArgs.OwnerName) with
      | (_, some _) => (Result.fail "Failed to look up Owner Name", stub)
      | (checkIDBytes, none) =>
        if checkIDBytes.length = 0 then
          (Result.fail ("OwnerName is not registered " ++ registerThingArgs.OwnerName), stub)
        else
          match checkIdentities stub registerThingArgs.Identities with
          | some e => (Result.fail e, stub)
          | none =>
            match cd.unmarshalIdentities checkIDBytes with
            | (_, some e) => (Result.fail e, stub)
            | (ownerRegistration, none) =>
              let ownerPubKeyBytes := ownerRegistration.Pubkey
              let ownerSig := registerThingArgs.Signature
              let message := thingMessage registerThingArgs
              match verify cr ownerPubKeyBytes ownerSig message with
              | some _ => (Result.fail "Error verifying signature", stub)
              | none =>
                match putAliases cd registerThingArgs.Nonce stub registerThingArgs.Identities with
                | (some e, stub₁) => (Result.fail e, stub₁)
                | (none, stub₁) =>
                  let store : Things :=
                    { Alias := registerThingArgs.Identities
                      OwnerName := registerThingArgs.OwnerName
                      Data := registerThingArgs.Data
                      Spec := registerThingArgs.Spec }
                  let storeBytes := marshalled (cd.marshalThings store)
                  match stub₁.PutState
                      ("Thing: " ++ hexEncodeToString registerThingArgs.Nonce) storeBytes with
                  | (stub₂, some e) => (Result.fail e, stub₂)
                  | (stub₂, none) => (Result.nilnil, stub₂)

/-- The case `"registerSpec"` of `Invoke`. -/
def registerSpec (cd : Codec) (cr : Crypto) (stub : Stub) (argsBytes : Bytes) :
    Result × Stub :=
  let specArgs := (cd.unmarshalRegisterSpecTX argsBytes).1
  match stub.GetState ("Spec: " ++ specArgs.SpecName) with
  | (_, some _) => (Result.fail "Could not get Spec State", stub)
  | (specNameCheckBytes, none) =>
    if specNameCheckBytes.length ≠ 0 then
      (Result.fail ("SpecName is unavailable " ++ specArgs.SpecName), stub)
    else
      match stub.GetState ("OwnerName: " ++ specArgs.OwnerName) with
      | (_, some _) =>
        (Result.fail ("Failed to look up OwnerName (" ++ specArgs.OwnerName ++ ")"), stub)
      | (checkIDBytes, none) =>
        if checkIDBytes.length = 0 then
          (Result.fail ("OwnerName is not registered " ++ specArgs.OwnerName), stub)
        else
          match cd.unmarshalIdentities checkIDBytes with
          | (_, some e) => (Result.fail e, stub)
          | (ownerRegistration, none) =>
            let ownerPubKeyBytes := ownerRegistration.Pubkey
            let ownerSig := specArgs.Signature
            let message := specArgs.SpecName ++ ":" ++ specArgs.OwnerName ++ ":" ++ specArgs.Data
            match verify cr ownerPubKeyBytes ownerSig message with
            | some _ => (Result.fail "Error verifying signature", stub)
            | none =>
              let store : Spec := { OwnerName := specArgs.OwnerName, Data := specArgs.Data }
              let storeBytes := marshalled (cd.marshalSpec store)
              match stub.PutState ("Spec: " ++ specArgs.SpecName) storeBytes with
              | (stub₁, some e) => (Result.fail e, stub₁)
              | (stub₁, none) => (Result.nilnil, stub₁)

/-- The chaincode's `Invoke`: the result and the stub after the call. -/
def Invoke (cd : Codec) (cr : Crypto) (stub : Stub) (function : String) (args : List String) :
    Result × Stub :=
  match args with
  | [] => (Result.fail "Insufficient arguments found", stub)
  | arg0 :: _ =>
    match hexDecodeString arg0 with
    | none => (Result.fail ("Invalid argument (" ++ arg0 ++ ") expected hex"), stub)
    | some argsBytes =>
      if function = "registerOwner" then registerOwner cd cr stub argsBytes
      else if function = "registerThing" then registerThing cd cr stub argsBytes
      else if function = "registerSpec" then registerSpec cd cr stub argsBytes
      else (Result.nilnil, stub)

/-- The case `"owner"` of `Query`. -/
def queryOwner (cd : Codec) (stub : Stub) (args : List String) : Result :=
  match args with
  | [ownerName] =>
    match stub.GetState ("OwnerName: " ++ ownerName) with
    | (_, some e) => Result.fail e
    | (ownerBytes, none) =>
      if ownerBytes.length = 0 then
        Result.fail ("OwnerName (" ++ ownerName ++ ") does not exist\n")
      else
        match cd.unmarshalIdentities ownerBytes with
        | (_, some e) => Result.fail e
        | (owner, none) => Result.ofMarshal (cd.jsonIdentities owner)
  | _ => Result.fail "No argument specified"

/-- The case `"thing"` of `Query`. -/
def queryThing (cd : Codec) (stub : Stub) (args : List String) : Result :=
  match args with
  | [thingNonce] =>
    match stub.GetState ("Thing: " ++ thingNonce) with
    | (_, some e) => Result.fail e
    | (thingBytes, none) =>
      if thingBytes.length = 0 then
        Result.fail ("Thing (" ++ thingNonce ++ ") does not exist\n")
      else
        match cd.unmarshalThings thingBytes with
        | (_, some e) => Result.fail e
        | (thing, none) => Result.ofMarshal (cd.jsonThings thing)
  | _ => Result.fail "No argument specified"

/-- The case `"spec"` of `Query`. -/
def querySpec (cd : Codec) (stub : Stub) (args : List String) : Result :=
  match args with
  | [specName] =>
    match stub.GetState ("Spec: " ++ specName) with
    | (_, some e) => Result.fail e
    | (specBytes, none) =>
      if specBytes.length = 0 then
        Result.fail ("spec (" ++ specName ++ ") does not exist\n")
      else
        match cd.unmarshalSpec specBytes with
        | (_, some e) => Result.fail e
        | (spec, none) => Result.ofMarshal (cd.jsonSpec spec)
  | _ => Result.fail "no argument specified"

/-- The chaincode's `Query`: the result and the stub after the call (the stub it was given:
`Query` calls no `PutState`). -/
def Query (cd : Codec) (stub : Stub) (function : String) (args : List String) :
    Result × Stub :=
  if function = "owner" then (queryOwner cd stub args, stub)
  else if function = "thing" then (queryThing cd stub args, stub)
  else if function = "spec" then (querySpec cd stub args, stub)
  else (Result.nilnil, stub)

/-! ## Sequences of calls -/

/-- The three entry points of the chaincode. -/
inductive Entry where
  | init
  | invoke
  | query
deriving DecidableEq, Repr

/-- One call to the chaincode: the entry point, its function name and
arguments, and the errors the ledger reports to it. -/
structure Call where
  entry : Entry
  function : String
  args : List String
  getErr : String → Option String
  putErr : String → Bytes → Option String

/-- A call on a ledger that reports no error. -/
def Call.mk0 (entry : Entry) (function : String) (args : List String) : Call :=
  ⟨entry, function, args, fun _ => none, fun _ _ => none⟩

/-- The result of a call on a ledger, and the ledger after it. -/
def Call.run (cd : Codec) (cr : Crypto) (l : Ledger) (c : Call) : Result × Ledger :=
  let stub : Stub := ⟨l, c.getErr, c.putErr⟩
  match c.entry with
  | .init => ((Init cr stub c.function c.args).1, (Init cr stub c.function c.args).2.State)
  | .invoke =>
    ((Invoke cd cr stub c.function c.args).1, (Invoke cd cr stub c.function c.args).2.State)
  | .query => ((Query cd stub c.function c.args).1, (Query cd stub c.function c.args).2.State)

/-- The ledger after a sequence of calls. -/
def runCalls (cd : Codec) (cr : Crypto) (l : Ledger) (cs : List Call) : Ledger :=
  cs.foldl (fun l c => (c.run cd cr l).2) l

/-- The ledgers some sequence of calls leads to from the empty one. -/
def Reachable (cd : Codec) (cr : Crypto) (l : Ledger) : Prop :=
  ∃ cs : List Call, runCalls cd cr Ledger.empty cs = l

/-! ## A concrete codec: the proto3 wire format and Go's JSON -/

namespace Wire

/-- The UTF-8 bytes of a code point. -/
def utf8EncodeNat (v : Nat) : Bytes :=
  if v < 128 then [v]
  else if v < 2048 then [192 + v / 64, 128 + v % 64]
  else if v < 65536 then [224 + v / 4096, 128 + v / 64 % 64, 128 + v % 64]
  else [240 + v / 262144, 128 + v / 4096 % 64, 128 + v / 64 % 64, 128 + v % 64]

/-- The bytes of a Go string: its UTF-8 encoding. -/
def stringBytes (s : String) : Bytes := s.data.flatMap fun c => utf8EncodeNat c.toNat

/-- A continuation byte of UTF-8. -/
def isCont (b : Nat) : Bool := 128 ≤ b && b < 192

/-- The characters of a UTF-8 byte sequence, `none` when it is not valid
UTF-8 (overlong forms and surrogates included). -/
def utf8DecodeChars : Bytes → Option (List Char)
  | [] => some []
  | b₀ :: rest =>
    if b₀ < 128 then (utf8DecodeChars rest).map (Char.ofNat b₀ :: ·)
    else if 194 ≤ b₀ ∧ b₀ < 224 then
      match rest with
      | b₁ :: rest₁ =>
        if isCont b₁ then
          (utf8DecodeChars rest₁).map (Char.ofNat ((b₀ - 192) * 64 + (b₁ - 128)) :: ·)
        else none
      | _ => none
    else if 224 ≤ b₀ ∧ b₀ < 240 then
      match rest with
      | b₁ :: b₂ :: rest₂ =>
        let v := (b₀ - 224) * 4096 + (b₁ - 128) * 64 + (b₂ - 128)
        if isCont b₁ ∧ isCont b₂ ∧ 2048 ≤ v ∧ ¬ (55296 ≤ v ∧ v < 57344) then
          (utf8DecodeChars rest₂).map (Char.ofNat v :: ·)
        else none
      | _ => none
    else if 240 ≤ b₀ ∧ b₀ < 245 then
      match rest with
      | b₁ :: b₂ :: b₃ :: rest₃ =>
        let v := (b₀ - 240) * 262144 + (b₁ - 128) * 4096 + (b₂ - 128) * 64 + (b₃ - 128)
        if isCont b₁ ∧ isCont b₂ ∧ isCont b₃ ∧ 65536 ≤ v ∧ v < 1114112 then
          (utf8DecodeChars rest₃).map (Char.ofNat v :: ·)
        else none
      | _ => none
    else none

/-- The Go string of a byte sequence that is valid UTF-8. -/
def bytesString (b : Bytes) : Option String := (utf8DecodeChars b).map String.mk

/-- A base-128 varint, least significant group first (`fuel` groups at most). -/
def putVarint : Nat → Nat → Bytes
  | 0, _ => []
  | fuel + 1, n => if n < 128 then [n] else (128 + n % 128) :: putVarint fuel (n / 128)

/-- The varint at the head of a byte sequence, and the bytes after it. -/
def getVarint : Bytes → Option (Nat × Bytes)
  | [] => none
  | b :: rest =>
    if b < 128 then some (b, rest)
    else
      match getVarint rest with
      | some (v, rest₁) => some (b - 128 + 128 * v, rest₁)
      | none => none

/-- A length-delimited field (wire type 2): key, length, payload. -/
def putField (num : Nat) (payload : Bytes) : Bytes :=
  putVarint 10 (num * 8 + 2) ++ putVarint 10 payload.length ++ payload

/-- A singular proto3 field: nothing at all for the zero value. -/
def putSingular (num : Nat) (payload : Bytes) : Bytes :=
  if payload.length = 0 then [] else putField num payload

/-- A repeated string field: one length-delimited field for each element. -/
def putRepeated (num : Nat) (items : List String) : Bytes :=
  items.flatMap fun s => putField num (stringBytes s)

/-- The decoding loop of `proto.Unmarshal`: each length-delimited field is
handed to `set` (which refuses a string that is not UTF-8), fields of the other
wire types are skipped; an error stops the loop and leaves the record as the
fields before it made it. -/
def unmarshalWith {α : Type} (set : α → Nat → Bytes → Option α) :
    Nat → Bytes → α → α × Option String
  | 0, _, acc => (acc, some "proto: message too long")
  | _ + 1, [], acc => (acc, none)
  | fuel + 1, b :: bs, acc =>
    match getVarint (b :: bs) with
    | none => (acc, some "unexpected EOF")
    | some (key, rest) =>
      if key % 8 = 2 then
        match getVarint rest with
        | none => (acc, some "unexpected EOF")
        | some (len, rest₁) =>
          if rest₁.length < len then (acc, some "unexpected EOF")
          else
            match set acc (key / 8) (rest₁.take len) with
            | none => (acc, some "proto: invalid UTF-8 string")
            | some acc₁ => unmarshalWith set fuel (rest₁.drop len) acc₁
      else if key % 8 = 0 then
        match getVarint rest with
        | none => (acc, some "unexpected EOF")
        | some (_, rest₁) => unmarshalWith set fuel rest₁ acc
      else if key % 8 = 1 then
        if rest.length < 8 then (acc, some "unexpected EOF")
        else unmarshalWith set fuel (rest.drop 8) acc
      else if key % 8 = 5 then
        if rest.length < 4 then (acc, some "unexpected EOF")
        else unmarshalWith set fuel (rest.drop 4) acc
      else (acc, some "proto: illegal wireType")

/-- Go's `proto.Unmarshal` into a record that starts from its zero value. -/
def unmarshal {α : Type} (zero : α) (set : α → Nat → Bytes → Option α) (b : Bytes) :
    α × Option String :=
  unmarshalWith set (b.length + 1) b zero

/-- Go's `base64.StdEncoding` alphabet. -/
def base64Char (n : Nat) : Char :=
  if n < 26 then Char.ofNat (65 + n)
  else if n < 52 then Char.ofNat (97 + (n - 26))
  else if n < 62 then Char.ofNat (48 + (n - 52))
  else if n = 62 then '+' else '/'

/-- Go's `base64.StdEncoding.EncodeToString`, with padding. -/
def base64 : Bytes → List Char
  | [] => []
  | [a] => [base64Char (a / 4), base64Char (a % 4 * 16), '=', '=']
  | [a, b] => [base64Char (a / 4), base64Char (a % 4 * 16 + b / 16), base64Char (b % 16 * 4), '=']
  | a :: b :: c :: rest =>
    base64Char (a / 4) :: base64Char (a % 4 * 16 + b / 16) ::
      base64Char (b % 16 * 4 + c / 64) :: base64Char (c % 64) :: base64 rest

/-- The characters `encoding/json` writes for a character of a string: an
escape for the quotation mark (34), the backslash (92), the control characters,
the angle brackets, the ampersand and the two line separators. -/
def jsonEscape (c : Char) : List Char :=
  if c.toNat = 34 then [Char.ofNat 92, Char.ofNat 34]
  else if c.toNat = 92 then [Char.ofNat 92, Char.ofNat 92]
  else if c.toNat = 10 then [Char.ofNat 92, 'n']
  else if c.toNat = 13 then [Char.ofNat 92, 'r']
  else if c.toNat = 9 then [Char.ofNat 92, 't']
  else if c.toNat < 32 ∨ c = '<' ∨ c = '>' ∨ c = '&' ∨ c.toNat = 8232 ∨ c.toNat = 8233 then
    [Char.ofNat 92, 'u', hexDigit (c.toNat / 4096 % 16), hexDigit (c.toNat / 256 % 16),
      hexDigit (c.toNat / 16 % 16), hexDigit (c.toNat % 16)]
  else [c]

/-- A JSON string literal. -/
def jsonString (s : String) : String :=
  String.mk (Char.ofNat 34 :: s.data.flatMap jsonEscape ++ [Char.ofNat 34])

/-- A JSON object of the members that are present (`omitempty` drops the
others). -/
def jsonObject (members : List (Option String)) : Bytes :=
  stringBytes ("\x7b" ++ ",".intercalate (members.filterMap id) ++ "\x7d")

/-- A member with a string value, dropped when the string is empty. -/
def jsonStringMember (name value : String) : Option String :=
  if value.length = 0 then none else some (jsonString name ++ ":" ++ jsonString value)

/-- A member with a byte-slice value (base64), dropped when the slice is empty. -/
def jsonBytesMember (name : String) (value : Bytes) : Option String :=
  if value.length = 0 then none
  else
    some (jsonString name ++ ":" ++ String.mk (Char.ofNat 34 :: base64 value ++ [Char.ofNat 34]))

/-- A member with a list of strings, dropped when the list is empty. -/
def jsonListMember (name : String) (value : List String) : Option String :=
  if value.length = 0 then none
  else some (jsonString name ++ ":[" ++ ",".intercalate (value.map jsonString) ++ "]")

end Wire

/-- Go's `proto.Marshal` and `proto.Unmarshal` in the proto3 wire format, and
`json.Marshal`, for the records of the two generated packages.  The packages
are not among the sources: every field is taken to be a proto3 `string`,
`bytes` or `repeated string` as the Go code uses it, numbered in the order of
the record's fields here, and named in JSON as in Go, with `omitempty`. -/
def Codec.proto3 : Codec where
  unmarshalRegisterIdentityTX := Wire.unmarshal ⟨"", [], "", []⟩ fun r num b =>
    if num = 1 then (Wire.bytesString b).map fun s => { r with OwnerName := s }
    else if num = 2 then some { r with PubKey := b }
    else if num = 3 then (Wire.bytesString b).map fun s => { r with Data := s }
    else if num = 4 then some { r with Signature := b }
    else some r
  unmarshalRegisterThingTX := Wire.unmarshal ⟨[], "", [], "", "", []⟩ fun r num b =>
    if num = 1 then some { r with Nonce := b }
    else if num = 2 then (Wire.bytesString b).map fun s => { r with OwnerName := s }
    else if num = 3 then (Wire.bytesString b).map fun s =>
      { r with Identities := r.Identities ++ [s] }
    else if num = 4 then (Wire.bytesString b).map fun s => { r with Spec := s }
    else if num = 5 then (Wire.bytesString b).map fun s => { r with Data := s }
    else if num = 6 then some { r with Signature := b }
    else some r
  unmarshalRegisterSpecTX := Wire.unmarshal ⟨"", "", "", []⟩ fun r num b =>
    if num = 1 then (Wire.bytesString b).map fun s => { r with SpecName := s }
    else if num = 2 then (Wire.bytesString b).map fun s => { r with OwnerName := s }
    else if num = 3 then (Wire.bytesString b).map fun s => { r with Data := s }
    else if num = 4 then some { r with Signature := b }
    else some r
  unmarshalIdentities := Wire.unmarshal ⟨"", []⟩ fun r num b =>
    if num = 1 then (Wire.bytesString b).map fun s => { r with OwnerName := s }
    else if num = 2 then some { r with Pubkey := b }
    else some r
  unmarshalThings := Wire.unmarshal ⟨[], "", "", ""⟩ fun r num b =>
    if num = 1 then (Wire.bytesString b).map fun s => { r with Alias := r.Alias ++ [s] }
    else if num = 2 then (Wire.bytesString b).map fun s => { r with OwnerName := s }
    else if num = 3 then (Wire.bytesString b).map fun s => { r with Data := s }
    else if num = 4 then (Wire.bytesString b).map fun s => { r with Spec := s }
    else some r
  unmarshalSpec := Wire.unmarshal ⟨"", ""⟩ fun r num b =>
    if num = 1 then (Wire.bytesString b).map fun s => { r with OwnerName := s }
    else if num = 2 then (Wire.bytesString b).map fun s => { r with Data := s }
    else some r
  marshalIdentities r := .ok
    (Wire.putSingular 1 (Wire.stringBytes r.OwnerName) ++ Wire.putSingular 2 r.Pubkey)
  marshalAlias r := .ok (Wire.putSingular 1 r.Nonce)
  marshalThings r := .ok
    (Wire.putRepeated 1 r.Alias ++ Wire.putSingular 2 (Wire.stringBytes r.OwnerName)
      ++ Wire.putSingular 3 (Wire.stringBytes r.Data)
      ++ Wire.putSingular 4 (Wire.stringBytes r.Spec))
  marshalSpec r := .ok
    (Wire.putSingular 1 (Wire.stringBytes r.OwnerName)
      ++ Wire.putSingular 2 (Wire.stringBytes r.Data))
  jsonIdentities r := .ok (Wire.jsonObject
    [Wire.jsonStringMember "OwnerName" r.OwnerName, Wire.jsonBytesMember "Pubkey" r.Pubkey])
  jsonThings r := .ok (Wire.jsonObject
    [Wire.jsonListMember "Alias" r.Alias, Wire.jsonStringMember "OwnerName" r.OwnerName,
      Wire.jsonStringMember "Data" r.Data, Wire.jsonStringMember "Spec" r.Spec])
  jsonSpec r := .ok (Wire.jsonObject
    [Wire.jsonStringMember "OwnerName" r.OwnerName, Wire.jsonStringMember "Data" r.Data])

/-- The argument a client sends for a `RegisterIdentityTX`: the record in the
wire format, in hexadecimal. -/
def RegisterIdentityTX.arg (r : RegisterIdentityTX) : String :=
  hexEncodeToString
    (Wire.putSingular 1 (Wire.stringBytes r.OwnerName) ++ Wire.putSingular 2 r.PubKey
      ++ Wire.putSingular 3 (Wire.stringBytes r.Data) ++ Wire.putSingular 4 r.Signature)

/-- The argument a client sends for a `RegisterThingTX`. -/
def RegisterThingTX.arg (r : RegisterThingTX) : String :=
  hexEncodeToString
    (Wire.putSingular 1 r.Nonce ++ Wire.putSingular 2 (Wire.stringBytes r.OwnerName)
      ++ Wire.putRepeated 3 r.Identities ++ Wire.putSingular 4 (Wire.stringBytes r.Spec)
      ++ Wire.putSingular 5 (Wire.stringBytes r.Data) ++ Wire.putSingular 6 r.Signature)

/-- The argument a client sends for a `RegisterSpecTX`. -/
def RegisterSpecTX.arg (r : RegisterSpecTX) : String :=
  hexEncodeToString
    (Wire.putSingular 1 (Wire.stringBytes r.SpecName)
      ++ Wire.putSingular 2 (Wire.stringBytes r.OwnerName)
      ++ Wire.putSingular 3 (Wire.stringBytes r.Data) ++ Wire.putSingular 4 r.Signature)

/-! ## A stand-in for the cryptographic library

The curve arithmetic of `btcec` is not modelled.  For runs on concrete inputs
`Crypto.sample` has the shape of the library: a key is accepted in the
compressed form (33 bytes, the first one 2 or 3), a signature in DER form with
one-byte integers, the digest is a one-byte checksum, and a signature `(r, s)`
is good for a key and a digest when `r` is the last byte of the key and `s` is
`r` plus the digest, modulo 256. -/

/-- The stand-in. -/
def Crypto.sample : Crypto where
  ParsePubKey b :=
    match b with
    | [] => none
    | p :: x => if (p = 2 ∨ p = 3) ∧ x.length = 32 then some (x.getLastD 0, p - 2) else none
  ParseDERSignature b :=
    match b with
    | [48, 6, 2, 1, r, 2, 1, s] => some (r, s)
    | _ => none
  Sum256 s := [(Wire.stringBytes s).sum % 256]
  Verify sig digest key := sig.1 = key.1 && [sig.2] = digest.map fun d => (key.1 + d) % 256

/-- The signature the stand-in accepts for a key and a message. -/
def Crypto.sampleSign (pubKey : Bytes) (message : String) : Bytes :=
  [48, 6, 2, 1, pubKey.getLastD 0, 2, 1,
    (pubKey.getLastD 0 + (Wire.stringBytes message).sum % 256) % 256]

/-! ## Predicates of the statements -/

/-- The library rejects an empty public key (`btcec.ParsePubKey` returns
"pubkey string is empty"). -/
def Crypto.RejectsEmptyKey (cr : Crypto) : Prop := cr.ParsePubKey [] = none

/-- An owner record with a public key in it does not marshal to nothing (in
proto3 a field that is not empty is written). -/
def Codec.WritesPubkey (cd : Codec) : Prop :=
  ∀ r : Identities, r.Pubkey ≠ [] → marshalled (cd.marshalIdentities r) ≠ []

/-- The value the code finds under a key: `len(value) != 0`. -/
def Ledger.Holds (l : Ledger) (key : String) : Prop := (l key).getD [] ≠ []

instance (l : Ledger) (key : String) : Decidable (l.Holds key) :=
  inferInstanceAs (Decidable ((l key).getD [] ≠ []))

/-- The ledger holds an owner record under `"OwnerName: " + ownerName`, the
record decodes, and `verify` accepts the signature for the message under the
public key of that record. -/
def Authorized (cd : Codec) (cr : Crypto) (l : Ledger) (ownerName : String) (sig : Bytes)
    (message : String) : Prop :=
  match l ("OwnerName: " ++ ownerName) with
  | none => False
  | some checkIDBytes =>
    checkIDBytes ≠ [] ∧ (cd.unmarshalIdentities checkIDBytes).2 = none ∧
      verify cr (cd.unmarshalIdentities checkIDBytes).1.Pubkey sig message = none

instance (cd : Codec) (cr : Crypto) (l : Ledger) (ownerName : String) (sig : Bytes)
    (message : String) : Decidable (Authorized cd cr l ownerName sig message) := by
  unfold Authorized
  split <;> infer_instance

/-- The thing record `registerThing` stores for a transaction. -/
def RegisterThingTX.store (tx : RegisterThingTX) : Things :=
  { Alias := tx.Identities, OwnerName := tx.OwnerName, Data := tx.Data, Spec := tx.Spec }

/-- The message `registerSpec` verifies. -/
def specMessage (tx : RegisterSpecTX) : String :=
  tx.SpecName ++ ":" ++ tx.OwnerName ++ ":" ++ tx.Data

/-- The stub after the alias records have been put, whatever `PutState`
returned for each. -/
def putAliasRecords (value : Bytes) (stub : Stub) (identities : List String) : Stub :=
  identities.foldl (fun s identity => (s.PutState ("Alias:" ++ identity) value).1) stub

/-- The checks of `registerThing` that come before its first write. -/
def ThingChecks (cd : Codec) (cr : Crypto) (stub : Stub) (tx : RegisterThingTX) : Prop :=
  stub.getErr ("Nonce: " ++ hexEncodeToString tx.Nonce) = none ∧
    ¬ stub.State.Holds ("Nonce: " ++ hexEncodeToString tx.Nonce) ∧
    stub.getErr ("OwnerName: " ++ tx.OwnerName) = none ∧
    checkIdentities stub tx.Identities = none ∧
    Authorized cd cr stub.State tx.OwnerName tx.Signature (thingMessage tx)

/-- The checks of `registerSpec` that come before its write. -/
def SpecChecks (cd : Codec) (cr : Crypto) (stub : Stub) (tx : RegisterSpecTX) : Prop :=
  stub.getErr ("Spec: " ++ tx.SpecName) = none ∧
    ¬ stub.State.Holds ("Spec: " ++ tx.SpecName) ∧
    stub.getErr ("OwnerName: " ++ tx.OwnerName) = none ∧
    Authorized cd cr stub.State tx.OwnerName tx.Signature (specMessage tx)

/-! ## Concrete inputs -/

/-- The first public key of the test file. -/
def alicePub : Bytes :=
  [2, 202, 74, 140, 125, 197, 9, 15, 146, 76, 222, 34, 100, 175, 36, 13, 118, 246, 213, 138,
    93, 45, 21, 200, 197, 245, 157, 149, 199, 11, 217, 228, 220]

/-- The first nonce of the test file, `1f7b169c846f218ab552fa82fbf86758`. -/
def aliceNonce : Bytes :=
  [31, 123, 22, 156, 132, 111, 33, 138, 181, 82, 250, 130, 251, 248, 103, 88]

/-- The owner registration of "Alice". -/
def aliceOwnerTx : RegisterIdentityTX :=
  ⟨"Alice", alicePub, "test data", Crypto.sampleSign alicePub "Alice:test data"⟩

/-- The thing "Alice" registers in the test file. -/
def aliceThingTx : RegisterThingTX :=
  ⟨aliceNonce, "Alice", ["Foo", "Bar"], "test spec", "test data",
    Crypto.sampleSign alicePub "Alice:Foo:Bar:test data:test spec"⟩

/-- Another thing of "Alice" with the same nonce. -/
def aliceThingTx2 : RegisterThingTX :=
  ⟨aliceNonce, "Alice", ["Baz"], "other spec", "other data",
    Crypto.sampleSign alicePub "Alice:Baz:other data:other spec"⟩

/-- A specification of "Alice". -/
def aliceSpecTx : RegisterSpecTX :=
  ⟨"test spec", "Alice", "test data", Crypto.sampleSign alicePub "test spec:Alice:test data"⟩

/-- The ledger after "Alice" has registered. -/
def ledgerAlice : Ledger :=
  runCalls Codec.proto3 Crypto.sample Ledger.empty
    [Call.mk0 .invoke "registerOwner" [aliceOwnerTx.arg]]

/-- The ledger after "Alice" has registered herself and her thing. -/
def ledgerAliceThing : Ledger :=
  runCalls Codec.proto3 Crypto.sample Ledger.empty
    [Call.mk0 .invoke "registerOwner" [aliceOwnerTx.arg],
      Call.mk0 .invoke "registerThing" [aliceThingTx.arg]]

/-- The stub of a call on a ledger that reports no error. -/
def Stub.mk0 (l : Ledger) : Stub := ⟨l, fun _ => none, fun _ _ => none⟩


/-- A second registration under the name "Alice", by another key and with
other data. -/
def malloryOwnerTx : RegisterIdentityTX :=
  ⟨"Alice", 3 :: List.replicate 32 7, "other data",
    Crypto.sampleSign (3 :: List.replicate 32 7) "Alice:other data"⟩

/-- A ledger with a value under a key that begins with `"Nonce: "`. -/
def ledgerNonce : Ledger := Ledger.empty.put "Nonce: 01" [1]

/-- A thing of "Bob", who is not registered, with the nonce `01`. -/
def bobThingTx : RegisterThingTX := ⟨[1], "Bob", [], "spec", "data", []⟩

/-- A thing of "Bob", who is not registered, with the alias "Alice". -/
def bobAliasTx : RegisterThingTX := ⟨[2], "Bob", ["Foo", "Alice"], "spec", "data", []⟩

/-- A thing of "Alice" with the alias "Alice". -/
def aliceAliasTx : RegisterThingTX :=
  ⟨[2], "Alice", ["Foo", "Alice", "Bar"], "spec", "data",
    Crypto.sampleSign alicePub "Alice:Foo:Alice:Bar:data:spec"⟩

/-- The hexadecimal form of the nonce of "Alice", as `Query` is given it. -/
def aliceNonceHex : String := "1f7b169c846f218ab552fa82fbf86758"

/-- The registration of an owner whose name is the empty string. -/
def anonOwnerTx : RegisterIdentityTX := ⟨"", alicePub, "", Crypto.sampleSign alicePub ":"⟩

/-- A thing of the owner with the empty name: no alias, no data, no
specification. -/
def emptyThingTx : RegisterThingTX := ⟨[1], "", [], "", "", Crypto.sampleSign alicePub "::"⟩

/-- A specification of the owner with the empty name, with no data. -/
def emptySpecTx : RegisterSpecTX := ⟨"spec", "", "", Crypto.sampleSign alicePub "spec::"⟩

/-- A specification of "Alice" with the same name. -/
def aliceSpecTx2 : RegisterSpecTX :=
  ⟨"spec", "Alice", "other data", Crypto.sampleSign alicePub "spec:Alice:other data"⟩

/-- The ledger after "Alice" and the owner with the empty name have registered. -/
def ledgerAnon : Ledger :=
  runCalls Codec.proto3 Crypto.sample Ledger.empty
    [Call.mk0 .invoke "registerOwner" [aliceOwnerTx.arg],
      Call.mk0 .invoke "registerOwner" [anonOwnerTx.arg]]

/-! ## The registrant record and the signers of the test file -/

/-- The record `IOTRegistryTX.CreateRegistrantTX`, as the test file fills it. -/
structure CreateRegistrantTX where
  RegistrantName : String
  RegistrantPubkey : Bytes
  Data : String
  Signature : Bytes
deriving DecidableEq, Repr, Inhabited

/-- The argument the test's `createRegistrant` sends: the record in the wire
format, in hexadecimal. -/
def CreateRegistrantTX.arg (r : CreateRegistrantTX) : String :=
  hexEncodeToString
    (Wire.putSingular 1 (Wire.stringBytes r.RegistrantName) ++
      Wire.putSingular 2 r.RegistrantPubkey ++ Wire.putSingular 3 (Wire.stringBytes r.Data) ++
      Wire.putSingular 4 r.Signature)

/-- The message the test's `createRegistrantSig` signs. -/
def createRegistrantSig.message (registrantName registrantPubkey data : String) : String :=
  registrantName ++ ":" ++ registrantPubkey ++ ":" ++ data

/-- The message the test's `generateRegisterThingSig` signs. -/
def generateRegisterThingSig.message (registrantPubkey : String) (aliases : List String)
    (spec data : String) : String :=
  let message := aliases.foldl (fun message identity => message ++ (":" ++ identity))
    registrantPubkey
  let message := message ++ (":" ++ data)
  message ++ (":" ++ spec)

/-- The first public key of the test file in hexadecimal. -/
def alicePubHex : String := "02ca4a8c7dc5090f924cde2264af240d76f6d58a5d2d15c8c5f59d95c70bd9e4dc"

/-- The registrant "Alice" of the test file, signed as `createRegistrantSig`
signs. -/
def aliceRegistrantTx : CreateRegistrantTX :=
  ⟨"Alice", alicePub, "test data",
    Crypto.sampleSign alicePub (createRegistrantSig.message "Alice" alicePubHex "test data")⟩

/-- An owner registration with a signature that does not verify. -/
def forgedOwnerTx : RegisterIdentityTX :=
  ⟨"Bob", alicePub, "data", Crypto.sampleSign alicePub "Bob:other data"⟩

/-- An owner registration with a public key that does not parse. -/
def badKeyOwnerTx : RegisterIdentityTX :=
  ⟨"Bob", [4, 1, 2], "data", Crypto.sampleSign alicePub "Bob:data"⟩

/-- A signature that is no DER signature. -/
def badDer : Bytes := [48, 1, 0]

/-- The argument of the registration of "Alice" with a field cut short after
it: the key of a first field of 127 bytes, and no byte of it. -/
def truncatedOwnerArg : String := aliceOwnerTx.arg ++ "0a7f"

/-- The registration of an owner named "Foo". -/
def fooOwnerTx : RegisterIdentityTX :=
  ⟨"Foo", alicePub, "data", Crypto.sampleSign alicePub "Foo:data"⟩

/-- The ledger after "Alice" has registered herself and her thing with the
aliases "Foo" and "Bar", and an owner named "Foo" has registered. -/
def ledgerFoo : Ledger :=
  runCalls Codec.proto3 Crypto.sample Ledger.empty
    [Call.mk0 .invoke "registerOwner" [aliceOwnerTx.arg],
      Call.mk0 .invoke "registerThing" [aliceThingTx.arg],
      Call.mk0 .invoke "registerOwner" [fooOwnerTx.arg]]

/-- A second thing of "Alice", with another nonce and the alias "Bar" again. -/
def aliceThingTx3 : RegisterThingTX :=
  ⟨[1, 2], "Alice", ["Bar", "Qux"], "spec three", "data three",
    Crypto.sampleSign alicePub "Alice:Bar:Qux:data three:spec three"⟩

/-! ## The calls `Invoke` makes on its stub, in their order

The same code once more, on a stub that keeps a list of the calls made on it:
every `GetState` and `PutState` goes to the stub as the calls before it left
it, and is added to the list. -/

/-- One call on the stub. -/
inductive Op where
  | get (key : String)
  | put (key : String) (value : Bytes)
deriving DecidableEq, Repr

/-- Whether a call on the stub is a read. -/
def Op.isGet : Op → Bool
  | .get _ => true
  | .put _ _ => false

/-- A stub and the calls made on it so far, the oldest first. -/
structure TracedStub where
  stub : Stub
  ops : List Op

/-- The call `stub.GetState(key)` on a traced stub. -/
def TracedStub.GetState (t : TracedStub) (key : String) :
    (Bytes × Option String) × TracedStub :=
  (t.stub.GetState key, ⟨t.stub, t.ops ++ [Op.get key]⟩)

/-- The call `stub.PutState(key, value)` on a traced stub. -/
def TracedStub.PutState (t : TracedStub) (key : String) (value : Bytes) :
    TracedStub × Option String :=
  (⟨(t.stub.PutState key value).1, t.ops ++ [Op.put key value]⟩, (t.stub.PutState key value).2)

namespace Traced

/-- The case `"registerOwner"` of `Invoke`, on a traced stub. -/
def registerOwner (cd : Codec) (cr : Crypto) (t : TracedStub) (argsBytes : Bytes) :
    Result × TracedStub :=
  let registerNameArgs := (cd.unmarshalRegisterIdentityTX argsBytes).1
  match t.GetState ("OwnerName: " ++ registerNameArgs.OwnerName) with
  | ((_, some _), t₁) => (Result.fail "Could not get OwnerName State", t₁)
  | ((registerNameBytes, none), t₁) =>
    if registerNameBytes.length ≠ 0 then (Result.fail "OwnerName is unavailable", t₁)
    else
      let creatorKeyBytes := registerNameArgs.PubKey
      let creatorSig := registerNameArgs.Signature
      let message := registerNameArgs.OwnerName ++ ":" ++ registerNameArgs.Data
      match verify cr creatorKeyBytes creatorSig message with
      | some _ => (Result.fail "Error verifying signature", t₁)
      | none =>
        let store : Identities :=
          { OwnerName := registerNameArgs.OwnerName, Pubkey := registerNameArgs.PubKey }
        let storeBytes := marshalled (cd.marshalIdentities store)
        match t₁.PutState ("OwnerName: " ++ registerNameArgs.OwnerName) storeBytes with
        | (t₂, some e) => (Result.fail e, t₂)
        | (t₂, none) => (Result.nilnil, t₂)

/-- The first loop over `registerThingArgs.Identities`, on a traced stub. -/
def checkIdentities (t : TracedStub) : List String → Option String × TracedStub
  | [] => (none, t)
  | identity :: rest =>
    match t.GetState ("OwnerName: " ++ identity) with
    | ((_, some _), t₁) => (some "Could not get Identity State", t₁)
    | ((aliasCheckBytes, none), t₁) =>
      if aliasCheckBytes.length ≠ 0 then
        (some ("OwnerName: (" ++ identity ++ ") is already in registry"), t₁)
      else checkIdentities t₁ rest

/-- The third loop over `registerThingArgs.Identities`, on a traced stub. -/
def putAliases (cd : Codec) (nonce : Bytes) (t : TracedStub) :
    List String → Option String × TracedStub
  | [] => (none, t)
  | identity :: rest =>
    let aliasRecord : Alias := { Nonce := nonce }
    match cd.marshalAlias aliasRecord with
    | .error _ =>
      (some ("Error marshalling alias (\x7b" ++ fmtBytes aliasRecord.Nonce ++ "\x7d) into bytes"),
        t)
    | .ok aliasStoreBytes =>
      putAliases cd nonce (t.PutState ("Alias:" ++ identity) aliasStoreBytes).1 rest

/-- The case `"registerThing"` of `Invoke`, on a traced stub. -/
def registerThing (cd : Codec) (cr : Crypto) (t : TracedStub) (argsBytes : Bytes) :
    Result × TracedStub :=
  let registerThingArgs := (cd.unmarshalRegisterThingTX argsBytes).1
  match t.GetState ("Nonce: " ++ hexEncodeToString registerThingArgs.Nonce) with
  | ((_, some _), t₁) => (Result.fail "Could not get Nonce State", t₁)
  | ((nonceCheckBytes, none), t₁) =>
    if nonceCheckBytes.length ≠ 0 then
      (Result.fail ("Nonce is unavailable " ++ hexEncodeToString registerThingArgs.Nonce), t₁)
    else
      match t₁.GetState ("OwnerName: " ++ registerThingArgs.OwnerName) with
      | ((_, some _), t₂) => (Result.fail "Failed to look up Owner Name", t₂)
      | ((checkIDBytes, none), t₂) =>
        if checkIDBytes.length = 0 then
          (Result.fail ("OwnerName is not registered " ++ registerThingArgs.OwnerName), t₂)
        else
          match checkIdentities t₂ registerThingArgs.Identities with
          | (some e, t₃) => (Result.fail e, t₃)
          | (none, t₃) =>
            match cd.unmarshalIdentities checkIDBytes with
            | (_, some e) => (Result.fail e, t₃)
            | (ownerRegistration, none) =>
              let ownerPubKeyBytes := ownerRegistration.Pubkey
              let ownerSig := registerThingArgs.Signature
              let message := thingMessage registerThingArgs
              match verify cr ownerPubKeyBytes ownerSig message with
              | some _ => (Result.fail "Error verifying signature", t₃)
              | none =>
                match putAliases cd registerThingArgs.Nonce t₃ registerThingArgs.Identities with
                | (some e, t₄) => (Result.fail e, t₄)
                | (none, t₄) =>
                  let store : Things :=
                    { Alias := registerThingArgs.Identities
                      OwnerName := registerThingArgs.OwnerName
                      Data := registerThingArgs.Data
                      Spec := registerThingArgs.Spec }
                  let storeBytes := marshalled (cd.marshalThings store)
                  match t₄.PutState
                      ("Thing: " ++ hexEncodeToString registerThingArgs.Nonce) storeBytes with
                  | (t₅, some e) => (Result.fail e, t₅)
                  | (t₅, none) => (Result.nilnil, t₅)

/-- The case `"registerSpec"` of `Invoke`, on a traced stub. -/
def registerSpec (cd : Codec) (cr : Crypto) (t : TracedStub) (argsBytes : Bytes) :
    Result × TracedStub :=
  let specArgs := (cd.unmarshalRegisterSpecTX argsBytes).1
  match t.GetState ("Spec: " ++ specArgs.SpecName) with
  | ((_, some _), t₁) => (Result.fail "Could not get Spec State", t₁)
  | ((specNameCheckBytes, none), t₁) =>
    if specNameCheckBytes.length ≠ 0 then
      (Result.fail ("SpecName is unavailable " ++ specArgs.SpecName), t₁)
    else
      match t₁.GetState ("OwnerName: " ++ specArgs.OwnerName) with
      | ((_, some _), t₂) =>
        (Result.fail ("Failed to look up OwnerName (" ++ specArgs.OwnerName ++ ")"), t₂)
      | ((checkIDBytes, none), t₂) =>
        if checkIDBytes.length = 0 then
          (Result.fail ("OwnerName is not registered " ++ specArgs.OwnerName), t₂)
        else
          match cd.unmarshalIdentities checkIDBytes with
          | (_, some e) => (Result.fail e, t₂)
          | (ownerRegistration, none) =>
            let ownerPubKeyBytes := ownerRegistration.Pubkey
            let ownerSig := specArgs.Signature
            let message := specArgs.SpecName ++ ":" ++ specArgs.OwnerName ++ ":" ++ specArgs.Data
            match verify cr ownerPubKeyBytes ownerSig message with
            | some _ => (Result.fail "Error verifying signature", t₂)
            | none =>
              let store : Spec := { OwnerName := specArgs.OwnerName, Data := specArgs.Data }
              let storeBytes := marshalled (cd.marshalSpec store)
              match t₂.PutState ("Spec: " ++ specArgs.SpecName) storeBytes with
              | (t₃, some e) => (Result.fail e, t₃)
              | (t₃, none) => (Result.nilnil, t₃)

/-- The chaincode's `Invoke`, on a traced stub. -/
def Invoke (cd : Codec) (cr : Crypto) (t : TracedStub) (function : String)
    (args : List String) : Result × TracedStub :=
  match args with
  | [] => (Result.fail "Insufficient arguments found", t)
  | arg0 :: _ =>
    match hexDecodeString arg0 with
    | none => (Result.fail ("Invalid argument (" ++ arg0 ++ ") expected hex"), t)
    | some argsBytes =>
      if function = "registerOwner" then registerOwner cd cr t argsBytes
      else if function = "registerThing" then registerThing cd cr t argsBytes
      else if function = "registerSpec" then registerSpec cd cr t argsBytes
      else (Result.nilnil, t)

end Traced

/-- No read comes after a write in a list of calls on the stub. -/
def readsFirst : List Op → Bool
  | [] => true
  | .get _ :: rest => readsFirst rest
  | .put _ _ :: rest => rest.all fun o => !o.isGet

/-- What a piece of the code on a traced stub `t`, with the outcome `r`, has to
do with the same piece on the plain stub, with the outcome `r₀`: the same
result, the same stub, and the calls added to the list are reads `gs` followed
by writes `ps`; and if the result is an error and each of the writes reported
no error, the ledger is as it was. -/
def TraceSpec (t : TracedStub) (r : Result × TracedStub) (r₀ : Result × Stub) : Prop :=
  r.1 = r₀.1 ∧ r.2.stub = r₀.2 ∧
    ∃ gs ps : List Op, r.2.ops = t.ops ++ gs ++ ps ∧ (∀ o ∈ gs, o.isGet = true) ∧
      (∀ o ∈ ps, o.isGet = false) ∧
      (r₀.1.err ≠ none → (∀ k v, Op.put k v ∈ ps → t.stub.putErr k v = none) →
        r₀.2.State = t.stub.State)

/-- A stub on the ledger after "Alice" has registered whose `PutState` fails
on the key of the thing of the test file and on no other key. -/
def stubThingPutFails : Stub :=
  ⟨ledgerAlice, fun _ => none, fun key _ =>
    if key = "Thing: 1f7b169c846f218ab552fa82fbf86758" then some "put failed" else none⟩

/-- A stub on the ledger after "Alice" has registered whose `PutState` fails
on the key `"Alias:Foo"` and on no other key. -/
def stubAliasPutFails : Stub :=
  ⟨ledgerAlice, fun _ => none, fun key _ =>
    if key = "Alias:Foo" then some "put failed" else none⟩

/-- The ledger the specification gives for a `registerThing` that succeeds:
the ledger before, updated for each alias in the order of the transaction with
the alias record of the nonce under `"Alias:" + alias`, and then with the thing
record of the aliases, owner name, data and specification under
`"Thing: " + hex(nonce)`. -/
def registerThingLedger (cd : Codec) (l : Ledger) (tx : RegisterThingTX) : Ledger :=
  (tx.Identities.foldl
      (fun l a => l.put ("Alias:" ++ a) (marshalled (cd.marshalAlias ⟨tx.Nonce⟩))) l).put
    ("Thing: " ++ hexEncodeToString tx.Nonce)
    (marshalled (cd.marshalThings ⟨tx.Identities, tx.OwnerName, tx.Data, tx.Spec⟩))

/-- A thing of "Alice" with the alias "a" and the data "b", signed by her. -/
def signedThingTx : RegisterThingTX :=
  ⟨[3], "Alice", ["a"], "spec", "b", Crypto.sampleSign alicePub "Alice:a:b:spec"⟩

/-- Another thing of "Alice", with another nonce, no alias and the data "a:b",
carrying the signature of `signedThingTx`. -/
def replayedThingTx : RegisterThingTX :=
  ⟨[4], "Alice", [], "spec", "a:b", signedThingTx.Signature⟩

/-! ## Keys and ledgers -/

/-- Two keys whose first characters differ are different. -/
theorem key_ne_of_head (p q a b : String)
    (h : (p.data ++ a.data).head? ≠ (q.data ++ b.data).head?) : p ++ a ≠ q ++ b := by
  intro he
  apply h
  have hd := congrArg String.data he
  simp only [String.data_append] at hd
  rw [hd]

/-- A key determines what follows its prefix. -/
theorem key_inj (p a b : String) (h : p ++ a = p ++ b) : a = b := by
  have hd := congrArg String.data h
  simp only [String.data_append, List.append_cancel_left_eq] at hd
  exact String.ext hd

theorem Ledger.put_same (l : Ledger) (key : String) (value : Bytes) :
    l.put key value key = some value := by
  simp [Ledger.put]

theorem Ledger.put_ne (l : Ledger) (key k : String) (value : Bytes) (h : k ≠ key) :
    l.put key value k = l k := by
  simp [Ledger.put, h]

theorem Stub.GetState_ok {stub : Stub} {key : String} (h : stub.getErr key = none) :
    stub.GetState key = ((stub.State key).getD [], none) := by
  simp [Stub.GetState, h]

theorem Stub.GetState_err {stub : Stub} {key : String} {bytes : Bytes}
    (h : stub.GetState key = (bytes, none)) :
    stub.getErr key = none ∧ bytes = (stub.State key).getD [] := by
  unfold Stub.GetState at h
  split at h
  · simp at h
  · rename_i hg
    simp at h
    exact ⟨hg, h.symm⟩

theorem Stub.PutState_getErr (stub : Stub) (key : String) (value : Bytes) :
    (stub.PutState key value).1.getErr = stub.getErr := by
  unfold Stub.PutState
  split <;> rfl

theorem Stub.PutState_putErr (stub : Stub) (key : String) (value : Bytes) :
    (stub.PutState key value).1.putErr = stub.putErr := by
  unfold Stub.PutState
  split <;> rfl

/-- A write that reports an error changes nothing. -/
theorem Stub.PutState_fail {stub : Stub} {key : String} {value : Bytes} {e : String}
    (h : (stub.PutState key value).2 = some e) : (stub.PutState key value).1 = stub := by
  unfold Stub.PutState at h ⊢
  split
  · rfl
  · rename_i hp
    simp [hp] at h

/-- A write that reports no error has put the value. -/
theorem Stub.PutState_ok {stub : Stub} {key : String} {value : Bytes}
    (h : (stub.PutState key value).2 = none) :
    (stub.PutState key value).1.State = stub.State.put key value ∧
      stub.putErr key value = none := by
  unfold Stub.PutState at h ⊢
  split
  · rename_i hp
    simp [hp] at h
  · rename_i hp
    exact ⟨rfl, hp⟩

/-- Only the key of a write can change, and only to the value written. -/
theorem Stub.PutState_changed {stub : Stub} {key k : String} {value : Bytes}
    (h : (stub.PutState key value).1.State k ≠ stub.State k) :
    k = key ∧ (stub.PutState key value).1.State k = some value := by
  unfold Stub.PutState at h ⊢
  split
  · rename_i hp
    simp [hp] at h
  · rename_i hp
    simp only [hp] at h
    by_cases hk : k = key
    · subst hk
      exact ⟨rfl, Ledger.put_same _ _ _⟩
    · exact absurd (Ledger.put_ne _ _ _ _ hk) h


/-- The definition `Init` by cases. -/
theorem Init_eq (cr : Crypto) (stub : Stub) (function : String) (args : List String) :
    Init cr stub function args =
      match args with
      | [] => (Result.fail "Invalid Init Arg: ([])", stub)
      | arg0 :: _ =>
        match stub.putErr "CounterSeed" (cr.Sum256 arg0) with
        | some _ =>
          (Result.fail ("Error initializing CounterSeed: (" ++
            String.mk ((cr.Sum256 arg0).map Char.ofNat) ++ ")"), stub)
        | none =>
          (Result.nilnil, { stub with State := stub.State.put "CounterSeed" (cr.Sum256 arg0) }) := by
  unfold Init Stub.PutState
  cases args with
  | nil => rfl
  | cons arg0 rest =>
    simp only
    cases stub.putErr "CounterSeed" (cr.Sum256 arg0) <;> rfl

/-- The definition `registerOwner` by cases. -/
theorem registerOwner_eq (cd : Codec) (cr : Crypto) (stub : Stub) (b : Bytes) :
    registerOwner cd cr stub b =
      let tx := (cd.unmarshalRegisterIdentityTX b).1
      let key := "OwnerName: " ++ tx.OwnerName
      let value := marshalled (cd.marshalIdentities ⟨tx.OwnerName, tx.PubKey⟩)
      if stub.getErr key ≠ none then (Result.fail "Could not get OwnerName State", stub)
      else if stub.State.Holds key then (Result.fail "OwnerName is unavailable", stub)
      else if verify cr tx.PubKey tx.Signature (tx.OwnerName ++ ":" ++ tx.Data) ≠ none then
        (Result.fail "Error verifying signature", stub)
      else
        match stub.putErr key value with
        | some e => (Result.fail e, stub)
        | none => (Result.nilnil, { stub with State := stub.State.put key value }) := by
  unfold registerOwner Stub.GetState Stub.PutState Ledger.Holds
  simp only
  cases hg : stub.getErr ("OwnerName: " ++ (cd.unmarshalRegisterIdentityTX b).1.OwnerName) with
  | some e => simp
  | none =>
    simp only [ne_eq, not_true_eq_false, if_false, List.length_eq_zero]
    by_cases hh : (stub.State ("OwnerName: " ++
        (cd.unmarshalRegisterIdentityTX b).1.OwnerName)).getD [] = []
    · simp only [hh, not_true_eq_false, if_false]
      cases hv : verify cr (cd.unmarshalRegisterIdentityTX b).1.PubKey
          (cd.unmarshalRegisterIdentityTX b).1.Signature
          ((cd.unmarshalRegisterIdentityTX b).1.OwnerName ++ ":" ++
            (cd.unmarshalRegisterIdentityTX b).1.Data) with
      | some e => simp
      | none =>
        simp only [not_true_eq_false, if_false]
        cases stub.putErr ("OwnerName: " ++ (cd.unmarshalRegisterIdentityTX b).1.OwnerName)
          (marshalled (cd.marshalIdentities ⟨(cd.unmarshalRegisterIdentityTX b).1.OwnerName,
            (cd.unmarshalRegisterIdentityTX b).1.PubKey⟩)) <;> rfl
    · simp only [hh, not_false_eq_true, if_true]

theorem Init_changed {cr : Crypto} {stub : Stub} {function : String} {args : List String}
    {k : String} (h : (Init cr stub function args).2.State k ≠ stub.State k) :
    k = "CounterSeed" := by
  rw [Init_eq] at h
  split at h
  · exact absurd rfl h
  · split at h
    · exact absurd rfl h
    · by_contra hk
      exact h (Ledger.put_ne _ _ _ _ hk)

theorem Query_state (cd : Codec) (stub : Stub) (function : String) (args : List String) :
    (Query cd stub function args).2 = stub := by
  unfold Query
  split_ifs <;> rfl

/-- The definition `registerSpec` by cases. -/
theorem registerSpec_eq (cd : Codec) (cr : Crypto) (stub : Stub) (b : Bytes) :
    registerSpec cd cr stub b =
      let tx := (cd.unmarshalRegisterSpecTX b).1
      let key := "Spec: " ++ tx.SpecName
      let ownerKey := "OwnerName: " ++ tx.OwnerName
      let checkIDBytes := (stub.State ownerKey).getD []
      let value := marshalled (cd.marshalSpec ⟨tx.OwnerName, tx.Data⟩)
      if stub.getErr key ≠ none then (Result.fail "Could not get Spec State", stub)
      else if stub.State.Holds key then
        (Result.fail ("SpecName is unavailable " ++ tx.SpecName), stub)
      else if stub.getErr ownerKey ≠ none then
        (Result.fail ("Failed to look up OwnerName (" ++ tx.OwnerName ++ ")"), stub)
      else if ¬ stub.State.Holds ownerKey then
        (Result.fail ("OwnerName is not registered " ++ tx.OwnerName), stub)
      else
        match (cd.unmarshalIdentities checkIDBytes).2 with
        | some e => (Result.fail e, stub)
        | none =>
          if verify cr (cd.unmarshalIdentities checkIDBytes).1.Pubkey tx.Signature
              (specMessage tx) ≠ none then
            (Result.fail "Error verifying signature", stub)
          else
            match stub.putErr key value with
            | some e => (Result.fail e, stub)
            | none => (Result.nilnil, { stub with State := stub.State.put key value }) := by
  unfold registerSpec Stub.GetState Stub.PutState Ledger.Holds specMessage
  simp only
  cases hg : stub.getErr ("Spec: " ++ (cd.unmarshalRegisterSpecTX b).1.SpecName) with
  | some e => simp
  | none =>
    simp only [ne_eq, not_true_eq_false, if_false, List.length_eq_zero, not_not]
    by_cases hh : (stub.State ("Spec: " ++ (cd.unmarshalRegisterSpecTX b).1.SpecName)).getD []
        = []
    · simp only [hh, not_true_eq_false, if_false]
      cases hg₂ : stub.getErr ("OwnerName: " ++ (cd.unmarshalRegisterSpecTX b).1.OwnerName) with
      | some e => simp
      | none =>
        simp only [not_true_eq_false, if_false]
        by_cases ho : (stub.State ("OwnerName: " ++
            (cd.unmarshalRegisterSpecTX b).1.OwnerName)).getD [] = []
        · simp only [ho, if_true]
        · simp only [ho, if_false]
          rcases hu : cd.unmarshalIdentities ((stub.State ("OwnerName: " ++
            (cd.unmarshalRegisterSpecTX b).1.OwnerName)).getD []) with ⟨reg, _ | e⟩
          · simp only
            cases hv : verify cr reg.Pubkey (cd.unmarshalRegisterSpecTX b).1.Signature
                ((cd.unmarshalRegisterSpecTX b).1.SpecName ++ ":" ++
                  (cd.unmarshalRegisterSpecTX b).1.OwnerName ++ ":" ++
                  (cd.unmarshalRegisterSpecTX b).1.Data) with
            | some e => simp
            | none =>
              simp only [not_true_eq_false, if_false]
              cases stub.putErr ("Spec: " ++ (cd.unmarshalRegisterSpecTX b).1.SpecName)
                (marshalled (cd.marshalSpec ⟨(cd.unmarshalRegisterSpecTX b).1.OwnerName,
                  (cd.unmarshalRegisterSpecTX b).1.Data⟩)) <;> rfl
          · simp only
    · simp only [hh, not_false_eq_true, if_true]

/-- The third loop by cases. -/
theorem putAliases_eq (cd : Codec) (nonce : Bytes) (stub : Stub) (identities : List String) :
    putAliases cd nonce stub identities =
      match identities, cd.marshalAlias ⟨nonce⟩ with
      | [], _ => (none, stub)
      | _ :: _, .error _ =>
        (some ("Error marshalling alias (\x7b" ++ fmtBytes nonce ++ "\x7d) into bytes"), stub)
      | _ :: _, .ok value => (none, putAliasRecords value stub identities) := by
  induction identities generalizing stub with
  | nil => rfl
  | cons a rest ih =>
    unfold putAliases
    simp only
    cases hm : cd.marshalAlias ⟨nonce⟩ with
    | error e => rfl
    | ok value =>
      simp only
      rw [ih]
      cases rest with
      | nil => rfl
      | cons a₂ rest₂ => simp only [hm, putAliasRecords, List.foldl_cons]

theorem putAliasRecords_getErr (value : Bytes) (stub : Stub) (identities : List String) :
    (putAliasRecords value stub identities).getErr = stub.getErr := by
  induction identities generalizing stub with
  | nil => rfl
  | cons a rest ih =>
    simp only [putAliasRecords, List.foldl_cons] at ih ⊢
    rw [ih, Stub.PutState_getErr]

theorem putAliasRecords_putErr (value : Bytes) (stub : Stub) (identities : List String) :
    (putAliasRecords value stub identities).putErr = stub.putErr := by
  induction identities generalizing stub with
  | nil => rfl
  | cons a rest ih =>
    simp only [putAliasRecords, List.foldl_cons] at ih ⊢
    rw [ih, Stub.PutState_putErr]

/-- The alias records change keys `"Alias:" + identity` only. -/
theorem putAliasRecords_changed {value : Bytes} {stub : Stub} {identities : List String}
    {k : String} (h : (putAliasRecords value stub identities).State k ≠ stub.State k) :
    ∃ a ∈ identities, k = "Alias:" ++ a := by
  induction identities generalizing stub with
  | nil => exact absurd rfl h
  | cons a rest ih =>
    simp only [putAliasRecords, List.foldl_cons] at ih h
    by_cases hk : ((stub.PutState ("Alias:" ++ a) value).1.State k) = stub.State k
    · rw [← hk] at h
      obtain ⟨a', ha', hk'⟩ := ih h
      exact ⟨a', List.mem_cons_of_mem _ ha', hk'⟩
    · exact ⟨a, List.mem_cons_self _ _, (Stub.PutState_changed hk).1⟩

/-- A key that is no alias key is left alone by the alias records. -/
theorem putAliasRecords_other (value : Bytes) (stub : Stub) (identities : List String)
    (k : String) (hk : ∀ a, k ≠ "Alias:" ++ a) :
    (putAliasRecords value stub identities).State k = stub.State k := by
  by_contra h
  obtain ⟨a, _, ha⟩ := putAliasRecords_changed h
  exact hk a ha

/-- The definition `registerThing` by cases. -/
theorem registerThing_eq (cd : Codec) (cr : Crypto) (stub : Stub) (b : Bytes) :
    registerThing cd cr stub b =
      let tx := (cd.unmarshalRegisterThingTX b).1
      let nonceKey := "Nonce: " ++ hexEncodeToString tx.Nonce
      let ownerKey := "OwnerName: " ++ tx.OwnerName
      let key := "Thing: " ++ hexEncodeToString tx.Nonce
      let checkIDBytes := (stub.State ownerKey).getD []
      let value := marshalled (cd.marshalThings tx.store)
      if stub.getErr nonceKey ≠ none then (Result.fail "Could not get Nonce State", stub)
      else if stub.State.Holds nonceKey then
        (Result.fail ("Nonce is unavailable " ++ hexEncodeToString tx.Nonce), stub)
      else if stub.getErr ownerKey ≠ none then (Result.fail "Failed to look up Owner Name", stub)
      else if ¬ stub.State.Holds ownerKey then
        (Result.fail ("OwnerName is not registered " ++ tx.OwnerName), stub)
      else
        match checkIdentities stub tx.Identities with
        | some e => (Result.fail e, stub)
        | none =>
          match (cd.unmarshalIdentities checkIDBytes).2 with
          | some e => (Result.fail e, stub)
          | none =>
            if verify cr (cd.unmarshalIdentities checkIDBytes).1.Pubkey tx.Signature
                (thingMessage tx) ≠ none then
              (Result.fail "Error verifying signature", stub)
            else
              match putAliases cd tx.Nonce stub tx.Identities with
              | (some e, stub₁) => (Result.fail e, stub₁)
              | (none, stub₁) =>
                match stub₁.putErr key value with
                | some e => (Result.fail e, stub₁)
                | none => (Result.nilnil, { stub₁ with State := stub₁.State.put key value }) := by
  unfold registerThing Stub.GetState Ledger.Holds RegisterThingTX.store
  simp only
  cases hg : stub.getErr ("Nonce: " ++ hexEncodeToString (cd.unmarshalRegisterThingTX b).1.Nonce)
    with
  | some e => simp
  | none =>
    simp only [ne_eq, not_true_eq_false, if_false, List.length_eq_zero, not_not]
    by_cases hh : (stub.State ("Nonce: " ++
        hexEncodeToString (cd.unmarshalRegisterThingTX b).1.Nonce)).getD [] = []
    · simp only [hh, not_true_eq_false, if_false]
      cases hg₂ : stub.getErr ("OwnerName: " ++ (cd.unmarshalRegisterThingTX b).1.OwnerName) with
      | some e => simp
      | none =>
        simp only [not_true_eq_false, if_false]
        by_cases ho : (stub.State ("OwnerName: " ++
            (cd.unmarshalRegisterThingTX b).1.OwnerName)).getD [] = []
        · simp only [ho, if_true]
        · simp only [ho, if_false]
          cases hc : checkIdentities stub (cd.unmarshalRegisterThingTX b).1.Identities with
          | some e => rfl
          | none =>
            simp only
            rcases hu : cd.unmarshalIdentities ((stub.State ("OwnerName: " ++
              (cd.unmarshalRegisterThingTX b).1.OwnerName)).getD []) with ⟨reg, _ | e⟩
            · simp only
              cases hv : verify cr reg.Pubkey (cd.unmarshalRegisterThingTX b).1.Signature
                  (thingMessage (cd.unmarshalRegisterThingTX b).1) with
              | some e => simp
              | none =>
                simp only [not_true_eq_false, if_false]
                rcases hp : putAliases cd (cd.unmarshalRegisterThingTX b).1.Nonce stub
                  (cd.unmarshalRegisterThingTX b).1.Identities with ⟨_ | e, stub₁⟩
                · simp only [Stub.PutState]
                  cases stub₁.putErr ("Thing: " ++
                    hexEncodeToString (cd.unmarshalRegisterThingTX b).1.Nonce)
                    (marshalled (cd.marshalThings ⟨(cd.unmarshalRegisterThingTX b).1.Identities,
                      (cd.unmarshalRegisterThingTX b).1.OwnerName,
                      (cd.unmarshalRegisterThingTX b).1.Data,
                      (cd.unmarshalRegisterThingTX b).1.Spec⟩)) <;> rfl
                · rfl
            · simp only
    · simp only [hh, not_false_eq_true, if_true]

/-- The definition `Invoke` on an argument that is hexadecimal. -/
theorem Invoke_eq (cd : Codec) (cr : Crypto) (stub : Stub) (function arg : String)
    (rest : List String) (b : Bytes) (hb : hexDecodeString arg = some b) :
    Invoke cd cr stub function (arg :: rest) =
      if function = "registerOwner" then registerOwner cd cr stub b
      else if function = "registerThing" then registerThing cd cr stub b
      else if function = "registerSpec" then registerSpec cd cr stub b
      else (Result.nilnil, stub) := by
  simp only [Invoke, hb]

/-- The definition `Invoke` without an argument that is hexadecimal: an error, nothing changed. -/
theorem Invoke_bad_arg (cd : Codec) (cr : Crypto) (stub : Stub) (function : String)
    (args : List String) (h : args.head?.bind hexDecodeString = none) :
    (Invoke cd cr stub function args).2 = stub ∧
      (Invoke cd cr stub function args).1.err ≠ none := by
  cases args with
  | nil => simp [Invoke, Result.fail]
  | cons arg rest =>
    simp only [List.head?_cons, Option.some_bind] at h
    simp [Invoke, h, Result.fail]

theorem Ledger.holds_iff (l : Ledger) (key : String) :
    l.Holds key ↔ ∃ v, l key = some v ∧ v ≠ [] := by
  unfold Ledger.Holds
  cases l key with
  | none => simp
  | some v => simp

/-- A verified key is not empty, so the owner record written for it is not. -/
theorem owner_value_ne_nil {cd : Codec} {cr : Crypto} (hkey : cr.RejectsEmptyKey)
    (hcd : cd.WritesPubkey) {name : String} {pubKey sig : Bytes} {message : String}
    (hv : verify cr pubKey sig message = none) :
    marshalled (cd.marshalIdentities ⟨name, pubKey⟩) ≠ [] := by
  apply hcd
  intro hp
  simp only at hp
  subst hp
  unfold verify at hv
  rw [hkey] at hv
  simp at hv

/-- What `registerOwner` changes: the key of the name, which held nothing, to
the record of a transaction that `verify` accepted. -/
theorem registerOwner_changed {cd : Codec} {cr : Crypto} {stub : Stub} {b : Bytes} {k : String}
    (h : (registerOwner cd cr stub b).2.State k ≠ stub.State k) :
    k = "OwnerName: " ++ (cd.unmarshalRegisterIdentityTX b).1.OwnerName ∧
      ¬ stub.State.Holds k ∧
      verify cr (cd.unmarshalRegisterIdentityTX b).1.PubKey
        (cd.unmarshalRegisterIdentityTX b).1.Signature
        ((cd.unmarshalRegisterIdentityTX b).1.OwnerName ++ ":" ++
          (cd.unmarshalRegisterIdentityTX b).1.Data) = none ∧
      (registerOwner cd cr stub b).2.State k =
        some (marshalled (cd.marshalIdentities
          ⟨(cd.unmarshalRegisterIdentityTX b).1.OwnerName,
            (cd.unmarshalRegisterIdentityTX b).1.PubKey⟩)) := by
  rw [registerOwner_eq] at h ⊢
  simp only at h ⊢
  split_ifs at h ⊢ with h₁ h₂ h₃
  · exact absurd rfl h
  · exact absurd rfl h
  · exact absurd rfl h
  · split at h
    · exact absurd rfl h
    · rename_i hp
      simp only [hp] at h ⊢
      by_cases hk : k = "OwnerName: " ++ (cd.unmarshalRegisterIdentityTX b).1.OwnerName
      · refine ⟨hk, ?_, not_not.mp h₃, ?_⟩
        · rw [hk]
          exact h₂
        · rw [hk]
          exact Ledger.put_same _ _ _
      · exact absurd (Ledger.put_ne _ _ _ _ hk) h

/-- A call of `registerOwner` that reports no error has written the record. -/
theorem registerOwner_ok {cd : Codec} {cr : Crypto} {stub : Stub} {b : Bytes}
    (h : (registerOwner cd cr stub b).1.err = none) :
    verify cr (cd.unmarshalRegisterIdentityTX b).1.PubKey
        (cd.unmarshalRegisterIdentityTX b).1.Signature
        ((cd.unmarshalRegisterIdentityTX b).1.OwnerName ++ ":" ++
          (cd.unmarshalRegisterIdentityTX b).1.Data) = none ∧
      (registerOwner cd cr stub b).2.State
          ("OwnerName: " ++ (cd.unmarshalRegisterIdentityTX b).1.OwnerName) =
        some (marshalled (cd.marshalIdentities
          ⟨(cd.unmarshalRegisterIdentityTX b).1.OwnerName,
            (cd.unmarshalRegisterIdentityTX b).1.PubKey⟩)) := by
  rw [registerOwner_eq] at h ⊢
  simp only at h ⊢
  split_ifs at h ⊢ with h₁ h₂ h₃
  · simp [Result.fail] at h
  · simp [Result.fail] at h
  · simp [Result.fail] at h
  · split at h
    · simp [Result.fail] at h
    · rename_i hp
      simp only [hp]
      exact ⟨not_not.mp h₃, Ledger.put_same _ _ _⟩

/-- The definition `registerOwner` on a name that is taken. -/
theorem registerOwner_taken {cd : Codec} {cr : Crypto} {stub : Stub} {b : Bytes}
    (h : stub.State.Holds ("OwnerName: " ++ (cd.unmarshalRegisterIdentityTX b).1.OwnerName)) :
    (registerOwner cd cr stub b).2 = stub ∧ (registerOwner cd cr stub b).1.err ≠ none ∧
      (stub.getErr ("OwnerName: " ++ (cd.unmarshalRegisterIdentityTX b).1.OwnerName) = none →
        (registerOwner cd cr stub b).1 = Result.fail "OwnerName is unavailable") := by
  rw [registerOwner_eq]
  simp only
  split_ifs with h₁
  · exact ⟨rfl, by simp [Result.fail], fun hg => absurd hg h₁⟩
  · exact ⟨rfl, by simp [Result.fail], fun _ => rfl⟩

theorem Authorized_iff (cd : Codec) (cr : Crypto) (l : Ledger) (ownerName : String)
    (sig : Bytes) (message : String) :
    Authorized cd cr l ownerName sig message ↔
      l.Holds ("OwnerName: " ++ ownerName) ∧
        (cd.unmarshalIdentities ((l ("OwnerName: " ++ ownerName)).getD [])).2 = none ∧
        verify cr (cd.unmarshalIdentities ((l ("OwnerName: " ++ ownerName)).getD [])).1.Pubkey
          sig message = none := by
  unfold Authorized Ledger.Holds
  cases l ("OwnerName: " ++ ownerName) with
  | none => simp
  | some v => simp

/-- The first loop finds no registered name exactly when every read succeeds
and finds nothing. -/
theorem checkIdentities_eq_none (stub : Stub) (identities : List String) :
    checkIdentities stub identities = none ↔
      ∀ a ∈ identities, stub.getErr ("OwnerName: " ++ a) = none ∧
        ¬ stub.State.Holds ("OwnerName: " ++ a) := by
  induction identities with
  | nil => simp [checkIdentities]
  | cons a rest ih =>
    unfold checkIdentities Stub.GetState Ledger.Holds
    cases hg : stub.getErr ("OwnerName: " ++ a) with
    | some e => simp [hg]
    | none =>
      simp only [ne_eq, List.length_eq_zero, List.mem_cons, forall_eq_or_imp, hg, true_and]
      by_cases hh : (stub.State ("OwnerName: " ++ a)).getD [] = []
      · simp only [hh, not_true_eq_false, if_false, ih, not_false_eq_true, true_and]
        rfl
      · simp [hh]

/-- With reads that succeed, the first loop fails on the first alias that is a
registered name. -/
theorem checkIdentities_conflict (stub : Stub) (identities : List String) (a : String)
    (hget : ∀ x ∈ identities, stub.getErr ("OwnerName: " ++ x) = none)
    (hfind : identities.find? (fun x => decide (stub.State.Holds ("OwnerName: " ++ x))) = some a) :
    checkIdentities stub identities =
      some ("OwnerName: (" ++ a ++ ") is already in registry") := by
  induction identities with
  | nil => simp at hfind
  | cons x rest ih =>
    unfold checkIdentities Stub.GetState
    rw [hget x (List.mem_cons_self _ _)]
    simp only [List.find?_cons] at hfind
    by_cases hh : stub.State.Holds ("OwnerName: " ++ x)
    · simp only [hh, decide_True, Option.some.injEq] at hfind
      subst hfind
      have hh' : (stub.State ("OwnerName: " ++ x)).getD [] ≠ [] := hh
      simp [hh']
    · simp only [hh, decide_False] at hfind
      have hh' : (stub.State ("OwnerName: " ++ x)).getD [] = [] := not_not.mp hh
      simp only [hh', List.length_nil, ne_eq, not_true_eq_false, if_false]
      exact ih (fun y hy => hget y (List.mem_cons_of_mem _ hy)) hfind

/-- The definition `registerThing` when a check fails: an error, and the stub as it was. -/
theorem registerThing_unchecked {cd : Codec} {cr : Crypto} {stub : Stub} {b : Bytes}
    (h : ¬ ThingChecks cd cr stub (cd.unmarshalRegisterThingTX b).1) :
    (registerThing cd cr stub b).2 = stub ∧ (registerThing cd cr stub b).1.err ≠ none := by
  rw [registerThing_eq]
  simp only [ThingChecks, Authorized_iff] at h ⊢
  by_cases h₁ : stub.getErr ("Nonce: " ++
      hexEncodeToString (cd.unmarshalRegisterThingTX b).1.Nonce) = none
  swap
  · simp [h₁, Result.fail]
  by_cases h₂ : stub.State.Holds ("Nonce: " ++
      hexEncodeToString (cd.unmarshalRegisterThingTX b).1.Nonce)
  · simp [h₁, h₂, Result.fail]
  by_cases h₃ : stub.getErr ("OwnerName: " ++ (cd.unmarshalRegisterThingTX b).1.OwnerName) = none
  swap
  · simp [h₁, h₂, h₃, Result.fail]
  by_cases h₄ : stub.State.Holds ("OwnerName: " ++ (cd.unmarshalRegisterThingTX b).1.OwnerName)
  swap
  · simp [h₁, h₂, h₃, h₄, Result.fail]
  cases hc : checkIdentities stub (cd.unmarshalRegisterThingTX b).1.Identities
  swap
  · simp [h₁, h₂, h₃, h₄, hc, Result.fail]
  cases hu : (cd.unmarshalIdentities ((stub.State ("OwnerName: " ++
      (cd.unmarshalRegisterThingTX b).1.OwnerName)).getD [])).2
  swap
  · simp [h₁, h₂, h₃, h₄, hc, hu, Result.fail]
  by_cases h₅ : verify cr (cd.unmarshalIdentities ((stub.State ("OwnerName: " ++
      (cd.unmarshalRegisterThingTX b).1.OwnerName)).getD [])).1.Pubkey
      (cd.unmarshalRegisterThingTX b).1.Signature
      (thingMessage (cd.unmarshalRegisterThingTX b).1) = none
  swap
  · simp [h₁, h₂, h₃, h₄, hc, hu, h₅, Result.fail]
  exact absurd ⟨h₁, h₂, h₃, hc, h₄, hu, h₅⟩ h

/-- The definition `registerThing` when the checks pass: the alias records, then the thing. -/
theorem registerThing_checked {cd : Codec} {cr : Crypto} {stub : Stub} {b : Bytes}
    (h : ThingChecks cd cr stub (cd.unmarshalRegisterThingTX b).1) :
    registerThing cd cr stub b =
      match putAliases cd (cd.unmarshalRegisterThingTX b).1.Nonce stub
        (cd.unmarshalRegisterThingTX b).1.Identities with
      | (some e, stub₁) => (Result.fail e, stub₁)
      | (none, stub₁) =>
        match stub₁.putErr ("Thing: " ++ hexEncodeToString (cd.unmarshalRegisterThingTX b).1.Nonce)
          (marshalled (cd.marshalThings (cd.unmarshalRegisterThingTX b).1.store)) with
        | some e => (Result.fail e, stub₁)
        | none =>
          (Result.nilnil,
            ⟨stub₁.State.put
              ("Thing: " ++ hexEncodeToString (cd.unmarshalRegisterThingTX b).1.Nonce)
              (marshalled (cd.marshalThings (cd.unmarshalRegisterThingTX b).1.store)),
              stub₁.getErr, stub₁.putErr⟩) := by
  rw [registerThing_eq]
  simp only [ThingChecks, Authorized_iff] at h ⊢
  obtain ⟨h₁, h₂, h₃, hc, h₄, hu, h₅⟩ := h
  simp only [h₁, h₂, h₃, h₄, hc, hu, h₅, ne_eq, not_true_eq_false, not_false_eq_true, if_false]

/-- The stub after the writes of `registerThing`, when the alias record
marshals to `value` (or there is no alias). -/
theorem registerThing_writes {cd : Codec} {cr : Crypto} {stub : Stub} {b : Bytes}
    (h : ThingChecks cd cr stub (cd.unmarshalRegisterThingTX b).1) (value : Bytes)
    (hm : (cd.unmarshalRegisterThingTX b).1.Identities ≠ [] →
      cd.marshalAlias ⟨(cd.unmarshalRegisterThingTX b).1.Nonce⟩ = .ok value) :
    registerThing cd cr stub b =
      match stub.putErr ("Thing: " ++ hexEncodeToString (cd.unmarshalRegisterThingTX b).1.Nonce)
        (marshalled (cd.marshalThings (cd.unmarshalRegisterThingTX b).1.store)) with
      | some e =>
        (Result.fail e, putAliasRecords value stub (cd.unmarshalRegisterThingTX b).1.Identities)
      | none =>
        (Result.nilnil,
          ⟨(putAliasRecords value stub (cd.unmarshalRegisterThingTX b).1.Identities).State.put
              ("Thing: " ++ hexEncodeToString (cd.unmarshalRegisterThingTX b).1.Nonce)
              (marshalled (cd.marshalThings (cd.unmarshalRegisterThingTX b).1.store)),
            stub.getErr, stub.putErr⟩) := by
  rw [registerThing_checked h, putAliases_eq]
  cases hi : (cd.unmarshalRegisterThingTX b).1.Identities with
  | nil => simp only [putAliasRecords, List.foldl_nil]
  | cons a rest =>
    rw [hi] at hm
    rw [hm (List.cons_ne_nil _ _)]
    simp only [putAliasRecords_putErr, putAliasRecords_getErr]

/-- The definition `registerThing` when the alias record does not marshal: an error and no
write. -/
theorem registerThing_alias_error {cd : Codec} {cr : Crypto} {stub : Stub} {b : Bytes}
    (h : ThingChecks cd cr stub (cd.unmarshalRegisterThingTX b).1) (e : String)
    (hi : (cd.unmarshalRegisterThingTX b).1.Identities ≠ [])
    (hm : cd.marshalAlias ⟨(cd.unmarshalRegisterThingTX b).1.Nonce⟩ = .error e) :
    (registerThing cd cr stub b).2 = stub ∧ (registerThing cd cr stub b).1.err ≠ none := by
  rw [registerThing_checked h, putAliases_eq]
  cases hi' : (cd.unmarshalRegisterThingTX b).1.Identities with
  | nil => exact absurd hi' hi
  | cons a rest =>
    rw [hm]
    simp [Result.fail]

/-- What `registerThing` changes: alias keys of the transaction and its thing
key, and only when the checks pass. -/
theorem registerThing_changed {cd : Codec} {cr : Crypto} {stub : Stub} {b : Bytes} {k : String}
    (h : (registerThing cd cr stub b).2.State k ≠ stub.State k) :
    ThingChecks cd cr stub (cd.unmarshalRegisterThingTX b).1 ∧
      ((∃ a ∈ (cd.unmarshalRegisterThingTX b).1.Identities, k = "Alias:" ++ a) ∨
        (k = "Thing: " ++ hexEncodeToString (cd.unmarshalRegisterThingTX b).1.Nonce ∧
          (registerThing cd cr stub b).2.State k =
            some (marshalled (cd.marshalThings (cd.unmarshalRegisterThingTX b).1.store)))) := by
  by_cases hc : ThingChecks cd cr stub (cd.unmarshalRegisterThingTX b).1
  · refine ⟨hc, ?_⟩
    by_cases hi : (cd.unmarshalRegisterThingTX b).1.Identities = []
    · have hw := registerThing_writes hc [] (fun hne => absurd hi hne)
      rw [hw] at h ⊢
      rw [hi] at h ⊢
      simp only [putAliasRecords, List.foldl_nil] at h ⊢
      split at h
      · exact absurd rfl h
      · rename_i hp
        simp only [hp]
        by_cases hk : k = "Thing: " ++ hexEncodeToString (cd.unmarshalRegisterThingTX b).1.Nonce
        · right
          refine ⟨hk, ?_⟩
          rw [hk]
          exact Ledger.put_same _ _ _
        · exact absurd (Ledger.put_ne _ _ _ _ hk) h
    · cases hm : cd.marshalAlias ⟨(cd.unmarshalRegisterThingTX b).1.Nonce⟩ with
      | error e =>
        rw [(registerThing_alias_error hc e hi hm).1] at h
        exact absurd rfl h
      | ok value =>
        have hw := registerThing_writes hc value (fun _ => hm)
        rw [hw] at h ⊢
        by_cases hk : k = "Thing: " ++ hexEncodeToString (cd.unmarshalRegisterThingTX b).1.Nonce
        · split at h
          · rename_i hp
            simp only [hp]
            left
            simp only at h
            exact putAliasRecords_changed h
          · rename_i hp
            simp only [hp]
            right
            refine ⟨hk, ?_⟩
            rw [hk]
            exact Ledger.put_same _ _ _
        · left
          split at h
          · exact putAliasRecords_changed h
          · simp only at h
            rw [Ledger.put_ne _ _ _ _ hk] at h
            exact putAliasRecords_changed h
  · rw [(registerThing_unchecked hc).1] at h
    exact absurd rfl h

/-- The definition `registerSpec` when a check fails: an error, and the stub as it was. -/
theorem registerSpec_unchecked {cd : Codec} {cr : Crypto} {stub : Stub} {b : Bytes}
    (h : ¬ SpecChecks cd cr stub (cd.unmarshalRegisterSpecTX b).1) :
    (registerSpec cd cr stub b).2 = stub ∧ (registerSpec cd cr stub b).1.err ≠ none := by
  rw [registerSpec_eq]
  simp only [SpecChecks, Authorized_iff] at h ⊢
  by_cases h₁ : stub.getErr ("Spec: " ++ (cd.unmarshalRegisterSpecTX b).1.SpecName) = none
  swap
  · simp [h₁, Result.fail]
  by_cases h₂ : stub.State.Holds ("Spec: " ++ (cd.unmarshalRegisterSpecTX b).1.SpecName)
  · simp [h₁, h₂, Result.fail]
  by_cases h₃ : stub.getErr ("OwnerName: " ++ (cd.unmarshalRegisterSpecTX b).1.OwnerName) = none
  swap
  · simp [h₁, h₂, h₃, Result.fail]
  by_cases h₄ : stub.State.Holds ("OwnerName: " ++ (cd.unmarshalRegisterSpecTX b).1.OwnerName)
  swap
  · simp [h₁, h₂, h₃, h₄, Result.fail]
  cases hu : (cd.unmarshalIdentities ((stub.State ("OwnerName: " ++
      (cd.unmarshalRegisterSpecTX b).1.OwnerName)).getD [])).2
  swap
  · simp [h₁, h₂, h₃, h₄, hu, Result.fail]
  by_cases h₅ : verify cr (cd.unmarshalIdentities ((stub.State ("OwnerName: " ++
      (cd.unmarshalRegisterSpecTX b).1.OwnerName)).getD [])).1.Pubkey
      (cd.unmarshalRegisterSpecTX b).1.Signature
      (specMessage (cd.unmarshalRegisterSpecTX b).1) = none
  swap
  · simp [h₁, h₂, h₃, h₄, hu, h₅, Result.fail]
  exact absurd ⟨h₁, h₂, h₃, h₄, hu, h₅⟩ h

/-- The definition `registerSpec` when the checks pass: the write. -/
theorem registerSpec_checked {cd : Codec} {cr : Crypto} {stub : Stub} {b : Bytes}
    (h : SpecChecks cd cr stub (cd.unmarshalRegisterSpecTX b).1) :
    registerSpec cd cr stub b =
      match stub.putErr ("Spec: " ++ (cd.unmarshalRegisterSpecTX b).1.SpecName)
        (marshalled (cd.marshalSpec ⟨(cd.unmarshalRegisterSpecTX b).1.OwnerName,
          (cd.unmarshalRegisterSpecTX b).1.Data⟩)) with
      | some e => (Result.fail e, stub)
      | none =>
        (Result.nilnil,
          ⟨stub.State.put ("Spec: " ++ (cd.unmarshalRegisterSpecTX b).1.SpecName)
            (marshalled (cd.marshalSpec ⟨(cd.unmarshalRegisterSpecTX b).1.OwnerName,
              (cd.unmarshalRegisterSpecTX b).1.Data⟩)), stub.getErr, stub.putErr⟩) := by
  rw [registerSpec_eq]
  simp only [SpecChecks, Authorized_iff] at h ⊢
  obtain ⟨h₁, h₂, h₃, h₄, hu, h₅⟩ := h
  simp only [h₁, h₂, h₃, h₄, hu, h₅, ne_eq, not_true_eq_false, not_false_eq_true, if_false]

/-- What `registerSpec` changes: the key of the name, which held nothing, and
only when the checks pass. -/
theorem registerSpec_changed {cd : Codec} {cr : Crypto} {stub : Stub} {b : Bytes} {k : String}
    (h : (registerSpec cd cr stub b).2.State k ≠ stub.State k) :
    SpecChecks cd cr stub (cd.unmarshalRegisterSpecTX b).1 ∧
      k = "Spec: " ++ (cd.unmarshalRegisterSpecTX b).1.SpecName ∧
      (registerSpec cd cr stub b).2.State k =
        some (marshalled (cd.marshalSpec ⟨(cd.unmarshalRegisterSpecTX b).1.OwnerName,
          (cd.unmarshalRegisterSpecTX b).1.Data⟩)) := by
  by_cases hc : SpecChecks cd cr stub (cd.unmarshalRegisterSpecTX b).1
  · refine ⟨hc, ?_⟩
    rw [registerSpec_checked hc] at h ⊢
    split at h
    · exact absurd rfl h
    · rename_i hp
      simp only [hp]
      by_cases hk : k = "Spec: " ++ (cd.unmarshalRegisterSpecTX b).1.SpecName
      · refine ⟨hk, ?_⟩
        rw [hk]
        exact Ledger.put_same _ _ _
      · exact absurd (Ledger.put_ne _ _ _ _ hk) h
  · rw [(registerSpec_unchecked hc).1] at h
    exact absurd rfl h

/-- A call of `registerSpec` that reports no error passed the checks and has
written the record. -/
theorem registerSpec_ok {cd : Codec} {cr : Crypto} {stub : Stub} {b : Bytes}
    (h : (registerSpec cd cr stub b).1.err = none) :
    SpecChecks cd cr stub (cd.unmarshalRegisterSpecTX b).1 ∧
      (registerSpec cd cr stub b).2.State
          ("Spec: " ++ (cd.unmarshalRegisterSpecTX b).1.SpecName) =
        some (marshalled (cd.marshalSpec ⟨(cd.unmarshalRegisterSpecTX b).1.OwnerName,
          (cd.unmarshalRegisterSpecTX b).1.Data⟩)) := by
  by_cases hc : SpecChecks cd cr stub (cd.unmarshalRegisterSpecTX b).1
  · refine ⟨hc, ?_⟩
    rw [registerSpec_checked hc] at h ⊢
    split at h
    · simp [Result.fail] at h
    · rename_i hp
      simp only [hp]
      exact Ledger.put_same _ _ _
  · exact absurd h (registerSpec_unchecked hc).2

/-- A call of `registerThing` that reports no error passed the checks and has
written the thing record. -/
theorem registerThing_ok {cd : Codec} {cr : Crypto} {stub : Stub} {b : Bytes}
    (h : (registerThing cd cr stub b).1.err = none) :
    ThingChecks cd cr stub (cd.unmarshalRegisterThingTX b).1 ∧
      (registerThing cd cr stub b).2.State
          ("Thing: " ++ hexEncodeToString (cd.unmarshalRegisterThingTX b).1.Nonce) =
        some (marshalled (cd.marshalThings (cd.unmarshalRegisterThingTX b).1.store)) := by
  by_cases hc : ThingChecks cd cr stub (cd.unmarshalRegisterThingTX b).1
  · refine ⟨hc, ?_⟩
    rw [registerThing_checked hc] at h ⊢
    rcases hp : putAliases cd (cd.unmarshalRegisterThingTX b).1.Nonce stub
      (cd.unmarshalRegisterThingTX b).1.Identities with ⟨_ | e, stub₁⟩
    · rw [hp] at h
      simp only at h ⊢
      split at h
      · simp [Result.fail] at h
      · rename_i hp₂
        simp only [hp₂]
        exact Ledger.put_same _ _ _
    · rw [hp] at h
      simp [Result.fail] at h
  · exact absurd h (registerThing_unchecked hc).2

/-- The keys a call can change, and what it takes to change an owner key or a
specification key: the key held nothing. -/
theorem Call.run_changed {cd : Codec} {cr : Crypto} {l : Ledger} {c : Call} {k : String}
    (h : (c.run cd cr l).2 k ≠ l k) :
    k = "CounterSeed" ∨
      (∃ n, k = "OwnerName: " ++ n ∧ ¬ l.Holds k ∧
        ∃ pubKey sig message, verify cr pubKey sig message = none ∧
          (c.run cd cr l).2 k = some (marshalled (cd.marshalIdentities ⟨n, pubKey⟩))) ∨
      (∃ a, k = "Alias:" ++ a) ∨ (∃ x, k = "Thing: " ++ x) ∨
      (∃ s, k = "Spec: " ++ s ∧ ¬ l.Holds k) := by
  unfold Call.run at h ⊢
  cases he : c.entry with
  | init =>
    simp only [he] at h ⊢
    exact Or.inl (Init_changed h)
  | query =>
    simp only [he, Query_state] at h
    exact absurd rfl h
  | invoke =>
    simp only [he] at h ⊢
    cases hb : c.args.head?.bind hexDecodeString with
    | none =>
      rw [(Invoke_bad_arg cd cr _ c.function c.args hb).1] at h
      exact absurd rfl h
    | some b =>
      cases hargs : c.args with
      | nil => simp [hargs] at hb
      | cons arg rest =>
        simp only [hargs, List.head?_cons, Option.some_bind] at hb
        rw [hargs] at h
        rw [Invoke_eq cd cr _ c.function arg rest b hb] at h ⊢
        split_ifs at h ⊢ with h₁ h₂ h₃
        · obtain ⟨hk, hh, hv, hval⟩ := registerOwner_changed h
          exact Or.inr (Or.inl ⟨_, hk, hh, _, _, _, hv, hval⟩)
        · obtain ⟨_, hk⟩ := registerThing_changed h
          rcases hk with ⟨a, _, hk⟩ | ⟨hk, _⟩
          · exact Or.inr (Or.inr (Or.inl ⟨a, hk⟩))
          · exact Or.inr (Or.inr (Or.inr (Or.inl ⟨_, hk⟩)))
        · obtain ⟨hc, hk, _⟩ := registerSpec_changed h
          refine Or.inr (Or.inr (Or.inr (Or.inr ⟨_, hk, ?_⟩)))
          rw [hk]
          exact hc.2.1
        · exact absurd rfl h

theorem runCalls_nil (cd : Codec) (cr : Crypto) (l : Ledger) : runCalls cd cr l [] = l := rfl

theorem runCalls_cons (cd : Codec) (cr : Crypto) (l : Ledger) (c : Call) (cs : List Call) :
    runCalls cd cr l (c :: cs) = runCalls cd cr (c.run cd cr l).2 cs := rfl

theorem runCalls_append (cd : Codec) (cr : Crypto) (l : Ledger) (cs₁ cs₂ : List Call) :
    runCalls cd cr l (cs₁ ++ cs₂) = runCalls cd cr (runCalls cd cr l cs₁) cs₂ := by
  simp [runCalls, List.foldl_append]

/-- A ledger a call leads to from a reachable one is reachable. -/
theorem Reachable.step {cd : Codec} {cr : Crypto} {l : Ledger} (h : Reachable cd cr l)
    (cs : List Call) : Reachable cd cr (runCalls cd cr l cs) := by
  obtain ⟨cs₀, hcs₀⟩ := h
  exact ⟨cs₀ ++ cs, by rw [runCalls_append, hcs₀]⟩

/-- A property of ledgers that the empty ledger has and every call keeps holds
of every reachable ledger. -/
theorem Reachable.induction {cd : Codec} {cr : Crypto} (P : Ledger → Prop)
    (h0 : P Ledger.empty) (hstep : ∀ l c, P l → P (Call.run cd cr l c).2) {l : Ledger}
    (h : Reachable cd cr l) : P l := by
  obtain ⟨cs, hcs⟩ := h
  subst hcs
  have key : ∀ (cs : List Call) (l₀ : Ledger), P l₀ → P (runCalls cd cr l₀ cs) := by
    intro cs
    induction cs with
    | nil => intro l₀ h; exact h
    | cons c cs ih => intro l₀ h; exact ih _ (hstep l₀ c h)
  exact key cs _ h0

/-- A key that holds an owner record is left as it is by every call. -/
theorem owner_frozen (cd : Codec) (cr : Crypto) (l : Ledger) (n : String)
    (h : l.Holds ("OwnerName: " ++ n)) (cs : List Call) :
    runCalls cd cr l cs ("OwnerName: " ++ n) = l ("OwnerName: " ++ n) := by
  induction cs generalizing l with
  | nil => rfl
  | cons c cs ih =>
    rw [runCalls_cons]
    have hstep : (c.run cd cr l).2 ("OwnerName: " ++ n) = l ("OwnerName: " ++ n) := by
      by_contra hne
      rcases Call.run_changed hne with hk | ⟨_, _, hh, _⟩ | ⟨a, hk⟩ | ⟨x, hk⟩ | ⟨s, hk, _⟩
      · exact key_ne_of_head "OwnerName: " "CounterSeed" n "" (by simp) (by simpa using hk)
      · exact hh h
      · exact key_ne_of_head "OwnerName: " "Alias:" n a (by simp) hk
      · exact key_ne_of_head "OwnerName: " "Thing: " n x (by simp) hk
      · exact key_ne_of_head "OwnerName: " "Spec: " n s (by simp) hk
    have h' : (c.run cd cr l).2.Holds ("OwnerName: " ++ n) := by
      unfold Ledger.Holds
      rw [hstep]
      exact h
    rw [ih _ h', hstep]

/-- A key that holds a specification record is left as it is by every call. -/
theorem spec_frozen (cd : Codec) (cr : Crypto) (l : Ledger) (s : String)
    (h : l.Holds ("Spec: " ++ s)) (cs : List Call) :
    runCalls cd cr l cs ("Spec: " ++ s) = l ("Spec: " ++ s) := by
  induction cs generalizing l with
  | nil => rfl
  | cons c cs ih =>
    rw [runCalls_cons]
    have hstep : (c.run cd cr l).2 ("Spec: " ++ s) = l ("Spec: " ++ s) := by
      by_contra hne
      rcases Call.run_changed hne with hk | ⟨n, hk, _⟩ | ⟨a, hk⟩ | ⟨x, hk⟩ | ⟨_, _, hh⟩
      · exact key_ne_of_head "Spec: " "CounterSeed" s "" (by simp) (by simpa using hk)
      · exact key_ne_of_head "Spec: " "OwnerName: " s n (by simp) hk
      · exact key_ne_of_head "Spec: " "Alias:" s a (by simp) hk
      · exact key_ne_of_head "Spec: " "Thing: " s x (by simp) hk
      · exact hh h
    have h' : (c.run cd cr l).2.Holds ("Spec: " ++ s) := by
      unfold Ledger.Holds
      rw [hstep]
      exact h
    rw [ih _ h', hstep]

/-- No call writes a key that begins with `"Nonce: "`. -/
theorem nonce_untouched (cd : Codec) (cr : Crypto) (l : Ledger) (c : Call) (t : String) :
    (c.run cd cr l).2 ("Nonce: " ++ t) = l ("Nonce: " ++ t) := by
  by_contra hne
  rcases Call.run_changed hne with hk | ⟨n, hk, _⟩ | ⟨a, hk⟩ | ⟨x, hk⟩ | ⟨s, hk, _⟩
  · exact key_ne_of_head "Nonce: " "CounterSeed" t "" (by simp) (by simpa using hk)
  · exact key_ne_of_head "Nonce: " "OwnerName: " t n (by simp) hk
  · exact key_ne_of_head "Nonce: " "Alias:" t a (by simp) hk
  · exact key_ne_of_head "Nonce: " "Thing: " t x (by simp) hk
  · exact key_ne_of_head "Nonce: " "Spec: " t s (by simp) hk

/-- In a reachable ledger no key that begins with `"Nonce: "` is present. -/
theorem nonce_absent {cd : Codec} {cr : Crypto} {l : Ledger} (h : Reachable cd cr l)
    (t : String) : l ("Nonce: " ++ t) = none := by
  refine Reachable.induction (fun l => ∀ t, l ("Nonce: " ++ t) = none) ?_ ?_ h t
  · intro t
    rfl
  · intro l c ih t
    rw [nonce_untouched, ih]

/-- In a reachable ledger an owner key that is present holds a record that is
not empty. -/
theorem owner_present_holds {cd : Codec} {cr : Crypto} (hkey : cr.RejectsEmptyKey)
    (hcd : cd.WritesPubkey) {l : Ledger} (h : Reachable cd cr l) (n : String) (v : Bytes)
    (hv : l ("OwnerName: " ++ n) = some v) : v ≠ [] := by
  refine Reachable.induction
    (fun l => ∀ n v, l ("OwnerName: " ++ n) = some v → v ≠ []) ?_ ?_ h n v hv
  · intro n v hv
    simp [Ledger.empty] at hv
  · intro l c ih n v hv
    by_cases hne : (c.run cd cr l).2 ("OwnerName: " ++ n) = l ("OwnerName: " ++ n)
    · rw [hne] at hv
      exact ih n v hv
    · rcases Call.run_changed hne with hk | ⟨n', hk, _, pk, sig, msg, hver, hval⟩ | ⟨a, hk⟩ |
        ⟨x, hk⟩ | ⟨s, hk, _⟩
      · exact absurd (by simpa using hk)
          (key_ne_of_head "OwnerName: " "CounterSeed" n "" (by simp))
      · rw [hval] at hv
        simp only [Option.some.injEq] at hv
        rw [← hv]
        exact owner_value_ne_nil hkey hcd hver
      · exact absurd hk (key_ne_of_head "OwnerName: " "Alias:" n a (by simp))
      · exact absurd hk (key_ne_of_head "OwnerName: " "Thing: " n x (by simp))
      · exact absurd hk (key_ne_of_head "OwnerName: " "Spec: " n s (by simp))

/-! ## The concrete codec and the stand-in meet the two conditions -/

theorem Crypto.sample_rejectsEmptyKey : Crypto.sample.RejectsEmptyKey := rfl

theorem Wire.putField_ne_nil (num : Nat) (payload : Bytes) (h : payload ≠ []) :
    Wire.putField num payload ≠ [] := by
  unfold Wire.putField
  intro he
  exact h (List.append_eq_nil.mp he).2

theorem Codec.proto3_writesPubkey : Codec.proto3.WritesPubkey := by
  intro r hr
  simp only [Codec.proto3, marshalled, Wire.putSingular, List.length_eq_zero, hr, if_false]
  intro he
  exact Wire.putField_ne_nil 2 r.Pubkey hr (List.append_eq_nil.mp he).2

/-! ## C1 -/

/-- C1: after an `Invoke("registerOwner")` for a name has reported no error,
and after any calls that follow it, an `Invoke("registerOwner")` whose record
carries the same name leaves the ledger as it is and returns an error, which
is "OwnerName is unavailable" when the read of the name reports no error,
whatever public key, data and signature the record carries. -/
theorem C1_registerOwner_name_taken (cd : Codec) (cr : Crypto) (hkey : cr.RejectsEmptyKey)
    (hcd : cd.WritesPubkey) (stub : Stub) (arg : String) (rest : List String) (b : Bytes)
    (hb : hexDecodeString arg = some b)
    (hok : (Invoke cd cr stub "registerOwner" (arg :: rest)).1.err = none)
    (cs : List Call) (stub₂ : Stub)
    (hl : stub₂.State =
      runCalls cd cr (Invoke cd cr stub "registerOwner" (arg :: rest)).2.State cs)
    (arg₂ : String) (rest₂ : List String) (b₂ : Bytes) (hb₂ : hexDecodeString arg₂ = some b₂)
    (hn : (cd.unmarshalRegisterIdentityTX b₂).1.OwnerName =
      (cd.unmarshalRegisterIdentityTX b).1.OwnerName) :
    (Invoke cd cr stub₂ "registerOwner" (arg₂ :: rest₂)).2 = stub₂ ∧
      (Invoke cd cr stub₂ "registerOwner" (arg₂ :: rest₂)).1.err ≠ none ∧
      (stub₂.getErr ("OwnerName: " ++ (cd.unmarshalRegisterIdentityTX b).1.OwnerName) = none →
        (Invoke cd cr stub₂ "registerOwner" (arg₂ :: rest₂)).1 =
          Result.fail "OwnerName is unavailable") := by
  rw [Invoke_eq cd cr stub "registerOwner" arg rest b hb] at hok hl
  rw [Invoke_eq cd cr stub₂ "registerOwner" arg₂ rest₂ b₂ hb₂]
  simp only [if_true] at hok hl ⊢
  obtain ⟨hv, hval⟩ := registerOwner_ok hok
  have hholds : (registerOwner cd cr stub b).2.State.Holds
      ("OwnerName: " ++ (cd.unmarshalRegisterIdentityTX b).1.OwnerName) := by
    unfold Ledger.Holds
    rw [hval]
    exact owner_value_ne_nil hkey hcd hv
  have hholds₂ : stub₂.State.Holds
      ("OwnerName: " ++ (cd.unmarshalRegisterIdentityTX b₂).1.OwnerName) := by
    unfold Ledger.Holds at hholds ⊢
    rw [hn, hl, owner_frozen cd cr _ _ hholds cs]
    exact hholds
  have htaken := @registerOwner_taken cd cr stub₂ b₂ hholds₂
  rw [hn] at htaken
  exact htaken

/-- C1 on the ledger of the test file: "Alice" registers, registers her thing,
and a registration of "Alice" with another key, other data and a signature that
verifies is turned down. -/
theorem C1_registerOwner_name_taken_witness :
    (Invoke Codec.proto3 Crypto.sample (Stub.mk0 Ledger.empty) "registerOwner"
        [aliceOwnerTx.arg]).1.err = none ∧
      (Invoke Codec.proto3 Crypto.sample
        (Stub.mk0 (runCalls Codec.proto3 Crypto.sample
          (Invoke Codec.proto3 Crypto.sample (Stub.mk0 Ledger.empty) "registerOwner"
            [aliceOwnerTx.arg]).2.State [Call.mk0 .invoke "registerThing" [aliceThingTx.arg]]))
        "registerOwner" [malloryOwnerTx.arg]).1 = Result.fail "OwnerName is unavailable" :=
  ⟨by decide,
    (C1_registerOwner_name_taken Codec.proto3 Crypto.sample Crypto.sample_rejectsEmptyKey
      Codec.proto3_writesPubkey (Stub.mk0 Ledger.empty) aliceOwnerTx.arg []
      ((hexDecodeString aliceOwnerTx.arg).getD []) (by decide) (by decide)
      [Call.mk0 .invoke "registerThing" [aliceThingTx.arg]] _ rfl
      malloryOwnerTx.arg [] ((hexDecodeString malloryOwnerTx.arg).getD []) (by decide)
      (by decide)).2.2 rfl⟩

/-! ## C2 -/

/-- C2: once the key `"OwnerName: " + n` holds a record, no sequence of `Init`,
`Invoke` and `Query` calls changes the value under it: from any ledger when the
value is not empty, and from any ledger that calls lead to from the empty one
whenever the key is present. -/
theorem C2_identity_immutable (cd : Codec) (cr : Crypto) :
    (∀ (l : Ledger) (n : String), l.Holds ("OwnerName: " ++ n) → ∀ cs : List Call,
      runCalls cd cr l cs ("OwnerName: " ++ n) = l ("OwnerName: " ++ n)) ∧
    (cr.RejectsEmptyKey → cd.WritesPubkey → ∀ (l : Ledger), Reachable cd cr l →
      ∀ (n : String) (v : Bytes), l ("OwnerName: " ++ n) = some v → ∀ cs : List Call,
        runCalls cd cr l cs ("OwnerName: " ++ n) = some v) := by
  refine ⟨fun l n h cs => owner_frozen cd cr l n h cs, ?_⟩
  intro hkey hcd l hl n v hv cs
  have hne := owner_present_holds hkey hcd hl n v hv
  have hh : l.Holds ("OwnerName: " ++ n) := by
    unfold Ledger.Holds
    rw [hv]
    exact hne
  rw [owner_frozen cd cr l n hh cs, hv]

/-- C2 on the ledger of the test file: the record of "Alice" stays under its
key through a second registration of the name, a thing, a specification, an
`Init` and a `Query`. -/
theorem C2_identity_immutable_witness :
    ledgerAlice.Holds "OwnerName: Alice" ∧
      runCalls Codec.proto3 Crypto.sample ledgerAlice
        [Call.mk0 .invoke "registerOwner" [malloryOwnerTx.arg],
          Call.mk0 .invoke "registerThing" [aliceThingTx.arg],
          Call.mk0 .invoke "registerSpec" [aliceSpecTx.arg],
          Call.mk0 .init "init" ["seed"],
          Call.mk0 .query "owner" ["Alice"]] "OwnerName: Alice" =
        ledgerAlice "OwnerName: Alice" ∧
      runCalls Codec.proto3 Crypto.sample ledgerAlice
        [Call.mk0 .invoke "registerOwner" [malloryOwnerTx.arg]] ("OwnerName: " ++ "Alice") =
        some (marshalled (Codec.proto3.marshalIdentities ⟨"Alice", alicePub⟩)) :=
  ⟨by decide,
    (C2_identity_immutable Codec.proto3 Crypto.sample).1 ledgerAlice "Alice" (by decide) _,
    (C2_identity_immutable Codec.proto3 Crypto.sample).2 Crypto.sample_rejectsEmptyKey
      Codec.proto3_writesPubkey ledgerAlice ⟨_, rfl⟩ "Alice" _ (by decide) _⟩

/-! ## C3 -/

/-- C3: when `Invoke("registerThing")` or `Invoke("registerSpec")` reports no
error, or changes the value under any key at all, its argument decodes to a
transaction for which the ledger held an owner record under
`"OwnerName: " + ownerName` and `verify` accepted the signature of the
transaction for its message under the public key decoded from that record. -/
theorem C3_write_is_authorized (cd : Codec) (cr : Crypto) (stub : Stub) (args : List String) :
    (((Invoke cd cr stub "registerThing" args).1.err = none ∨
        ∃ k, (Invoke cd cr stub "registerThing" args).2.State k ≠ stub.State k) →
      ∃ b, args.head?.bind hexDecodeString = some b ∧
        Authorized cd cr stub.State (cd.unmarshalRegisterThingTX b).1.OwnerName
          (cd.unmarshalRegisterThingTX b).1.Signature
          (thingMessage (cd.unmarshalRegisterThingTX b).1)) ∧
    (((Invoke cd cr stub "registerSpec" args).1.err = none ∨
        ∃ k, (Invoke cd cr stub "registerSpec" args).2.State k ≠ stub.State k) →
      ∃ b, args.head?.bind hexDecodeString = some b ∧
        Authorized cd cr stub.State (cd.unmarshalRegisterSpecTX b).1.OwnerName
          (cd.unmarshalRegisterSpecTX b).1.Signature
          (specMessage (cd.unmarshalRegisterSpecTX b).1)) := by
  cases hb : args.head?.bind hexDecodeString with
  | none =>
    have h₁ := Invoke_bad_arg cd cr stub "registerThing" args hb
    have h₂ := Invoke_bad_arg cd cr stub "registerSpec" args hb
    constructor
    · rintro (h | ⟨k, h⟩)
      · exact absurd h h₁.2
      · rw [h₁.1] at h
        exact absurd rfl h
    · rintro (h | ⟨k, h⟩)
      · exact absurd h h₂.2
      · rw [h₂.1] at h
        exact absurd rfl h
  | some b =>
    cases hargs : args with
    | nil => simp [hargs] at hb
    | cons arg rest =>
      simp only [hargs, List.head?_cons, Option.some_bind] at hb
      rw [Invoke_eq cd cr stub "registerThing" arg rest b hb,
        Invoke_eq cd cr stub "registerSpec" arg rest b hb]
      simp only [if_true, show ¬ ("registerThing" = "registerOwner") by decide,
        show ¬ ("registerSpec" = "registerOwner") by decide,
        show ¬ ("registerSpec" = "registerThing") by decide, if_false]
      constructor
      · rintro (h | ⟨k, h⟩)
        · exact ⟨b, rfl, (registerThing_ok h).1.2.2.2.2⟩
        · exact ⟨b, rfl, (registerThing_changed h).1.2.2.2.2⟩
      · rintro (h | ⟨k, h⟩)
        · exact ⟨b, rfl, (registerSpec_ok h).1.2.2.2⟩
        · exact ⟨b, rfl, (registerSpec_changed h).1.2.2.2⟩

/-- C3 on the ledger of the test file: the thing and the specification of
"Alice" are registered, so her signatures were verified under the key stored
for her. -/
theorem C3_write_is_authorized_witness :
    (Invoke Codec.proto3 Crypto.sample (Stub.mk0 ledgerAlice) "registerThing"
        [aliceThingTx.arg]).1.err = none ∧
      (∃ b, [aliceThingTx.arg].head?.bind hexDecodeString = some b ∧
        Authorized Codec.proto3 Crypto.sample ledgerAlice
          (Codec.proto3.unmarshalRegisterThingTX b).1.OwnerName
          (Codec.proto3.unmarshalRegisterThingTX b).1.Signature
          (thingMessage (Codec.proto3.unmarshalRegisterThingTX b).1)) ∧
      (Invoke Codec.proto3 Crypto.sample (Stub.mk0 ledgerAlice) "registerSpec"
        [aliceSpecTx.arg]).1.err = none ∧
      ∃ b, [aliceSpecTx.arg].head?.bind hexDecodeString = some b ∧
        Authorized Codec.proto3 Crypto.sample ledgerAlice
          (Codec.proto3.unmarshalRegisterSpecTX b).1.OwnerName
          (Codec.proto3.unmarshalRegisterSpecTX b).1.Signature
          (specMessage (Codec.proto3.unmarshalRegisterSpecTX b).1) :=
  ⟨by decide,
    (C3_write_is_authorized Codec.proto3 Crypto.sample (Stub.mk0 ledgerAlice)
      [aliceThingTx.arg]).1 (Or.inl (by decide)),
    by decide,
    (C3_write_is_authorized Codec.proto3 Crypto.sample (Stub.mk0 ledgerAlice)
      [aliceSpecTx.arg]).2 (Or.inl (by decide))⟩

/-! ## C4 -/

/-- The check of the nonce comes before the check of the owner: on a ledger
that holds a value under `"Nonce: 01"` the call for the owner "Bob", who is not
registered, returns the error of the nonce check. -/
theorem nonce_check_before_owner_check :
    ledgerNonce "OwnerName: Bob" = none ∧
      (Invoke Codec.proto3 Crypto.sample (Stub.mk0 ledgerNonce) "registerThing"
        [bobThingTx.arg]).1 = Result.fail "Nonce is unavailable 01" ∧
      (Invoke Codec.proto3 Crypto.sample (Stub.mk0 ledgerNonce) "registerThing"
        [bobThingTx.arg]).1 ≠ Result.fail "OwnerName is not registered Bob" := by
  decide

/-- No sequence of calls leads from the empty ledger to `ledgerNonce`: no call
writes a key that begins with `"Nonce: "`. -/
theorem ledgerNonce_not_reachable (cd : Codec) (cr : Crypto) : ¬ Reachable cd cr ledgerNonce := by
  intro h
  have hnone := nonce_absent h "01"
  have hsome : ledgerNonce ("Nonce: " ++ "01") = some [1] := by decide
  rw [hsome] at hnone
  exact absurd hnone (by simp)

/-- On any ledger that holds no owner record under `"OwnerName: " + ownerName`,
`Invoke("registerThing")` returns an error and leaves the stub as it is; the
error is "OwnerName is not registered" followed by the name when the ledger
holds nothing under `"Nonce: " + hex(nonce)` and the two reads report no
error. -/
theorem registerThing_unknown_owner (cd : Codec) (cr : Crypto) (stub : Stub) (arg : String)
    (rest : List String) (b : Bytes) (hb : hexDecodeString arg = some b)
    (howner : ¬ stub.State.Holds ("OwnerName: " ++ (cd.unmarshalRegisterThingTX b).1.OwnerName)) :
    (Invoke cd cr stub "registerThing" (arg :: rest)).2 = stub ∧
      (Invoke cd cr stub "registerThing" (arg :: rest)).1.err ≠ none ∧
      (stub.getErr ("Nonce: " ++ hexEncodeToString (cd.unmarshalRegisterThingTX b).1.Nonce) = none →
        stub.getErr ("OwnerName: " ++ (cd.unmarshalRegisterThingTX b).1.OwnerName) = none →
        ¬ stub.State.Holds ("Nonce: " ++ hexEncodeToString (cd.unmarshalRegisterThingTX b).1.Nonce) →
        (Invoke cd cr stub "registerThing" (arg :: rest)).1 =
          Result.fail ("OwnerName is not registered " ++
            (cd.unmarshalRegisterThingTX b).1.OwnerName)) := by
  rw [Invoke_eq cd cr stub "registerThing" arg rest b hb]
  simp only [show ¬ ("registerThing" = "registerOwner") by decide, if_true, if_false]
  have hnc : ¬ ThingChecks cd cr stub (cd.unmarshalRegisterThingTX b).1 := by
    intro hc
    exact howner ((Authorized_iff _ _ _ _ _ _).mp hc.2.2.2.2).1
  refine ⟨(registerThing_unchecked hnc).1, (registerThing_unchecked hnc).2, ?_⟩
  intro h₁ h₃ h₂
  rw [registerThing_eq]
  simp only [h₁, h₂, h₃, howner, ne_eq, not_true_eq_false, not_false_eq_true, if_false,
    if_true]

/-- C4: on every ledger that calls lead to from the empty one and that holds
no owner record under `"OwnerName: " + ownerName`, with the two reads of the
call reporting no error, `Invoke("registerThing")` returns no payload and the
error "OwnerName is not registered" followed by the name, and leaves the stub
as it is, whatever the nonce, the aliases, the specification, the data and the
signature of the transaction. -/
theorem C4_unknown_owner (cd : Codec) (cr : Crypto) (stub : Stub) (arg : String)
    (rest : List String) (b : Bytes) (hb : hexDecodeString arg = some b)
    (hreach : Reachable cd cr stub.State)
    (howner : ¬ stub.State.Holds ("OwnerName: " ++ (cd.unmarshalRegisterThingTX b).1.OwnerName))
    (hnonce : stub.getErr
      ("Nonce: " ++ hexEncodeToString (cd.unmarshalRegisterThingTX b).1.Nonce) = none)
    (hget : stub.getErr ("OwnerName: " ++ (cd.unmarshalRegisterThingTX b).1.OwnerName) = none) :
    (Invoke cd cr stub "registerThing" (arg :: rest)).1 =
        ⟨none, some ("OwnerName is not registered " ++
          (cd.unmarshalRegisterThingTX b).1.OwnerName)⟩ ∧
      (Invoke cd cr stub "registerThing" (arg :: rest)).2 = stub := by
  have h := registerThing_unknown_owner cd cr stub arg rest b hb howner
  refine ⟨h.2.2 hnonce hget ?_, h.1⟩
  intro hh
  unfold Ledger.Holds at hh
  rw [nonce_absent hreach] at hh
  exact hh rfl

/-- C4 on the ledger of the test file, after "Alice" has registered: "Bob" is
not registered, and his thing is refused with the error of the owner check,
with and without an alias that is a registered name. -/
theorem C4_unknown_owner_witness :
    ¬ ledgerAlice.Holds "OwnerName: Bob" ∧
      (Invoke Codec.proto3 Crypto.sample (Stub.mk0 ledgerAlice) "registerThing"
        [bobThingTx.arg]) =
        (⟨none, some "OwnerName is not registered Bob"⟩, Stub.mk0 ledgerAlice) ∧
      (Invoke Codec.proto3 Crypto.sample (Stub.mk0 ledgerAlice) "registerThing"
        [bobAliasTx.arg]).1 = ⟨none, some "OwnerName is not registered Bob"⟩ :=
  ⟨by decide,
    Prod.ext
      (C4_unknown_owner Codec.proto3 Crypto.sample (Stub.mk0 ledgerAlice) bobThingTx.arg []
        ((hexDecodeString bobThingTx.arg).getD []) (by decide) ⟨_, rfl⟩ (by decide) rfl rfl).1
      (C4_unknown_owner Codec.proto3 Crypto.sample (Stub.mk0 ledgerAlice) bobThingTx.arg []
        ((hexDecodeString bobThingTx.arg).getD []) (by decide) ⟨_, rfl⟩ (by decide) rfl rfl).2,
    (C4_unknown_owner Codec.proto3 Crypto.sample (Stub.mk0 ledgerAlice) bobAliasTx.arg []
      ((hexDecodeString bobAliasTx.arg).getD []) (by decide) ⟨_, rfl⟩ (by decide) rfl rfl).1⟩

/-! ## C5 -/

/-- C5, as stated, fails when the owner of the transaction is not registered:
the alias "Alice" is a registered name, and the error is the one for the
unknown owner "Bob", whose check comes first. -/
theorem C5_counterexample :
    ledgerAlice.Holds "OwnerName: Alice" ∧ "Alice" ∈ bobAliasTx.Identities ∧
      (Invoke Codec.proto3 Crypto.sample (Stub.mk0 ledgerAlice) "registerThing"
        [bobAliasTx.arg]).1 = Result.fail "OwnerName is not registered Bob" := by
  decide

/-- C5, amended: when an alias of a `registerThing` transaction is a registered
owner name, `Invoke` returns an error and leaves the ledger as it is.  With
reads that report no error, the error is the one of the nonce check if the
ledger holds a value under the nonce key; otherwise the one of the owner check
if the owner of the transaction is not registered; otherwise
"OwnerName: (a) is already in registry" for the first alias `a` that is a
registered name. -/
theorem C5_alias_is_owner_name (cd : Codec) (cr : Crypto) (stub : Stub) (arg : String)
    (rest : List String) (b : Bytes) (hb : hexDecodeString arg = some b) (a : String)
    (ha : a ∈ (cd.unmarshalRegisterThingTX b).1.Identities)
    (hreg : stub.State.Holds ("OwnerName: " ++ a)) :
    (Invoke cd cr stub "registerThing" (arg :: rest)).2 = stub ∧
      (Invoke cd cr stub "registerThing" (arg :: rest)).1.err ≠ none ∧
      ((∀ k, stub.getErr k = none) →
        stub.State.Holds ("Nonce: " ++ hexEncodeToString (cd.unmarshalRegisterThingTX b).1.Nonce) →
        (Invoke cd cr stub "registerThing" (arg :: rest)).1 =
          Result.fail ("Nonce is unavailable " ++
            hexEncodeToString (cd.unmarshalRegisterThingTX b).1.Nonce)) ∧
      ((∀ k, stub.getErr k = none) →
        ¬ stub.State.Holds ("Nonce: " ++
          hexEncodeToString (cd.unmarshalRegisterThingTX b).1.Nonce) →
        ¬ stub.State.Holds ("OwnerName: " ++ (cd.unmarshalRegisterThingTX b).1.OwnerName) →
        (Invoke cd cr stub "registerThing" (arg :: rest)).1 =
          Result.fail ("OwnerName is not registered " ++
            (cd.unmarshalRegisterThingTX b).1.OwnerName)) ∧
      ((∀ k, stub.getErr k = none) →
        ¬ stub.State.Holds ("Nonce: " ++
          hexEncodeToString (cd.unmarshalRegisterThingTX b).1.Nonce) →
        stub.State.Holds ("OwnerName: " ++ (cd.unmarshalRegisterThingTX b).1.OwnerName) →
        ∃ a₁, (cd.unmarshalRegisterThingTX b).1.Identities.find?
            (fun x => decide (stub.State.Holds ("OwnerName: " ++ x))) = some a₁ ∧
          (Invoke cd cr stub "registerThing" (arg :: rest)).1 =
            Result.fail ("OwnerName: (" ++ a₁ ++ ") is already in registry")) := by
  rw [Invoke_eq cd cr stub "registerThing" arg rest b hb]
  simp only [show ¬ ("registerThing" = "registerOwner") by decide, if_true, if_false]
  have hnc : ¬ ThingChecks cd cr stub (cd.unmarshalRegisterThingTX b).1 := by
    intro hc
    exact ((checkIdentities_eq_none _ _).mp hc.2.2.2.1 a ha).2 hreg
  refine ⟨(registerThing_unchecked hnc).1, (registerThing_unchecked hnc).2, ?_, ?_, ?_⟩
  · intro hget hn
    rw [registerThing_eq]
    simp only [hget, hn, ne_eq, not_true_eq_false, if_false, if_true]
  · intro hget hn howner
    rw [registerThing_eq]
    simp only [hget, hn, howner, ne_eq, not_true_eq_false, not_false_eq_true, if_false, if_true]
  · intro hget hn howner
    cases hf : (cd.unmarshalRegisterThingTX b).1.Identities.find?
        (fun x => decide (stub.State.Holds ("OwnerName: " ++ x))) with
    | none =>
      rw [List.find?_eq_none] at hf
      exact absurd (by simpa using hreg) (hf a ha)
    | some a₁ =>
      refine ⟨a₁, rfl, ?_⟩
      rw [registerThing_eq]
      simp only [hget, hn, howner, ne_eq, not_true_eq_false, not_false_eq_true, if_false,
        checkIdentities_conflict stub _ a₁ (fun x _ => hget _) hf]

/-- C5, amended, on the ledger of the test file: "Alice" may not call her
thing "Alice"; the alias "Foo" before it is not written. -/
theorem C5_alias_is_owner_name_witness :
    ledgerAlice.Holds "OwnerName: Alice" ∧
      (Invoke Codec.proto3 Crypto.sample (Stub.mk0 ledgerAlice) "registerThing"
        [aliceAliasTx.arg]).2 = Stub.mk0 ledgerAlice ∧
      ∃ a₁, (Codec.proto3.unmarshalRegisterThingTX
            ((hexDecodeString aliceAliasTx.arg).getD [])).1.Identities.find?
          (fun x => decide ((Stub.mk0 ledgerAlice).State.Holds ("OwnerName: " ++ x))) = some a₁ ∧
        (Invoke Codec.proto3 Crypto.sample (Stub.mk0 ledgerAlice) "registerThing"
          [aliceAliasTx.arg]).1 = Result.fail ("OwnerName: (" ++ a₁ ++ ") is already in registry") :=
  ⟨by decide,
    (C5_alias_is_owner_name Codec.proto3 Crypto.sample (Stub.mk0 ledgerAlice) aliceAliasTx.arg
      [] ((hexDecodeString aliceAliasTx.arg).getD []) (by decide) "Alice" (by decide)
      (by decide)).1,
    (C5_alias_is_owner_name Codec.proto3 Crypto.sample (Stub.mk0 ledgerAlice) aliceAliasTx.arg
      [] ((hexDecodeString aliceAliasTx.arg).getD []) (by decide) "Alice" (by decide)
      (by decide)).2.2.2.2 (fun _ => rfl) (by decide) (by decide)⟩

/-! ## C6 -/

/-- C6 fails on the ledger of the test file: "Alice" registers a thing, then
another thing with the same nonce; the second call reports no error and the
record under `"Thing: " + hex(nonce)` is the second one. -/
theorem C6_nonce_reused :
    (Invoke Codec.proto3 Crypto.sample (Stub.mk0 ledgerAlice) "registerThing"
        [aliceThingTx.arg]).1 = Result.nilnil ∧
      (Invoke Codec.proto3 Crypto.sample (Stub.mk0 ledgerAlice) "registerThing"
        [aliceThingTx.arg]).2.State = ledgerAliceThing ∧
      aliceThingTx2.Nonce = aliceThingTx.Nonce ∧
      ledgerAliceThing ("Thing: " ++ aliceNonceHex) =
        some (marshalled (Codec.proto3.marshalThings aliceThingTx.store)) ∧
      (Invoke Codec.proto3 Crypto.sample (Stub.mk0 ledgerAliceThing) "registerThing"
        [aliceThingTx2.arg]).1 = Result.nilnil ∧
      (Invoke Codec.proto3 Crypto.sample (Stub.mk0 ledgerAliceThing) "registerThing"
        [aliceThingTx2.arg]).2.State ("Thing: " ++ aliceNonceHex) =
        some (marshalled (Codec.proto3.marshalThings aliceThingTx2.store)) ∧
      marshalled (Codec.proto3.marshalThings aliceThingTx2.store) ≠
        marshalled (Codec.proto3.marshalThings aliceThingTx.store) :=
  ⟨by decide, rfl, rfl, by decide, by decide, by decide, by decide⟩

/-! ## C7 -/

/-- C7: in a ledger that calls lead to from the empty one no key that begins
with `"Nonce: "` is present; so the read of the nonce check of `registerThing`
finds nothing, and a `registerThing` that passes the other checks (reads
without error, an owner whose stored key verifies the signature, no alias that
is a registered owner name, an alias record that marshals) and whose thing
record is written reports no error and leaves its record under
`"Thing: " + hex(nonce)`, whatever was there. -/
theorem C7_nonce_check_never_fails (cd : Codec) (cr : Crypto) (stub : Stub)
    (hr : Reachable cd cr stub.State) :
    (∀ t, stub.State ("Nonce: " ++ t) = none) ∧
    (∀ t, stub.getErr ("Nonce: " ++ t) = none → stub.GetState ("Nonce: " ++ t) = ([], none)) ∧
    (∀ (arg : String) (rest : List String) (b : Bytes), hexDecodeString arg = some b →
      (∀ k, stub.getErr k = none) →
      Authorized cd cr stub.State (cd.unmarshalRegisterThingTX b).1.OwnerName
        (cd.unmarshalRegisterThingTX b).1.Signature
        (thingMessage (cd.unmarshalRegisterThingTX b).1) →
      (∀ a ∈ (cd.unmarshalRegisterThingTX b).1.Identities,
        ¬ stub.State.Holds ("OwnerName: " ++ a)) →
      ((cd.unmarshalRegisterThingTX b).1.Identities ≠ [] →
        ∃ v, cd.marshalAlias ⟨(cd.unmarshalRegisterThingTX b).1.Nonce⟩ = .ok v) →
      stub.putErr ("Thing: " ++ hexEncodeToString (cd.unmarshalRegisterThingTX b).1.Nonce)
        (marshalled (cd.marshalThings (cd.unmarshalRegisterThingTX b).1.store)) = none →
      (Invoke cd cr stub "registerThing" (arg :: rest)).1 = Result.nilnil ∧
        (Invoke cd cr stub "registerThing" (arg :: rest)).2.State
            ("Thing: " ++ hexEncodeToString (cd.unmarshalRegisterThingTX b).1.Nonce) =
          some (marshalled (cd.marshalThings (cd.unmarshalRegisterThingTX b).1.store))) := by
  refine ⟨fun t => nonce_absent hr t, ?_, ?_⟩
  · intro t ht
    rw [Stub.GetState_ok ht, nonce_absent hr t]
    rfl
  · intro arg rest b hb hget hauth halias hmar hput
    rw [Invoke_eq cd cr stub "registerThing" arg rest b hb]
    simp only [show ¬ ("registerThing" = "registerOwner") by decide, if_true, if_false]
    have hc : ThingChecks cd cr stub (cd.unmarshalRegisterThingTX b).1 := by
      refine ⟨hget _, ?_, hget _, ?_, hauth⟩
      · unfold Ledger.Holds
        rw [nonce_absent hr]
        exact fun h => h rfl
      · rw [checkIdentities_eq_none]
        exact fun a ha => ⟨hget _, halias a ha⟩
    by_cases hi : (cd.unmarshalRegisterThingTX b).1.Identities = []
    · rw [registerThing_writes hc [] (fun hne => absurd hi hne), hput]
      exact ⟨rfl, Ledger.put_same _ _ _⟩
    · obtain ⟨v, hv⟩ := hmar hi
      rw [registerThing_writes hc v (fun _ => hv), hput]
      exact ⟨rfl, Ledger.put_same _ _ _⟩

/-- C7 on the ledger of the test file, where the nonce of "Alice" is in use:
her second thing with that nonce is registered. -/
theorem C7_nonce_check_never_fails_witness :
    ledgerAliceThing ("Thing: " ++ hexEncodeToString aliceNonce) =
        some (marshalled (Codec.proto3.marshalThings aliceThingTx.store)) ∧
      (Invoke Codec.proto3 Crypto.sample (Stub.mk0 ledgerAliceThing) "registerThing"
        [aliceThingTx2.arg]).1 = Result.nilnil :=
  ⟨by decide,
    ((C7_nonce_check_never_fails Codec.proto3 Crypto.sample (Stub.mk0 ledgerAliceThing)
      ⟨_, rfl⟩).2.2 aliceThingTx2.arg [] ((hexDecodeString aliceThingTx2.arg).getD [])
      (by decide) (fun _ => rfl) (by decide) (by decide) (fun _ => ⟨_, rfl⟩) rfl).1⟩

/-! ## C8 -/

/-- The round trip of a thing whose record does not marshal to nothing and
unmarshals to itself: after an `Invoke("registerThing")` that reports no error,
`Query("thing", hex(nonce))` with a read that reports no error returns what
`json.Marshal` makes of the aliases, owner name, data and specification of the
transaction. -/
theorem thing_round_trip (cd : Codec) (cr : Crypto) (stub : Stub) (arg : String)
    (rest : List String) (b : Bytes) (hb : hexDecodeString arg = some b)
    (hok : (Invoke cd cr stub "registerThing" (arg :: rest)).1.err = none)
    (hne : marshalled (cd.marshalThings (cd.unmarshalRegisterThingTX b).1.store) ≠ [])
    (hrt : cd.unmarshalThings (marshalled (cd.marshalThings
      (cd.unmarshalRegisterThingTX b).1.store)) = ((cd.unmarshalRegisterThingTX b).1.store, none))
    (stub₂ : Stub) (hl : stub₂.State = (Invoke cd cr stub "registerThing" (arg :: rest)).2.State)
    (hget : stub₂.getErr ("Thing: " ++
      hexEncodeToString (cd.unmarshalRegisterThingTX b).1.Nonce) = none) :
    (Query cd stub₂ "thing" [hexEncodeToString (cd.unmarshalRegisterThingTX b).1.Nonce]).1 =
      Result.ofMarshal (cd.jsonThings (cd.unmarshalRegisterThingTX b).1.store) := by
  rw [Invoke_eq cd cr stub "registerThing" arg rest b hb] at hok hl
  simp only [show ¬ ("registerThing" = "registerOwner") by decide, if_true, if_false] at hok hl
  have hval := (registerThing_ok hok).2
  simp only [Query, show ¬ ("thing" = "owner") by decide, if_true, if_false, queryThing,
    Stub.GetState_ok hget, hl, hval, Option.getD_some, List.length_eq_zero, hne, hrt]

/-- On the codec of the wire format the thing of the test file makes the round
trip. -/
theorem thing_round_trip_witness :
    (Query Codec.proto3 (Stub.mk0 ledgerAliceThing) "thing" [aliceNonceHex]).1 =
      Result.ofMarshal (Codec.proto3.jsonThings ⟨["Foo", "Bar"], "Alice", "test data",
        "test spec"⟩) :=
  thing_round_trip Codec.proto3 Crypto.sample (Stub.mk0 ledgerAlice) aliceThingTx.arg []
    ((hexDecodeString aliceThingTx.arg).getD []) (by decide) (by decide) (by decide) (by decide)
    (Stub.mk0 ledgerAliceThing) rfl rfl

/-- A thing whose record marshals to nothing is not found: after an
`Invoke("registerThing")` that reports no error, `Query("thing", hex(nonce))`
with a read that reports no error answers that the thing does not exist. -/
theorem thing_lost_of_empty_record (cd : Codec) (cr : Crypto) (stub : Stub) (arg : String)
    (rest : List String) (b : Bytes) (hb : hexDecodeString arg = some b)
    (hok : (Invoke cd cr stub "registerThing" (arg :: rest)).1.err = none)
    (hnil : marshalled (cd.marshalThings (cd.unmarshalRegisterThingTX b).1.store) = [])
    (stub₂ : Stub) (hl : stub₂.State = (Invoke cd cr stub "registerThing" (arg :: rest)).2.State)
    (hget : stub₂.getErr ("Thing: " ++
      hexEncodeToString (cd.unmarshalRegisterThingTX b).1.Nonce) = none) :
    (Query cd stub₂ "thing" [hexEncodeToString (cd.unmarshalRegisterThingTX b).1.Nonce]).1 =
      Result.fail ("Thing (" ++ hexEncodeToString (cd.unmarshalRegisterThingTX b).1.Nonce ++
        ") does not exist\n") := by
  rw [Invoke_eq cd cr stub "registerThing" arg rest b hb] at hok hl
  simp only [show ¬ ("registerThing" = "registerOwner") by decide, if_true, if_false] at hok hl
  have hval := (registerThing_ok hok).2
  simp only [Query, show ¬ ("thing" = "owner") by decide, if_true, if_false, queryThing,
    Stub.GetState_ok hget, hl, hval, Option.getD_some, hnil, List.length_nil]

theorem Wire.utf8EncodeNat_ne_nil (v : Nat) : Wire.utf8EncodeNat v ≠ [] := by
  unfold Wire.utf8EncodeNat
  split_ifs <;> simp

theorem Wire.stringBytes_eq_nil (s : String) : Wire.stringBytes s = [] ↔ s = "" := by
  unfold Wire.stringBytes
  constructor
  · intro h
    apply String.ext
    cases hd : s.data with
    | nil => rfl
    | cons c cs =>
      rw [hd] at h
      simp only [List.flatMap_cons, List.append_eq_nil] at h
      exact absurd h.1 (Wire.utf8EncodeNat_ne_nil _)
  · intro h
    subst h
    rfl

theorem Wire.putField_always_ne_nil (num : Nat) (payload : Bytes) :
    Wire.putField num payload ≠ [] := by
  unfold Wire.putField
  intro he
  have h₁ := (List.append_eq_nil.mp (List.append_eq_nil.mp he).1).1
  unfold Wire.putVarint at h₁
  split_ifs at h₁

theorem Wire.putSingular_eq_nil (num : Nat) (payload : Bytes) :
    Wire.putSingular num payload = [] ↔ payload = [] := by
  unfold Wire.putSingular
  split_ifs with h
  · simp [List.length_eq_zero.mp h]
  · constructor
    · intro he
      exact absurd he (Wire.putField_always_ne_nil num payload)
    · intro he
      exact absurd (by simp [he]) h

theorem Wire.putRepeated_eq_nil (num : Nat) (items : List String) :
    Wire.putRepeated num items = [] ↔ items = [] := by
  unfold Wire.putRepeated
  cases items with
  | nil => simp
  | cons a rest =>
    simp only [List.flatMap_cons, List.append_eq_nil, reduceCtorEq, iff_false, not_and]
    intro h
    exact absurd h (Wire.putField_always_ne_nil _ _)

/-- In the wire format a thing record marshals to nothing exactly when it has
no alias and its owner name, data and specification are empty. -/
theorem Codec.proto3_thing_empty (r : Things) :
    marshalled (Codec.proto3.marshalThings r) = [] ↔
      r.Alias = [] ∧ r.OwnerName = "" ∧ r.Data = "" ∧ r.Spec = "" := by
  simp only [Codec.proto3, marshalled, List.append_eq_nil, Wire.putRepeated_eq_nil,
    Wire.putSingular_eq_nil, Wire.stringBytes_eq_nil, and_assoc]

/-- In the wire format a specification record marshals to nothing exactly when
its owner name and data are empty. -/
theorem Codec.proto3_spec_empty (r : Spec) :
    marshalled (Codec.proto3.marshalSpec r) = [] ↔ r.OwnerName = "" ∧ r.Data = "" := by
  simp only [Codec.proto3, marshalled, List.append_eq_nil, Wire.putSingular_eq_nil,
    Wire.stringBytes_eq_nil]

/-- C8 fails for a thing whose fields are all empty: the owner with the empty
name registers it and `Invoke` reports no error, the record stored under
`"Thing: 01"` is the empty byte string, and `Query("thing", "01")` answers that
the thing does not exist. -/
theorem C8_empty_thing_not_found :
    (Invoke Codec.proto3 Crypto.sample (Stub.mk0 ledgerAnon) "registerThing"
        [emptyThingTx.arg]).1 = Result.nilnil ∧
      hexEncodeToString emptyThingTx.Nonce = "01" ∧
      (Invoke Codec.proto3 Crypto.sample (Stub.mk0 ledgerAnon) "registerThing"
        [emptyThingTx.arg]).2.State "Thing: 01" = some [] ∧
      (Query Codec.proto3
        (Invoke Codec.proto3 Crypto.sample (Stub.mk0 ledgerAnon) "registerThing"
          [emptyThingTx.arg]).2 "thing" ["01"]).1 =
        Result.fail "Thing (01) does not exist\n" := by
  decide

/-! ## C9 -/

/-- C9 fails on the ledger of the test file: after "Alice" has registered her
thing with the aliases "Foo" and "Bar", the alias record is there and the
thing is found by the hexadecimal form of its nonce, but `Query("thing", "Foo")`
answers that the thing does not exist. -/
theorem C9_query_by_alias_not_found :
    ledgerAliceThing "Alias:Foo" = some (marshalled (Codec.proto3.marshalAlias ⟨aliceNonce⟩)) ∧
      (Query Codec.proto3 (Stub.mk0 ledgerAliceThing) "thing" [aliceNonceHex]).1.err = none ∧
      (Query Codec.proto3 (Stub.mk0 ledgerAliceThing) "thing" ["Foo"]).1 =
        Result.fail "Thing (Foo) does not exist\n" ∧
      (Query Codec.proto3 (Stub.mk0 ledgerAliceThing) "thing" ["Bar"]).1 =
        Result.fail "Thing (Bar) does not exist\n" := by
  decide

/-! ## C10 -/

/-- The uniqueness of a specification whose record does not marshal to
nothing: after an `Invoke("registerSpec")` that reports no error, and after any
calls that follow it, the value under `"Spec: " + specName` is the record
written, and an `Invoke("registerSpec")` with the same name leaves the ledger as
it is and returns an error, "SpecName is unavailable" followed by the name when
the read reports no error. -/
theorem spec_unique (cd : Codec) (cr : Crypto) (stub : Stub) (arg : String)
    (rest : List String) (b : Bytes) (hb : hexDecodeString arg = some b)
    (hok : (Invoke cd cr stub "registerSpec" (arg :: rest)).1.err = none)
    (hne : marshalled (cd.marshalSpec ⟨(cd.unmarshalRegisterSpecTX b).1.OwnerName,
      (cd.unmarshalRegisterSpecTX b).1.Data⟩) ≠ [])
    (cs : List Call) (stub₂ : Stub)
    (hl : stub₂.State =
      runCalls cd cr (Invoke cd cr stub "registerSpec" (arg :: rest)).2.State cs)
    (arg₂ : String) (rest₂ : List String) (b₂ : Bytes) (hb₂ : hexDecodeString arg₂ = some b₂)
    (hn : (cd.unmarshalRegisterSpecTX b₂).1.SpecName = (cd.unmarshalRegisterSpecTX b).1.SpecName) :
    stub₂.State ("Spec: " ++ (cd.unmarshalRegisterSpecTX b).1.SpecName) =
        some (marshalled (cd.marshalSpec ⟨(cd.unmarshalRegisterSpecTX b).1.OwnerName,
          (cd.unmarshalRegisterSpecTX b).1.Data⟩)) ∧
      (Invoke cd cr stub₂ "registerSpec" (arg₂ :: rest₂)).2 = stub₂ ∧
      (Invoke cd cr stub₂ "registerSpec" (arg₂ :: rest₂)).1.err ≠ none ∧
      (stub₂.getErr ("Spec: " ++ (cd.unmarshalRegisterSpecTX b).1.SpecName) = none →
        (Invoke cd cr stub₂ "registerSpec" (arg₂ :: rest₂)).1 =
          Result.fail ("SpecName is unavailable " ++
            (cd.unmarshalRegisterSpecTX b).1.SpecName)) := by
  rw [Invoke_eq cd cr stub "registerSpec" arg rest b hb] at hok hl
  rw [Invoke_eq cd cr stub₂ "registerSpec" arg₂ rest₂ b₂ hb₂]
  simp only [show ¬ ("registerSpec" = "registerOwner") by decide,
    show ¬ ("registerSpec" = "registerThing") by decide, if_true, if_false] at hok hl ⊢
  have hval := (registerSpec_ok hok).2
  have hholds : (registerSpec cd cr stub b).2.State.Holds
      ("Spec: " ++ (cd.unmarshalRegisterSpecTX b).1.SpecName) := by
    unfold Ledger.Holds
    rw [hval]
    exact hne
  have hkeep := spec_frozen cd cr _ _ hholds cs
  rw [← hl] at hkeep
  have hholds₂ : stub₂.State.Holds ("Spec: " ++ (cd.unmarshalRegisterSpecTX b).1.SpecName) := by
    unfold Ledger.Holds at hholds ⊢
    rw [hkeep]
    exact hholds
  have hnc : ¬ SpecChecks cd cr stub₂ (cd.unmarshalRegisterSpecTX b₂).1 := by
    intro hc
    have hfree := hc.2.1
    rw [hn] at hfree
    exact hfree hholds₂
  refine ⟨by rw [hkeep, hval], (registerSpec_unchecked hnc).1, (registerSpec_unchecked hnc).2, ?_⟩
  intro hget
  rw [registerSpec_eq]
  simp only [hn, hget, hholds₂, ne_eq, not_true_eq_false, if_false, if_true]

/-- On the codec of the wire format the specification of the test file cannot
be registered a second time. -/
theorem spec_unique_witness :
    (Invoke Codec.proto3 Crypto.sample
        (Stub.mk0 (runCalls Codec.proto3 Crypto.sample
          (Invoke Codec.proto3 Crypto.sample (Stub.mk0 ledgerAlice) "registerSpec"
            [aliceSpecTx.arg]).2.State [Call.mk0 .init "init" ["seed"]]))
        "registerSpec" [aliceSpecTx.arg]).1 =
      Result.fail "SpecName is unavailable test spec" :=
  (spec_unique Codec.proto3 Crypto.sample (Stub.mk0 ledgerAlice) aliceSpecTx.arg []
    ((hexDecodeString aliceSpecTx.arg).getD []) (by decide) (by decide) (by decide)
    [Call.mk0 .init "init" ["seed"]] _ rfl aliceSpecTx.arg []
    ((hexDecodeString aliceSpecTx.arg).getD []) (by decide) rfl).2.2.2 rfl

/-- A specification whose record marshals to nothing can be registered again:
after an `Invoke("registerSpec")` that reports no error, an
`Invoke("registerSpec")` with the same name whose owner and signature pass the
checks, with ledger calls that report no error, reports no error and puts its
own record under `"Spec: " + specName`. -/
theorem spec_reused_of_empty_record (cd : Codec) (cr : Crypto) (stub : Stub) (arg : String)
    (rest : List String) (b : Bytes) (hb : hexDecodeString arg = some b)
    (hok : (Invoke cd cr stub "registerSpec" (arg :: rest)).1.err = none)
    (hnil : marshalled (cd.marshalSpec ⟨(cd.unmarshalRegisterSpecTX b).1.OwnerName,
      (cd.unmarshalRegisterSpecTX b).1.Data⟩) = [])
    (stub₂ : Stub) (hl : stub₂.State = (Invoke cd cr stub "registerSpec" (arg :: rest)).2.State)
    (arg₂ : String) (rest₂ : List String) (b₂ : Bytes) (hb₂ : hexDecodeString arg₂ = some b₂)
    (hn : (cd.unmarshalRegisterSpecTX b₂).1.SpecName = (cd.unmarshalRegisterSpecTX b).1.SpecName)
    (hget : ∀ k, stub₂.getErr k = none)
    (hauth : Authorized cd cr stub₂.State (cd.unmarshalRegisterSpecTX b₂).1.OwnerName
      (cd.unmarshalRegisterSpecTX b₂).1.Signature (specMessage (cd.unmarshalRegisterSpecTX b₂).1))
    (hput : stub₂.putErr ("Spec: " ++ (cd.unmarshalRegisterSpecTX b).1.SpecName)
      (marshalled (cd.marshalSpec ⟨(cd.unmarshalRegisterSpecTX b₂).1.OwnerName,
        (cd.unmarshalRegisterSpecTX b₂).1.Data⟩)) = none) :
    (Invoke cd cr stub₂ "registerSpec" (arg₂ :: rest₂)).1 = Result.nilnil ∧
      (Invoke cd cr stub₂ "registerSpec" (arg₂ :: rest₂)).2.State
          ("Spec: " ++ (cd.unmarshalRegisterSpecTX b).1.SpecName) =
        some (marshalled (cd.marshalSpec ⟨(cd.unmarshalRegisterSpecTX b₂).1.OwnerName,
          (cd.unmarshalRegisterSpecTX b₂).1.Data⟩)) := by
  rw [Invoke_eq cd cr stub "registerSpec" arg rest b hb] at hok hl
  rw [Invoke_eq cd cr stub₂ "registerSpec" arg₂ rest₂ b₂ hb₂]
  simp only [show ¬ ("registerSpec" = "registerOwner") by decide,
    show ¬ ("registerSpec" = "registerThing") by decide, if_true, if_false] at hok hl ⊢
  have hval := (registerSpec_ok hok).2
  rw [hnil] at hval
  have hc : SpecChecks cd cr stub₂ (cd.unmarshalRegisterSpecTX b₂).1 := by
    refine ⟨hget _, ?_, hget _, hauth⟩
    unfold Ledger.Holds
    rw [hn, hl, hval]
    exact fun h => h rfl
  rw [registerSpec_checked hc, hn, hput]
  exact ⟨rfl, Ledger.put_same _ _ _⟩

/-- C10 fails for a specification with an empty owner name and empty data: the
owner with the empty name registers the specification "spec" and `Invoke`
reports no error, the record stored under `"Spec: spec"` is the empty byte
string, and a later `Invoke("registerSpec")` of "Alice" with the same name
reports no error and puts her record under the key. -/
theorem C10_empty_spec_overwritten :
    (Invoke Codec.proto3 Crypto.sample (Stub.mk0 ledgerAnon) "registerSpec"
        [emptySpecTx.arg]).1 = Result.nilnil ∧
      (Invoke Codec.proto3 Crypto.sample (Stub.mk0 ledgerAnon) "registerSpec"
        [emptySpecTx.arg]).2.State "Spec: spec" = some [] ∧
      aliceSpecTx2.SpecName = emptySpecTx.SpecName ∧
      (Invoke Codec.proto3 Crypto.sample
        (Invoke Codec.proto3 Crypto.sample (Stub.mk0 ledgerAnon) "registerSpec"
          [emptySpecTx.arg]).2 "registerSpec" [aliceSpecTx2.arg]).1 = Result.nilnil ∧
      (Invoke Codec.proto3 Crypto.sample
        (Invoke Codec.proto3 Crypto.sample (Stub.mk0 ledgerAnon) "registerSpec"
          [emptySpecTx.arg]).2 "registerSpec" [aliceSpecTx2.arg]).2.State "Spec: spec" =
        some (marshalled (Codec.proto3.marshalSpec ⟨"Alice", "other data"⟩)) ∧
      marshalled (Codec.proto3.marshalSpec ⟨"Alice", "other data"⟩) ≠ [] := by
  decide

/-! ## C11 -/

/-- A function name that `Invoke` has no case for: with an argument that is
hexadecimal the call returns `nil, nil` and the stub as it was. -/
theorem Invoke_no_case (cd : Codec) (cr : Crypto) (stub : Stub) (function arg : String)
    (rest : List String) (b : Bytes) (hb : hexDecodeString arg = some b)
    (h₁ : function ≠ "registerOwner") (h₂ : function ≠ "registerThing")
    (h₃ : function ≠ "registerSpec") :
    Invoke cd cr stub function (arg :: rest) = (Result.nilnil, stub) := by
  rw [Invoke_eq cd cr stub function arg rest b hb]
  simp only [h₁, h₂, h₃, if_false]

/-- The query of an owner under a key that holds nothing: the error that the
owner does not exist. -/
theorem queryOwner_absent (cd : Codec) (stub : Stub) (ownerName : String)
    (hget : stub.getErr ("OwnerName: " ++ ownerName) = none)
    (h : ¬ stub.State.Holds ("OwnerName: " ++ ownerName)) :
    (Query cd stub "owner" [ownerName]).1 =
      Result.fail ("OwnerName (" ++ ownerName ++ ") does not exist\n") := by
  have h₀ : (stub.State ("OwnerName: " ++ ownerName)).getD [] = [] := not_not.mp h
  simp only [Query, if_true, queryOwner, Stub.GetState_ok hget, h₀, List.length_nil]

set_option maxRecDepth 10000 in
/-- C11 fails on the run of the test file: `Invoke("createRegistrant")` for
"Alice" returns `nil, nil` and leaves the empty ledger empty, and
`Query("owner", hex(publicKey))` answers that the owner does not exist. -/
theorem C11_createRegistrant_registers_nothing :
    Invoke Codec.proto3 Crypto.sample (Stub.mk0 Ledger.empty) "createRegistrant"
        [aliceRegistrantTx.arg] = (Result.nilnil, Stub.mk0 Ledger.empty) ∧
      hexEncodeToString aliceRegistrantTx.RegistrantPubkey = alicePubHex ∧
      (Query Codec.proto3 (Stub.mk0 Ledger.empty) "owner" [alicePubHex]).1 =
        Result.fail ("OwnerName (" ++ alicePubHex ++ ") does not exist\n") ∧
      (Query Codec.proto3 (Stub.mk0 Ledger.empty) "owner" ["Alice"]).1 =
        Result.fail "OwnerName (Alice) does not exist\n" :=
  ⟨Invoke_no_case _ _ _ _ _ _ ((hexDecodeString aliceRegistrantTx.arg).getD []) (by rfl)
      (by decide) (by decide) (by decide),
    by decide, by decide, by decide⟩

/-! ## C12 -/

/-- C12: on a ledger that holds nothing under `"OwnerName: " + name`, with a
read and a write of that key that report no error, `Invoke("registerOwner")`
reports no error exactly when `verify` accepts the signature of the record for
`name + ":" + data` under the public key of the record; then the ledger after
the call is the ledger before it with what `proto.Marshal` returns for the
record of the name and the public key under that key; otherwise the error is
"Error verifying signature" and the ledger is as it was. -/
theorem C12_trust_on_first_use (cd : Codec) (cr : Crypto) (stub : Stub) (arg : String)
    (rest : List String) (b : Bytes) (hb : hexDecodeString arg = some b)
    (hfree : ¬ stub.State.Holds ("OwnerName: " ++ (cd.unmarshalRegisterIdentityTX b).1.OwnerName))
    (hget : stub.getErr ("OwnerName: " ++ (cd.unmarshalRegisterIdentityTX b).1.OwnerName) = none)
    (hput : ∀ v, stub.putErr ("OwnerName: " ++ (cd.unmarshalRegisterIdentityTX b).1.OwnerName) v
      = none) :
    ((Invoke cd cr stub "registerOwner" (arg :: rest)).1.err = none ↔
      verify cr (cd.unmarshalRegisterIdentityTX b).1.PubKey
        (cd.unmarshalRegisterIdentityTX b).1.Signature
        ((cd.unmarshalRegisterIdentityTX b).1.OwnerName ++ ":" ++
          (cd.unmarshalRegisterIdentityTX b).1.Data) = none) ∧
    (verify cr (cd.unmarshalRegisterIdentityTX b).1.PubKey
        (cd.unmarshalRegisterIdentityTX b).1.Signature
        ((cd.unmarshalRegisterIdentityTX b).1.OwnerName ++ ":" ++
          (cd.unmarshalRegisterIdentityTX b).1.Data) = none →
      (Invoke cd cr stub "registerOwner" (arg :: rest)).1 = Result.nilnil ∧
        (Invoke cd cr stub "registerOwner" (arg :: rest)).2.State =
          stub.State.put ("OwnerName: " ++ (cd.unmarshalRegisterIdentityTX b).1.OwnerName)
            (marshalled (cd.marshalIdentities ⟨(cd.unmarshalRegisterIdentityTX b).1.OwnerName,
              (cd.unmarshalRegisterIdentityTX b).1.PubKey⟩)) ∧
        ∀ k, k ≠ "OwnerName: " ++ (cd.unmarshalRegisterIdentityTX b).1.OwnerName →
          (Invoke cd cr stub "registerOwner" (arg :: rest)).2.State k = stub.State k) ∧
    (verify cr (cd.unmarshalRegisterIdentityTX b).1.PubKey
        (cd.unmarshalRegisterIdentityTX b).1.Signature
        ((cd.unmarshalRegisterIdentityTX b).1.OwnerName ++ ":" ++
          (cd.unmarshalRegisterIdentityTX b).1.Data) ≠ none →
      Invoke cd cr stub "registerOwner" (arg :: rest) =
        (Result.fail "Error verifying signature", stub)) := by
  rw [Invoke_eq cd cr stub "registerOwner" arg rest b hb, registerOwner_eq]
  simp only [if_true, hget, hfree, hput, ne_eq, not_true_eq_false, if_false]
  by_cases hv : verify cr (cd.unmarshalRegisterIdentityTX b).1.PubKey
      (cd.unmarshalRegisterIdentityTX b).1.Signature
      ((cd.unmarshalRegisterIdentityTX b).1.OwnerName ++ ":" ++
        (cd.unmarshalRegisterIdentityTX b).1.Data) = none
  · simp only [hv, not_true_eq_false, if_false, Result.nilnil, true_and, false_implies,
      and_true, implies_true, true_implies]
    exact fun k hk => Ledger.put_ne _ _ _ _ hk
  · simp [hv, Result.fail]

/-- C12 on the empty ledger: the registration of "Alice" verifies and is
written; a registration of "Bob" signed for other data is not. -/
theorem C12_trust_on_first_use_witness :
    ((Invoke Codec.proto3 Crypto.sample (Stub.mk0 Ledger.empty) "registerOwner"
        [aliceOwnerTx.arg]).1 = Result.nilnil ∧
      (Invoke Codec.proto3 Crypto.sample (Stub.mk0 Ledger.empty) "registerOwner"
        [aliceOwnerTx.arg]).2.State =
        Ledger.empty.put ("OwnerName: " ++ (Codec.proto3.unmarshalRegisterIdentityTX
            ((hexDecodeString aliceOwnerTx.arg).getD [])).1.OwnerName)
          (marshalled (Codec.proto3.marshalIdentities
            ⟨(Codec.proto3.unmarshalRegisterIdentityTX
                ((hexDecodeString aliceOwnerTx.arg).getD [])).1.OwnerName,
              (Codec.proto3.unmarshalRegisterIdentityTX
                ((hexDecodeString aliceOwnerTx.arg).getD [])).1.PubKey⟩))) ∧
      Invoke Codec.proto3 Crypto.sample (Stub.mk0 Ledger.empty) "registerOwner"
          [forgedOwnerTx.arg] =
        (Result.fail "Error verifying signature", Stub.mk0 Ledger.empty) :=
  ⟨⟨((C12_trust_on_first_use Codec.proto3 Crypto.sample (Stub.mk0 Ledger.empty)
        aliceOwnerTx.arg [] ((hexDecodeString aliceOwnerTx.arg).getD []) (by decide)
        (by decide) rfl (fun _ => rfl)).2.1 (by decide)).1,
      ((C12_trust_on_first_use Codec.proto3 Crypto.sample (Stub.mk0 Ledger.empty)
        aliceOwnerTx.arg [] ((hexDecodeString aliceOwnerTx.arg).getD []) (by decide)
        (by decide) rfl (fun _ => rfl)).2.1 (by decide)).2.1⟩,
    (C12_trust_on_first_use Codec.proto3 Crypto.sample (Stub.mk0 Ledger.empty)
      forgedOwnerTx.arg [] ((hexDecodeString forgedOwnerTx.arg).getD []) (by decide)
      (by decide) rfl (fun _ => rfl)).2.2 (by decide)⟩

/-! ## C13 -/

/-- C13: the function `verify` returns `nil` exactly when the public key
parses, the signature parses and `Signature.Verify` accepts the signature for
the digest of the message under the key; otherwise it returns one error:
"Invalid Creator key" when the key does not parse, whatever the signature;
"Bad Creator signature encoding" when the key parses and the signature does
not; "Invalid Creator Signature" when both parse and the verification fails.
The function is given no stub and returns none. -/
theorem C13_verify_order (cr : Crypto) (pubKeyBytes sigBytes : Bytes) (message : String) :
    (verify cr pubKeyBytes sigBytes message = none ↔
      ∃ creatorKey signature, cr.ParsePubKey pubKeyBytes = some creatorKey ∧
        cr.ParseDERSignature sigBytes = some signature ∧
        cr.Verify signature (cr.Sum256 message) creatorKey = true) ∧
    (cr.ParsePubKey pubKeyBytes = none →
      verify cr pubKeyBytes sigBytes message = some "Invalid Creator key") ∧
    (cr.ParsePubKey pubKeyBytes ≠ none → cr.ParseDERSignature sigBytes = none →
      verify cr pubKeyBytes sigBytes message = some "Bad Creator signature encoding") ∧
    (∀ creatorKey signature, cr.ParsePubKey pubKeyBytes = some creatorKey →
      cr.ParseDERSignature sigBytes = some signature →
      cr.Verify signature (cr.Sum256 message) creatorKey = false →
      verify cr pubKeyBytes sigBytes message = some "Invalid Creator Signature") := by
  unfold verify
  cases hk : cr.ParsePubKey pubKeyBytes with
  | none => simp
  | some creatorKey =>
    cases hs : cr.ParseDERSignature sigBytes with
    | none => simp
    | some signature =>
      cases hv : cr.Verify signature (cr.Sum256 message) creatorKey <;> simp [hv]

/-- C13 on the stand-in: the four outcomes of `verify`. -/
theorem C13_verify_order_witness :
    verify Crypto.sample alicePub (Crypto.sampleSign alicePub "Alice:test data")
        "Alice:test data" = none ∧
      verify Crypto.sample [4, 1, 2] badDer "Alice:test data" = some "Invalid Creator key" ∧
      verify Crypto.sample alicePub badDer "Alice:test data" =
        some "Bad Creator signature encoding" ∧
      verify Crypto.sample alicePub (Crypto.sampleSign alicePub "Alice:test data")
        "Alice:other data" = some "Invalid Creator Signature" :=
  ⟨(C13_verify_order Crypto.sample alicePub (Crypto.sampleSign alicePub "Alice:test data")
      "Alice:test data").1.mpr ⟨_, _, rfl, rfl, by decide⟩,
    (C13_verify_order Crypto.sample [4, 1, 2] badDer "Alice:test data").2.1 (by decide),
    (C13_verify_order Crypto.sample alicePub badDer "Alice:test data").2.2.1 (by decide)
      (by decide),
    (C13_verify_order Crypto.sample alicePub (Crypto.sampleSign alicePub "Alice:test data")
      "Alice:other data").2.2.2 _ _ rfl rfl (by decide)⟩

/-! ## C14 -/

/-- The loop that appends `":" + identity` for each alias builds the strings
joined with `":"`. -/
theorem foldl_colon_eq_intercalate (init : String) (xs : List String) :
    xs.foldl (fun message identity => message ++ (":" ++ identity)) init =
      ":".intercalate (init :: xs) := by
  simp only [String.intercalate]
  induction xs generalizing init with
  | nil => rfl
  | cons x xs ih =>
    simp only [List.foldl_cons, String.intercalate.go]
    rw [ih, String.append_assoc]

/-- C14: the message `registerThing` builds is the owner name, the aliases in
their order, the data and the specification, joined with `":"`; with no alias
it is `ownerName + ":" + data + ":" + spec`; it is the message the test's
`generateRegisterThingSig` signs for the same strings; and it is what `verify`
has accepted, under the key stored for the owner, when `Invoke` reports no
error. -/
theorem C14_thing_message (tx : RegisterThingTX) :
    thingMessage tx =
        ":".intercalate ([tx.OwnerName] ++ tx.Identities ++ [tx.Data, tx.Spec]) ∧
      (tx.Identities = [] → thingMessage tx = tx.OwnerName ++ ":" ++ tx.Data ++ ":" ++ tx.Spec) ∧
      generateRegisterThingSig.message tx.OwnerName tx.Identities tx.Spec tx.Data =
        thingMessage tx ∧
      ∀ (cd : Codec) (cr : Crypto) (stub : Stub) (arg : String) (rest : List String) (b : Bytes),
        hexDecodeString arg = some b → (cd.unmarshalRegisterThingTX b).1 = tx →
        (Invoke cd cr stub "registerThing" (arg :: rest)).1.err = none →
        Authorized cd cr stub.State tx.OwnerName tx.Signature
          (":".intercalate ([tx.OwnerName] ++ tx.Identities ++ [tx.Data, tx.Spec])) := by
  have hjoin : thingMessage tx =
      ":".intercalate ([tx.OwnerName] ++ tx.Identities ++ [tx.Data, tx.Spec]) := by
    have h := foldl_colon_eq_intercalate tx.OwnerName (tx.Identities ++ [tx.Data, tx.Spec])
    simp only [List.singleton_append, List.cons_append, List.nil_append, ← h, thingMessage,
      List.foldl_append, List.foldl_cons, List.foldl_nil]
  refine ⟨hjoin, ?_, rfl, ?_⟩
  · intro hi
    simp only [thingMessage, hi, List.foldl_nil, String.append_assoc]
  · intro cd cr stub arg rest b hb htx hok
    rw [Invoke_eq cd cr stub "registerThing" arg rest b hb] at hok
    simp only [show ¬ ("registerThing" = "registerOwner") by decide, if_true, if_false] at hok
    have hauth := (registerThing_ok hok).1.2.2.2.2
    rw [htx, hjoin] at hauth
    exact hauth

/-- C14 on the thing of the test file. -/
theorem C14_thing_message_witness :
    thingMessage aliceThingTx = "Alice:Foo:Bar:test data:test spec" ∧
      thingMessage ⟨[1], "Bob", [], "spec", "data", []⟩ = "Bob" ++ ":" ++ "data" ++ ":" ++ "spec" :=
  ⟨(C14_thing_message aliceThingTx).1.trans (by decide),
    (C14_thing_message ⟨[1], "Bob", [], "spec", "data", []⟩).2.1 rfl⟩

/-! ## C15 -/

/-- The part of C15 that holds: without an argument that is hexadecimal
`Invoke` returns an error, "Invalid argument ... expected hex" when there is an
argument, and leaves the stub as it was. -/
theorem Invoke_not_hex (cd : Codec) (cr : Crypto) (stub : Stub) (function arg : String)
    (rest : List String) (h : hexDecodeString arg = none) :
    Invoke cd cr stub function (arg :: rest) =
      (Result.fail ("Invalid argument (" ++ arg ++ ") expected hex"), stub) := by
  simp only [Invoke, h]

set_option maxRecDepth 10000 in
/-- C15 fails for an argument that is hexadecimal and does not decode: the
codec reports "unexpected EOF" for the registration of "Alice" with a field cut
short after it, and `Invoke("registerOwner")` goes on with the record as the
codec left it, returns `nil, nil` and writes the owner record; and for the one
byte `ff`, which decodes to no field, `Invoke("registerThing")` goes on to the
owner check and returns its error. -/
theorem C15_decode_error_ignored :
    (Codec.proto3.unmarshalRegisterIdentityTX
        ((hexDecodeString truncatedOwnerArg).getD [])).2 = some "unexpected EOF" ∧
      hexDecodeString truncatedOwnerArg ≠ none ∧
      (Invoke Codec.proto3 Crypto.sample (Stub.mk0 Ledger.empty) "registerOwner"
        [truncatedOwnerArg]).1 = Result.nilnil ∧
      (Invoke Codec.proto3 Crypto.sample (Stub.mk0 Ledger.empty) "registerOwner"
        [truncatedOwnerArg]).2.State "OwnerName: Alice" =
        some (marshalled (Codec.proto3.marshalIdentities ⟨"Alice", alicePub⟩)) ∧
      Ledger.empty "OwnerName: Alice" = none ∧
      (Codec.proto3.unmarshalRegisterThingTX ((hexDecodeString "ff").getD [])).2 =
        some "unexpected EOF" ∧
      (Invoke Codec.proto3 Crypto.sample (Stub.mk0 ledgerAlice) "registerThing" ["ff"]).1 =
        Result.fail "OwnerName is not registered " := by
  decide

/-! ## C16 -/

/-- C16: the function `Query` returns the stub it was given, for every function
name and every argument list, and a second call with the same function name and
arguments returns what the first returned; as a call on a ledger, it leaves the
ledger as it was. -/
theorem C16_query_no_effect (cd : Codec) (cr : Crypto) (stub : Stub) (function : String)
    (args : List String) :
    (Query cd stub function args).2 = stub ∧
      (Query cd (Query cd stub function args).2 function args).1 =
        (Query cd stub function args).1 ∧
      (Call.run cd cr stub.State ⟨.query, function, args, stub.getErr, stub.putErr⟩).2 =
        stub.State := by
  refine ⟨Query_state cd stub function args, ?_, ?_⟩
  · rw [Query_state]
  · simp only [Call.run, Query_state]

/-! ## C17 -/

/-- A `Query` of "owner", "thing" or "spec" with one argument and a read that
reports no error, by cases.  When the value under the key has length 0 the
call returns no payload and the error that the owner, thing or specification
does not exist.  When the key holds a value of another length that unmarshals
to a record, the call returns what `json.Marshal` returns for that record: its
bytes and no error, or no payload and its error.  No signature is looked at. -/
theorem Query_cases (cd : Codec) (stub : Stub) (arg : String) :
    (stub.getErr ("OwnerName: " ++ arg) = none →
      (¬ stub.State.Holds ("OwnerName: " ++ arg) →
        (Query cd stub "owner" [arg]).1 =
          ⟨none, some ("OwnerName (" ++ arg ++ ") does not exist\n")⟩) ∧
      (∀ v r, stub.State ("OwnerName: " ++ arg) = some v → v ≠ [] →
        cd.unmarshalIdentities v = (r, none) →
        (∀ j, cd.jsonIdentities r = .ok j → (Query cd stub "owner" [arg]).1 = ⟨some j, none⟩) ∧
          (∀ e, cd.jsonIdentities r = .error e →
            (Query cd stub "owner" [arg]).1 = ⟨none, some e⟩))) ∧
    (stub.getErr ("Thing: " ++ arg) = none →
      (¬ stub.State.Holds ("Thing: " ++ arg) →
        (Query cd stub "thing" [arg]).1 =
          ⟨none, some ("Thing (" ++ arg ++ ") does not exist\n")⟩) ∧
      (∀ v r, stub.State ("Thing: " ++ arg) = some v → v ≠ [] →
        cd.unmarshalThings v = (r, none) →
        (∀ j, cd.jsonThings r = .ok j → (Query cd stub "thing" [arg]).1 = ⟨some j, none⟩) ∧
          (∀ e, cd.jsonThings r = .error e →
            (Query cd stub "thing" [arg]).1 = ⟨none, some e⟩))) ∧
    (stub.getErr ("Spec: " ++ arg) = none →
      (¬ stub.State.Holds ("Spec: " ++ arg) →
        (Query cd stub "spec" [arg]).1 =
          ⟨none, some ("spec (" ++ arg ++ ") does not exist\n")⟩) ∧
      (∀ v r, stub.State ("Spec: " ++ arg) = some v → v ≠ [] →
        cd.unmarshalSpec v = (r, none) →
        (∀ j, cd.jsonSpec r = .ok j → (Query cd stub "spec" [arg]).1 = ⟨some j, none⟩) ∧
          (∀ e, cd.jsonSpec r = .error e →
            (Query cd stub "spec" [arg]).1 = ⟨none, some e⟩))) := by
  refine ⟨fun hget => ⟨?_, ?_⟩, fun hget => ⟨?_, ?_⟩, fun hget => ⟨?_, ?_⟩⟩
  · exact queryOwner_absent cd stub arg hget
  · intro v r hv hne hu
    have hq : (Query cd stub "owner" [arg]).1 = Result.ofMarshal (cd.jsonIdentities r) := by
      simp only [Query, if_true, queryOwner, Stub.GetState_ok hget, hv, Option.getD_some,
        List.length_eq_zero, hne, if_false, hu]
    rw [hq]
    exact ⟨fun j hj => by rw [hj]; rfl, fun e he => by rw [he]; rfl⟩
  · intro h
    have h₀ : (stub.State ("Thing: " ++ arg)).getD [] = [] := not_not.mp h
    simp only [Query, show ¬ ("thing" = "owner") by decide, if_true, if_false, queryThing,
      Stub.GetState_ok hget, h₀, List.length_nil, Result.fail]
  · intro v r hv hne hu
    have hq : (Query cd stub "thing" [arg]).1 = Result.ofMarshal (cd.jsonThings r) := by
      simp only [Query, show ¬ ("thing" = "owner") by decide, if_true, if_false, queryThing,
        Stub.GetState_ok hget, hv, Option.getD_some, List.length_eq_zero, hne, hu]
    rw [hq]
    exact ⟨fun j hj => by rw [hj]; rfl, fun e he => by rw [he]; rfl⟩
  · intro h
    have h₀ : (stub.State ("Spec: " ++ arg)).getD [] = [] := not_not.mp h
    simp only [Query, show ¬ ("spec" = "owner") by decide, show ¬ ("spec" = "thing") by decide,
      if_true, if_false, querySpec, Stub.GetState_ok hget, h₀, List.length_nil, Result.fail]
  · intro v r hv hne hu
    have hq : (Query cd stub "spec" [arg]).1 = Result.ofMarshal (cd.jsonSpec r) := by
      simp only [Query, show ¬ ("spec" = "owner") by decide,
        show ¬ ("spec" = "thing") by decide, if_true, if_false, querySpec,
        Stub.GetState_ok hget, hv, Option.getD_some, List.length_eq_zero, hne, hu]
    rw [hq]
    exact ⟨fun j hj => by rw [hj]; rfl, fun e he => by rw [he]; rfl⟩

set_option maxRecDepth 10000 in
/-- The cases of `Query` on the ledger of the test file, after "Alice" has
registered herself and her thing: the owner "Bob" and the specification
"test spec" do not exist; for the owner "Alice" the payload is the JSON text
of her record, the name and the public key in base64, and no error. -/
theorem Query_cases_witness :
    (Query Codec.proto3 (Stub.mk0 ledgerAliceThing) "owner" ["Bob"]).1 =
        ⟨none, some "OwnerName (Bob) does not exist\n"⟩ ∧
      (Query Codec.proto3 (Stub.mk0 ledgerAliceThing) "spec" ["test spec"]).1 =
        ⟨none, some "spec (test spec) does not exist\n"⟩ ∧
      (Query Codec.proto3 (Stub.mk0 ledgerAliceThing) "owner" ["Alice"]).1 =
        ⟨some [123, 34, 79, 119, 110, 101, 114, 78, 97, 109, 101, 34, 58, 34, 65, 108, 105, 99,
          101, 34, 44, 34, 80, 117, 98, 107, 101, 121, 34, 58, 34, 65, 115, 112, 75, 106, 72, 51,
          70, 67, 81, 43, 83, 84, 78, 52, 105, 90, 75, 56, 107, 68, 88, 98, 50, 49, 89, 112, 100,
          76, 82, 88, 73, 120, 102, 87, 100, 108, 99, 99, 76, 50, 101, 84, 99, 34, 125], none⟩ ∧
      Wire.bytesString [123, 34, 79, 119, 110, 101, 114, 78, 97, 109, 101, 34, 58, 34, 65, 108,
          105, 99, 101, 34, 44, 34, 80, 117, 98, 107, 101, 121, 34, 58, 34, 65, 115, 112, 75,
          106, 72, 51, 70, 67, 81, 43, 83, 84, 78, 52, 105, 90, 75, 56, 107, 68, 88, 98, 50, 49,
          89, 112, 100, 76, 82, 88, 73, 120, 102, 87, 100, 108, 99, 99, 76, 50, 101, 84, 99, 34,
          125] =
        some ("\x7b" ++ String.mk [Char.ofNat 34] ++ "OwnerName" ++ String.mk [Char.ofNat 34] ++
          ":" ++ String.mk [Char.ofNat 34] ++ "Alice" ++ String.mk [Char.ofNat 34] ++ "," ++
          String.mk [Char.ofNat 34] ++ "Pubkey" ++ String.mk [Char.ofNat 34] ++ ":" ++
          String.mk [Char.ofNat 34] ++ "AspKjH3FCQ+STN4iZK8kDXb21YpdLRXIxfWdlccL2eTc" ++
          String.mk [Char.ofNat 34] ++ "\x7d") :=
  ⟨((Query_cases Codec.proto3 (Stub.mk0 ledgerAliceThing) "Bob").1 rfl).1 (by decide),
    ((Query_cases Codec.proto3 (Stub.mk0 ledgerAliceThing) "test spec").2.2 rfl).1 (by decide),
    (((Query_cases Codec.proto3 (Stub.mk0 ledgerAliceThing) "Alice").1 rfl).2
      (marshalled (Codec.proto3.marshalIdentities ⟨"Alice", alicePub⟩)) ⟨"Alice", alicePub⟩
      (by decide) (by decide) (by decide)).1 _ (by rfl),
    by decide⟩

set_option maxRecDepth 10000 in
/-- C17 fails for a specification whose owner name and data are empty.  The
owner with the empty name registers the specification "spec" and `Invoke`
reports no error; the key `"Spec: spec"` then holds the record as it was
marshalled, the empty byte string, which unmarshals without an error to the
record with the empty owner name and data, whose JSON text is the two braces.
`Query("spec", "spec")` returns no payload and the error that the
specification does not exist. -/
theorem C17_stored_record_not_found :
    (Invoke Codec.proto3 Crypto.sample (Stub.mk0 ledgerAnon) "registerSpec"
        [emptySpecTx.arg]).1 = ⟨none, none⟩ ∧
      (Invoke Codec.proto3 Crypto.sample (Stub.mk0 ledgerAnon) "registerSpec"
        [emptySpecTx.arg]).2.State "Spec: spec" =
        some (marshalled (Codec.proto3.marshalSpec ⟨emptySpecTx.OwnerName, emptySpecTx.Data⟩)) ∧
      marshalled (Codec.proto3.marshalSpec ⟨emptySpecTx.OwnerName, emptySpecTx.Data⟩) = [] ∧
      Codec.proto3.unmarshalSpec [] = (⟨emptySpecTx.OwnerName, emptySpecTx.Data⟩, none) ∧
      Result.ofMarshal (Codec.proto3.jsonSpec ⟨emptySpecTx.OwnerName, emptySpecTx.Data⟩) =
        ⟨some [123, 125], none⟩ ∧
      (Query Codec.proto3
        (Invoke Codec.proto3 Crypto.sample (Stub.mk0 ledgerAnon) "registerSpec"
          [emptySpecTx.arg]).2 "spec" ["spec"]).1 =
        ⟨none, some "spec (spec) does not exist\n"⟩ := by
  decide

/-! ## C18 -/

/-- A call changes the value under `"Alias:" + a` only on a ledger that holds
no owner record under `"OwnerName: " + a`. -/
theorem Call.run_alias_changed {cd : Codec} {cr : Crypto} {l : Ledger} {c : Call} {a : String}
    (h : (c.run cd cr l).2 ("Alias:" ++ a) ≠ l ("Alias:" ++ a)) :
    ¬ l.Holds ("OwnerName: " ++ a) := by
  unfold Call.run at h
  cases he : c.entry with
  | init =>
    simp only [he] at h
    exact absurd (Init_changed h) (by
      have := key_ne_of_head "Alias:" "CounterSeed" a "" (by simp)
      simpa using this)
  | query =>
    simp only [he, Query_state] at h
    exact absurd rfl h
  | invoke =>
    simp only [he] at h
    cases hb : c.args.head?.bind hexDecodeString with
    | none =>
      rw [(Invoke_bad_arg cd cr _ c.function c.args hb).1] at h
      exact absurd rfl h
    | some b =>
      cases hargs : c.args with
      | nil => simp [hargs] at hb
      | cons arg rest =>
        simp only [hargs, List.head?_cons, Option.some_bind] at hb
        rw [hargs] at h
        rw [Invoke_eq cd cr _ c.function arg rest b hb] at h
        split_ifs at h with h₁ h₂ h₃
        · exact absurd (registerOwner_changed h).1
            (key_ne_of_head "Alias:" "OwnerName: " a _ (by simp))
        · obtain ⟨hc, hk⟩ := registerThing_changed h
          rcases hk with ⟨x, hx, hk⟩ | ⟨hk, _⟩
          · have hax : a = x := key_inj "Alias:" a x hk
            subst hax
            exact ((checkIdentities_eq_none _ _).mp hc.2.2.2.1 a hx).2
          · exact absurd hk (key_ne_of_head "Alias:" "Thing: " a _ (by simp))
        · exact absurd (registerSpec_changed h).2.1
            (key_ne_of_head "Alias:" "Spec: " a _ (by simp))
        · exact absurd rfl h

/-- C18, as stated, fails on a ledger that `Invoke` calls lead to from the empty
one: "Alice" registers her thing with the alias "Foo", then an owner named
"Foo" registers; the ledger holds a record under `"OwnerName: Foo"` and one
under `"Alias:Foo"`. -/
theorem C18_counterexample :
    Reachable Codec.proto3 Crypto.sample ledgerFoo ∧ ledgerFoo.Holds "OwnerName: Foo" ∧
      ledgerFoo.Holds "Alias:Foo" :=
  ⟨⟨_, rfl⟩, by decide, by decide⟩

/-- C18, amended: a name that is a registered owner name does not become an
alias.  On a ledger that holds an owner record under `"OwnerName: " + s`, no
sequence of `Init`, `Invoke` and `Query` calls changes the value under
`"Alias:" + s`; and an `Invoke("registerThing")` that reports no error found no
owner record under the name of any of its aliases. -/
theorem C18_owner_name_never_becomes_alias (cd : Codec) (cr : Crypto) :
    (∀ (l : Ledger) (s : String), l.Holds ("OwnerName: " ++ s) → ∀ cs : List Call,
      runCalls cd cr l cs ("Alias:" ++ s) = l ("Alias:" ++ s)) ∧
    (∀ (stub : Stub) (arg : String) (rest : List String) (b : Bytes),
      hexDecodeString arg = some b →
      (Invoke cd cr stub "registerThing" (arg :: rest)).1.err = none →
      ∀ a ∈ (cd.unmarshalRegisterThingTX b).1.Identities,
        ¬ stub.State.Holds ("OwnerName: " ++ a)) := by
  constructor
  · intro l s h cs
    induction cs generalizing l with
    | nil => rfl
    | cons c cs ih =>
      rw [runCalls_cons]
      have hstep : (c.run cd cr l).2 ("Alias:" ++ s) = l ("Alias:" ++ s) := by
        by_contra hne
        exact Call.run_alias_changed hne h
      have hown : (c.run cd cr l).2.Holds ("OwnerName: " ++ s) := by
        have hfrozen := owner_frozen cd cr l s h [c]
        rw [runCalls_cons, runCalls_nil] at hfrozen
        unfold Ledger.Holds
        rw [hfrozen]
        exact h
      rw [ih _ hown, hstep]
  · intro stub arg rest b hb hok a ha
    rw [Invoke_eq cd cr stub "registerThing" arg rest b hb] at hok
    simp only [show ¬ ("registerThing" = "registerOwner") by decide, if_true, if_false] at hok
    exact ((checkIdentities_eq_none _ _).mp (registerThing_ok hok).1.2.2.2.1 a ha).2

/-- C18, amended, on the ledger of the test file: "Alice" is a registered
name, and her attempt to call a thing "Alice" leaves no alias record. -/
theorem C18_owner_name_never_becomes_alias_witness :
    ledgerAlice.Holds "OwnerName: Alice" ∧
      runCalls Codec.proto3 Crypto.sample ledgerAlice
        [Call.mk0 .invoke "registerThing" [aliceAliasTx.arg],
          Call.mk0 .invoke "registerThing" [aliceThingTx.arg]] ("Alias:" ++ "Alice") =
        ledgerAlice ("Alias:" ++ "Alice") ∧
      ∀ a ∈ (Codec.proto3.unmarshalRegisterThingTX
          ((hexDecodeString aliceThingTx.arg).getD [])).1.Identities,
        ¬ (Stub.mk0 ledgerAlice).State.Holds ("OwnerName: " ++ a) :=
  ⟨by decide,
    (C18_owner_name_never_becomes_alias Codec.proto3 Crypto.sample).1 ledgerAlice "Alice"
      (by decide) _,
    (C18_owner_name_never_becomes_alias Codec.proto3 Crypto.sample).2 (Stub.mk0 ledgerAlice)
      aliceThingTx.arg [] _ (by decide) (by decide)⟩

/-! ## C19 -/

/-- The alias records leave an alias record under the key of every alias, when
the writes report no error. -/
theorem putAliasRecords_mem (value : Bytes) (stub : Stub) (identities : List String)
    (a : String) (ha : a ∈ identities)
    (hput : ∀ x, stub.putErr ("Alias:" ++ x) value = none) :
    (putAliasRecords value stub identities).State ("Alias:" ++ a) = some value := by
  induction identities generalizing stub with
  | nil => simp at ha
  | cons x rest ih =>
    simp only [putAliasRecords, List.foldl_cons] at ih ⊢
    have hput₁ : ∀ y, (stub.PutState ("Alias:" ++ x) value).1.putErr ("Alias:" ++ y) value
        = none := by
      intro y
      rw [Stub.PutState_putErr]
      exact hput y
    by_cases har : a ∈ rest
    · exact ih _ har hput₁
    · have hax : a = x := by
        rcases List.mem_cons.mp ha with h | h
        · exact h
        · exact absurd h har
      subst hax
      have hkeep : (putAliasRecords value (stub.PutState ("Alias:" ++ a) value).1 rest).State
          ("Alias:" ++ a) = (stub.PutState ("Alias:" ++ a) value).1.State ("Alias:" ++ a) := by
        by_contra hne
        obtain ⟨y, hy, hk⟩ := putAliasRecords_changed hne
        exact har (key_inj "Alias:" a y hk ▸ hy)
      simp only [putAliasRecords] at hkeep
      rw [hkeep, (Stub.PutState_ok (by simp [Stub.PutState, hput a])).1]
      exact Ledger.put_same _ _ _

/-- A call of `registerThing` leaves every key alone that is neither an alias
key nor a thing key. -/
theorem registerThing_other (cd : Codec) (cr : Crypto) (stub : Stub) (b : Bytes) (k : String)
    (h₁ : ∀ a, k ≠ "Alias:" ++ a) (h₂ : ∀ x, k ≠ "Thing: " ++ x) :
    (registerThing cd cr stub b).2.State k = stub.State k := by
  by_contra hne
  rcases (registerThing_changed hne).2 with ⟨a, _, hk⟩ | ⟨hk, _⟩
  · exact h₁ a hk
  · exact h₂ _ hk

theorem registerThing_getErr (cd : Codec) (cr : Crypto) (stub : Stub) (b : Bytes) :
    (registerThing cd cr stub b).2.getErr = stub.getErr ∧
      (registerThing cd cr stub b).2.putErr = stub.putErr := by
  by_cases hc : ThingChecks cd cr stub (cd.unmarshalRegisterThingTX b).1
  · by_cases hi : (cd.unmarshalRegisterThingTX b).1.Identities = []
    · rw [registerThing_writes hc [] (fun hne => absurd hi hne)]
      split <;> simp [putAliasRecords_getErr, putAliasRecords_putErr]
    · cases hm : cd.marshalAlias ⟨(cd.unmarshalRegisterThingTX b).1.Nonce⟩ with
      | error e =>
        rw [(registerThing_alias_error hc e hi hm).1]
        exact ⟨rfl, rfl⟩
      | ok value =>
        rw [registerThing_writes hc value (fun _ => hm)]
        split <;> simp [putAliasRecords_getErr, putAliasRecords_putErr]
  · rw [(registerThing_unchecked hc).1]
    exact ⟨rfl, rfl⟩

/-- C19: two things may share an alias.  On a ledger that calls lead to from
the empty one, with ledger calls that report no error, let two `registerThing`
transactions with an alias `a` in common, and nonces whose hexadecimal forms
differ, each have an owner whose stored key verifies its signature, no alias
that is a registered owner name, and an alias record that marshals.  Then both
calls of `Invoke`, one after the other, return `nil, nil`; the key
`"Alias:" + a` holds the alias record of the first nonce after the first call
and that of the second nonce after the second, and the two thing keys then hold
the two thing records. -/
theorem C19_shared_alias (cd : Codec) (cr : Crypto) (stub : Stub)
    (hr : Reachable cd cr stub.State) (hget : ∀ k, stub.getErr k = none)
    (hput : ∀ k v, stub.putErr k v = none)
    (arg₁ : String) (rest₁ : List String) (b₁ : Bytes) (hb₁ : hexDecodeString arg₁ = some b₁)
    (arg₂ : String) (rest₂ : List String) (b₂ : Bytes) (hb₂ : hexDecodeString arg₂ = some b₂)
    (a : String) (ha₁ : a ∈ (cd.unmarshalRegisterThingTX b₁).1.Identities)
    (ha₂ : a ∈ (cd.unmarshalRegisterThingTX b₂).1.Identities)
    (hN : hexEncodeToString (cd.unmarshalRegisterThingTX b₁).1.Nonce ≠
      hexEncodeToString (cd.unmarshalRegisterThingTX b₂).1.Nonce)
    (hauth₁ : Authorized cd cr stub.State (cd.unmarshalRegisterThingTX b₁).1.OwnerName
      (cd.unmarshalRegisterThingTX b₁).1.Signature
      (thingMessage (cd.unmarshalRegisterThingTX b₁).1))
    (hauth₂ : Authorized cd cr stub.State (cd.unmarshalRegisterThingTX b₂).1.OwnerName
      (cd.unmarshalRegisterThingTX b₂).1.Signature
      (thingMessage (cd.unmarshalRegisterThingTX b₂).1))
    (hfree₁ : ∀ x ∈ (cd.unmarshalRegisterThingTX b₁).1.Identities,
      ¬ stub.State.Holds ("OwnerName: " ++ x))
    (hfree₂ : ∀ x ∈ (cd.unmarshalRegisterThingTX b₂).1.Identities,
      ¬ stub.State.Holds ("OwnerName: " ++ x))
    (v₁ v₂ : Bytes)
    (hm₁ : cd.marshalAlias ⟨(cd.unmarshalRegisterThingTX b₁).1.Nonce⟩ = .ok v₁)
    (hm₂ : cd.marshalAlias ⟨(cd.unmarshalRegisterThingTX b₂).1.Nonce⟩ = .ok v₂) :
    (Invoke cd cr stub "registerThing" (arg₁ :: rest₁)).1 = Result.nilnil ∧
      (Invoke cd cr stub "registerThing" (arg₁ :: rest₁)).2.State ("Alias:" ++ a) = some v₁ ∧
      (Invoke cd cr (Invoke cd cr stub "registerThing" (arg₁ :: rest₁)).2 "registerThing"
        (arg₂ :: rest₂)).1 = Result.nilnil ∧
      (Invoke cd cr (Invoke cd cr stub "registerThing" (arg₁ :: rest₁)).2 "registerThing"
        (arg₂ :: rest₂)).2.State ("Alias:" ++ a) = some v₂ ∧
      (Invoke cd cr (Invoke cd cr stub "registerThing" (arg₁ :: rest₁)).2 "registerThing"
        (arg₂ :: rest₂)).2.State
          ("Thing: " ++ hexEncodeToString (cd.unmarshalRegisterThingTX b₁).1.Nonce) =
        some (marshalled (cd.marshalThings (cd.unmarshalRegisterThingTX b₁).1.store)) ∧
      (Invoke cd cr (Invoke cd cr stub "registerThing" (arg₁ :: rest₁)).2 "registerThing"
        (arg₂ :: rest₂)).2.State
          ("Thing: " ++ hexEncodeToString (cd.unmarshalRegisterThingTX b₂).1.Nonce) =
        some (marshalled (cd.marshalThings (cd.unmarshalRegisterThingTX b₂).1.store)) := by
  rw [Invoke_eq cd cr stub "registerThing" arg₁ rest₁ b₁ hb₁]
  simp only [show ¬ ("registerThing" = "registerOwner") by decide, if_true, if_false]
  rw [Invoke_eq cd cr _ "registerThing" arg₂ rest₂ b₂ hb₂]
  simp only [show ¬ ("registerThing" = "registerOwner") by decide, if_true, if_false]
  -- the first call
  have hc₁ : ThingChecks cd cr stub (cd.unmarshalRegisterThingTX b₁).1 := by
    refine ⟨hget _, ?_, hget _, ?_, hauth₁⟩
    · unfold Ledger.Holds
      rw [nonce_absent hr]
      exact fun h => h rfl
    · rw [checkIdentities_eq_none]
      exact fun x hx => ⟨hget _, hfree₁ x hx⟩
  have hw₁ := registerThing_writes hc₁ v₁ (fun _ => hm₁)
  rw [hput] at hw₁
  have hres₁ : (registerThing cd cr stub b₁).1 = Result.nilnil := by rw [hw₁]
  have herr₁ := registerThing_getErr cd cr stub b₁
  have hsame : ∀ k, (∀ x, k ≠ "Alias:" ++ x) → (∀ x, k ≠ "Thing: " ++ x) →
      (registerThing cd cr stub b₁).2.State k = stub.State k :=
    fun k h₁ h₂ => registerThing_other cd cr stub b₁ k h₁ h₂
  have hown : ∀ x, (registerThing cd cr stub b₁).2.State ("OwnerName: " ++ x) =
      stub.State ("OwnerName: " ++ x) := fun x =>
    hsame _ (fun y => key_ne_of_head "OwnerName: " "Alias:" x y (by simp))
      (fun y => key_ne_of_head "OwnerName: " "Thing: " x y (by simp))
  have hnon : ∀ x, (registerThing cd cr stub b₁).2.State ("Nonce: " ++ x) =
      stub.State ("Nonce: " ++ x) := fun x =>
    hsame _ (fun y => key_ne_of_head "Nonce: " "Alias:" x y (by simp))
      (fun y => key_ne_of_head "Nonce: " "Thing: " x y (by simp))
  -- the second call
  have hc₂ : ThingChecks cd cr (registerThing cd cr stub b₁).2
      (cd.unmarshalRegisterThingTX b₂).1 := by
    refine ⟨by rw [herr₁.1]; exact hget _, ?_, by rw [herr₁.1]; exact hget _, ?_, ?_⟩
    · unfold Ledger.Holds
      rw [hnon, nonce_absent hr]
      exact fun h => h rfl
    · rw [checkIdentities_eq_none]
      intro x hx
      refine ⟨by rw [herr₁.1]; exact hget _, ?_⟩
      unfold Ledger.Holds
      rw [hown]
      exact hfree₂ x hx
    · rw [Authorized_iff] at hauth₂ ⊢
      unfold Ledger.Holds at hauth₂ ⊢
      rw [hown]
      exact hauth₂
  have hw₂ := registerThing_writes hc₂ v₂ (fun _ => hm₂)
  rw [herr₁.2, hput] at hw₂
  have hthing₁ := (registerThing_ok (by rw [hres₁]; rfl : (registerThing cd cr stub b₁).1.err
    = none)).2
  refine ⟨hres₁, ?_, by rw [hw₂], ?_, ?_, ?_⟩
  · rw [hw₁]
    simp only
    rw [Ledger.put_ne _ _ _ _ (key_ne_of_head "Alias:" "Thing: " a _ (by simp))]
    exact putAliasRecords_mem v₁ _ _ a ha₁ (fun x => hput _ _)
  · rw [hw₂]
    simp only
    rw [Ledger.put_ne _ _ _ _ (key_ne_of_head "Alias:" "Thing: " a _ (by simp))]
    exact putAliasRecords_mem v₂ _ _ a ha₂ (fun x => by rw [herr₁.2]; exact hput _ _)
  · rw [hw₂]
    simp only
    rw [Ledger.put_ne _ _ _ _ (fun h => hN (key_inj "Thing: " _ _ h)),
      putAliasRecords_other v₂ _ _ _
        (fun x => key_ne_of_head "Thing: " "Alias:" _ x (by simp))]
    exact hthing₁
  · rw [hw₂]
    exact Ledger.put_same _ _ _

/-- C19 on the ledger of the test file: "Alice" registers two things with the
alias "Bar"; the alias record then carries the second nonce, not the first. -/
theorem C19_shared_alias_witness :
    (Invoke Codec.proto3 Crypto.sample
        (Invoke Codec.proto3 Crypto.sample (Stub.mk0 ledgerAlice) "registerThing"
          [aliceThingTx.arg]).2 "registerThing" [aliceThingTx3.arg]).1 = Result.nilnil ∧
      (Invoke Codec.proto3 Crypto.sample
        (Invoke Codec.proto3 Crypto.sample (Stub.mk0 ledgerAlice) "registerThing"
          [aliceThingTx.arg]).2 "registerThing" [aliceThingTx3.arg]).2.State
          ("Alias:" ++ "Bar") =
        some (marshalled (Codec.proto3.marshalAlias ⟨[1, 2]⟩)) ∧
      marshalled (Codec.proto3.marshalAlias ⟨[1, 2]⟩) ≠
        marshalled (Codec.proto3.marshalAlias ⟨aliceNonce⟩) :=
  ⟨(C19_shared_alias Codec.proto3 Crypto.sample (Stub.mk0 ledgerAlice) ⟨_, rfl⟩
      (fun _ => rfl) (fun _ _ => rfl) aliceThingTx.arg []
      ((hexDecodeString aliceThingTx.arg).getD []) (by decide) aliceThingTx3.arg []
      ((hexDecodeString aliceThingTx3.arg).getD []) (by decide) "Bar" (by decide) (by decide)
      (by decide) (by decide) (by decide) (by decide) (by decide)
      (marshalled (Codec.proto3.marshalAlias ⟨aliceNonce⟩))
      (marshalled (Codec.proto3.marshalAlias ⟨[1, 2]⟩)) (by rfl) (by rfl)).2.2.1,
    (C19_shared_alias Codec.proto3 Crypto.sample (Stub.mk0 ledgerAlice) ⟨_, rfl⟩
      (fun _ => rfl) (fun _ _ => rfl) aliceThingTx.arg []
      ((hexDecodeString aliceThingTx.arg).getD []) (by decide) aliceThingTx3.arg []
      ((hexDecodeString aliceThingTx3.arg).getD []) (by decide) "Bar" (by decide) (by decide)
      (by decide) (by decide) (by decide) (by decide) (by decide)
      (marshalled (Codec.proto3.marshalAlias ⟨aliceNonce⟩))
      (marshalled (Codec.proto3.marshalAlias ⟨[1, 2]⟩)) (by rfl) (by rfl)).2.2.2.1,
    by decide⟩

/-! ## C20 -/

theorem readsFirst_append (gs ps : List Op) (hg : ∀ o ∈ gs, o.isGet = true)
    (hp : ∀ o ∈ ps, o.isGet = false) : readsFirst (gs ++ ps) = true := by
  induction gs with
  | nil =>
    cases ps with
    | nil => rfl
    | cons o rest =>
      cases o with
      | get k => simpa [Op.isGet] using hp (Op.get k) (List.mem_cons_self _ _)
      | put k v =>
        simp only [List.nil_append, readsFirst, List.all_eq_true, Bool.not_eq_true']
        exact fun o ho => hp o (List.mem_cons_of_mem _ ho)
  | cons o rest ih =>
    cases o with
    | get k =>
      simp only [List.cons_append, readsFirst]
      exact ih (fun o ho => hg o (List.mem_cons_of_mem _ ho))
    | put k v => simpa [Op.isGet] using hg (Op.put k v) (List.mem_cons_self _ _)

/-- The case `"registerOwner"` on a traced stub, by cases. -/
theorem Traced.registerOwner_cases (cd : Codec) (cr : Crypto) (t : TracedStub) (b : Bytes) :
    Traced.registerOwner cd cr t b =
      let tx := (cd.unmarshalRegisterIdentityTX b).1
      let key := "OwnerName: " ++ tx.OwnerName
      let value := marshalled (cd.marshalIdentities ⟨tx.OwnerName, tx.PubKey⟩)
      if t.stub.getErr key ≠ none then
        (Result.fail "Could not get OwnerName State", ⟨t.stub, t.ops ++ [Op.get key]⟩)
      else if t.stub.State.Holds key then
        (Result.fail "OwnerName is unavailable", ⟨t.stub, t.ops ++ [Op.get key]⟩)
      else if verify cr tx.PubKey tx.Signature (tx.OwnerName ++ ":" ++ tx.Data) ≠ none then
        (Result.fail "Error verifying signature", ⟨t.stub, t.ops ++ [Op.get key]⟩)
      else
        match t.stub.putErr key value with
        | some e => (Result.fail e, ⟨t.stub, t.ops ++ [Op.get key] ++ [Op.put key value]⟩)
        | none =>
          (Result.nilnil, ⟨⟨t.stub.State.put key value, t.stub.getErr, t.stub.putErr⟩,
            t.ops ++ [Op.get key] ++ [Op.put key value]⟩) := by
  unfold Traced.registerOwner TracedStub.GetState TracedStub.PutState Stub.GetState
    Stub.PutState Ledger.Holds
  simp only
  cases hg : t.stub.getErr ("OwnerName: " ++ (cd.unmarshalRegisterIdentityTX b).1.OwnerName) with
  | some e => simp
  | none =>
    simp only [ne_eq, not_true_eq_false, if_false, List.length_eq_zero]
    by_cases hh : (t.stub.State ("OwnerName: " ++
        (cd.unmarshalRegisterIdentityTX b).1.OwnerName)).getD [] = []
    · simp only [hh, not_true_eq_false, if_false]
      cases hv : verify cr (cd.unmarshalRegisterIdentityTX b).1.PubKey
          (cd.unmarshalRegisterIdentityTX b).1.Signature
          ((cd.unmarshalRegisterIdentityTX b).1.OwnerName ++ ":" ++
            (cd.unmarshalRegisterIdentityTX b).1.Data) with
      | some e => simp
      | none =>
        simp only [not_true_eq_false, if_false]
        cases t.stub.putErr ("OwnerName: " ++ (cd.unmarshalRegisterIdentityTX b).1.OwnerName)
          (marshalled (cd.marshalIdentities ⟨(cd.unmarshalRegisterIdentityTX b).1.OwnerName,
            (cd.unmarshalRegisterIdentityTX b).1.PubKey⟩)) <;> rfl
    · simp only [hh, not_false_eq_true, if_true]

/-- The case `"registerOwner"` on a traced stub and on the plain stub. -/
theorem registerOwner_trace (cd : Codec) (cr : Crypto) (t : TracedStub) (b : Bytes) :
    TraceSpec t (Traced.registerOwner cd cr t b) (registerOwner cd cr t.stub b) := by
  unfold TraceSpec
  rw [Traced.registerOwner_cases, registerOwner_eq]
  simp only
  have hget : ∀ k : String, ∀ o ∈ [Op.get k], o.isGet = true := by
    intro k o ho
    rw [List.mem_singleton.1 ho]
    rfl
  have hput : ∀ (k : String) (v : Bytes), ∀ o ∈ [Op.put k v], o.isGet = false := by
    intro k v o ho
    rw [List.mem_singleton.1 ho]
    rfl
  have hnil : ∀ o ∈ ([] : List Op), o.isGet = false := fun o ho => absurd ho (List.not_mem_nil o)
  split_ifs with h₁ h₂ h₃
  · exact ⟨rfl, rfl, _, [], (List.append_nil _).symm, hget _, hnil, fun _ _ => rfl⟩
  · exact ⟨rfl, rfl, _, [], (List.append_nil _).symm, hget _, hnil, fun _ _ => rfl⟩
  · exact ⟨rfl, rfl, _, [], (List.append_nil _).symm, hget _, hnil, fun _ _ => rfl⟩
  · cases hp : t.stub.putErr ("OwnerName: " ++ (cd.unmarshalRegisterIdentityTX b).1.OwnerName)
        (marshalled (cd.marshalIdentities ⟨(cd.unmarshalRegisterIdentityTX b).1.OwnerName,
          (cd.unmarshalRegisterIdentityTX b).1.PubKey⟩)) with
    | none =>
      refine ⟨rfl, rfl, _, _, rfl, hget _, hput _ _, ?_⟩
      intro herr
      exact absurd rfl herr
    | some e =>
      refine ⟨rfl, rfl, _, _, rfl, hget _, hput _ _, ?_⟩
      intro _ _
      rfl

/-- The first loop on a traced stub: the result of the plain loop, the stub as
it was, and reads added to the list. -/
theorem checkIdentities_trace (t : TracedStub) (identities : List String) :
    ∃ gs : List Op, (∀ o ∈ gs, o.isGet = true) ∧
      Traced.checkIdentities t identities =
        (checkIdentities t.stub identities, ⟨t.stub, t.ops ++ gs⟩) := by
  induction identities generalizing t with
  | nil => exact ⟨[], fun o ho => absurd ho (List.not_mem_nil o), by
      simp [Traced.checkIdentities, checkIdentities]⟩
  | cons a rest ih =>
    obtain ⟨gs, hgs, hrest⟩ := ih ⟨t.stub, t.ops ++ [Op.get ("OwnerName: " ++ a)]⟩
    have hone : ∀ o ∈ [Op.get ("OwnerName: " ++ a)], o.isGet = true := by
      intro o ho
      rw [List.mem_singleton.1 ho]
      rfl
    unfold Traced.checkIdentities checkIdentities TracedStub.GetState Stub.GetState
    cases hg : t.stub.getErr ("OwnerName: " ++ a) with
    | some e => exact ⟨_, hone, rfl⟩
    | none =>
      by_cases hh : ((t.stub.State ("OwnerName: " ++ a)).getD []).length ≠ 0
      · refine ⟨_, hone, ?_⟩
        simp only [if_pos hh]
      · refine ⟨Op.get ("OwnerName: " ++ a) :: gs, ?_, ?_⟩
        · intro o ho
          rcases List.mem_cons.1 ho with h | h
          · rw [h]
            rfl
          · exact hgs o h
        · simp only [if_neg hh, hrest, List.append_assoc, List.singleton_append]

/-- The third loop on a traced stub: the outcome of the plain loop, and writes
added to the list; none when the loop returns an error. -/
theorem putAliases_trace (cd : Codec) (nonce : Bytes) (t : TracedStub)
    (identities : List String) :
    ∃ ps : List Op, (∀ o ∈ ps, o.isGet = false) ∧
      Traced.putAliases cd nonce t identities =
        ((putAliases cd nonce t.stub identities).1,
          ⟨(putAliases cd nonce t.stub identities).2, t.ops ++ ps⟩) ∧
      (putAliases cd nonce t.stub identities).2.putErr = t.stub.putErr ∧
      ((putAliases cd nonce t.stub identities).1 ≠ none →
        (putAliases cd nonce t.stub identities).2 = t.stub) := by
  induction identities generalizing t with
  | nil => exact ⟨[], fun o ho => absurd ho (List.not_mem_nil o), by
      simp [Traced.putAliases, putAliases], rfl, fun _ => rfl⟩
  | cons a rest ih =>
    unfold Traced.putAliases putAliases
    simp only
    cases hm : cd.marshalAlias ⟨nonce⟩ with
    | error e =>
      exact ⟨[], fun o ho => absurd ho (List.not_mem_nil o), by simp, rfl, fun _ => rfl⟩
    | ok value =>
      simp only
      obtain ⟨ps, hps, hrest, hput, herr⟩ := ih (t.PutState ("Alias:" ++ a) value).1
      have hstub : (t.PutState ("Alias:" ++ a) value).1.stub =
          (t.stub.PutState ("Alias:" ++ a) value).1 := rfl
      have hops : (t.PutState ("Alias:" ++ a) value).1.ops =
          t.ops ++ [Op.put ("Alias:" ++ a) value] := rfl
      rw [hstub] at hrest hput herr
      rw [hops] at hrest
      refine ⟨Op.put ("Alias:" ++ a) value :: ps, ?_, ?_, ?_, ?_⟩
      · intro o ho
        rcases List.mem_cons.1 ho with h | h
        · rw [h]
          rfl
        · exact hps o h
      · rw [hrest]
        simp
      · rw [hput, Stub.PutState_putErr]
      · intro he
        have hrec := putAliases_eq cd nonce (t.stub.PutState ("Alias:" ++ a) value).1 rest
        cases rest with
        | nil => exact absurd (by rw [hrec]) he
        | cons a₂ rest₂ =>
          rw [hm] at hrec
          exact absurd (by rw [hrec]) he

/-- The case `"registerSpec"` on a traced stub, by cases. -/
theorem Traced.registerSpec_cases (cd : Codec) (cr : Crypto) (t : TracedStub) (b : Bytes) :
    Traced.registerSpec cd cr t b =
      let tx := (cd.unmarshalRegisterSpecTX b).1
      let key := "Spec: " ++ tx.SpecName
      let ownerKey := "OwnerName: " ++ tx.OwnerName
      let checkIDBytes := (t.stub.State ownerKey).getD []
      let value := marshalled (cd.marshalSpec ⟨tx.OwnerName, tx.Data⟩)
      let t₁ : TracedStub := ⟨t.stub, t.ops ++ [Op.get key]⟩
      let t₂ : TracedStub := ⟨t.stub, t.ops ++ [Op.get key] ++ [Op.get ownerKey]⟩
      if t.stub.getErr key ≠ none then (Result.fail "Could not get Spec State", t₁)
      else if t.stub.State.Holds key then
        (Result.fail ("SpecName is unavailable " ++ tx.SpecName), t₁)
      else if t.stub.getErr ownerKey ≠ none then
        (Result.fail ("Failed to look up OwnerName (" ++ tx.OwnerName ++ ")"), t₂)
      else if ¬ t.stub.State.Holds ownerKey then
        (Result.fail ("OwnerName is not registered " ++ tx.OwnerName), t₂)
      else
        match (cd.unmarshalIdentities checkIDBytes).2 with
        | some e => (Result.fail e, t₂)
        | none =>
          if verify cr (cd.unmarshalIdentities checkIDBytes).1.Pubkey tx.Signature
              (specMessage tx) ≠ none then
            (Result.fail "Error verifying signature", t₂)
          else
            match t.stub.putErr key value with
            | some e => (Result.fail e, ⟨t.stub, t₂.ops ++ [Op.put key value]⟩)
            | none =>
              (Result.nilnil, ⟨⟨t.stub.State.put key value, t.stub.getErr, t.stub.putErr⟩,
                t₂.ops ++ [Op.put key value]⟩) := by
  unfold Traced.registerSpec TracedStub.GetState TracedStub.PutState Stub.GetState Stub.PutState
    Ledger.Holds specMessage
  simp only
  cases hg : t.stub.getErr ("Spec: " ++ (cd.unmarshalRegisterSpecTX b).1.SpecName) with
  | some e => simp
  | none =>
    simp only [ne_eq, not_true_eq_false, if_false, List.length_eq_zero, not_not]
    by_cases hh : (t.stub.State ("Spec: " ++ (cd.unmarshalRegisterSpecTX b).1.SpecName)).getD []
        = []
    · simp only [hh, not_true_eq_false, if_false]
      cases hg₂ : t.stub.getErr ("OwnerName: " ++ (cd.unmarshalRegisterSpecTX b).1.OwnerName) with
      | some e => simp
      | none =>
        simp only [not_true_eq_false, if_false]
        by_cases ho : (t.stub.State ("OwnerName: " ++
            (cd.unmarshalRegisterSpecTX b).1.OwnerName)).getD [] = []
        · simp only [ho, if_true]
        · simp only [ho, if_false]
          rcases hu : cd.unmarshalIdentities ((t.stub.State ("OwnerName: " ++
            (cd.unmarshalRegisterSpecTX b).1.OwnerName)).getD []) with ⟨reg, _ | e⟩
          · simp only
            cases hv : verify cr reg.Pubkey (cd.unmarshalRegisterSpecTX b).1.Signature
                ((cd.unmarshalRegisterSpecTX b).1.SpecName ++ ":" ++
                  (cd.unmarshalRegisterSpecTX b).1.OwnerName ++ ":" ++
                  (cd.unmarshalRegisterSpecTX b).1.Data) with
            | some e => simp
            | none =>
              simp only [not_true_eq_false, if_false]
              cases t.stub.putErr ("Spec: " ++ (cd.unmarshalRegisterSpecTX b).1.SpecName)
                (marshalled (cd.marshalSpec ⟨(cd.unmarshalRegisterSpecTX b).1.OwnerName,
                  (cd.unmarshalRegisterSpecTX b).1.Data⟩)) <;> rfl
          · simp only
    · simp only [hh, not_false_eq_true, if_true]

theorem Op.isGet_get (k : String) : ∀ o ∈ [Op.get k], o.isGet = true := by
  intro o ho
  rw [List.mem_singleton.1 ho]
  rfl

theorem Op.isGet_get₂ (k₁ k₂ : String) : ∀ o ∈ [Op.get k₁] ++ [Op.get k₂], o.isGet = true := by
  intro o ho
  rcases List.mem_append.1 ho with h | h
  · exact Op.isGet_get k₁ o h
  · exact Op.isGet_get k₂ o h

theorem Op.isGet_put (k : String) (v : Bytes) : ∀ o ∈ [Op.put k v], o.isGet = false := by
  intro o ho
  rw [List.mem_singleton.1 ho]
  rfl

theorem Op.isGet_nil (b : Bool) : ∀ o ∈ ([] : List Op), o.isGet = b :=
  fun o ho => absurd ho (List.not_mem_nil o)

theorem ops_one (xs : List Op) (a : Op) : xs ++ [a] = xs ++ [a] ++ [] := by simp

theorem ops_two (xs : List Op) (a b : Op) : xs ++ [a] ++ [b] = xs ++ ([a] ++ [b]) ++ [] := by
  simp

theorem ops_three (xs : List Op) (a b c : Op) :
    xs ++ [a] ++ [b] ++ [c] = xs ++ ([a] ++ [b]) ++ [c] := by
  simp

/-- The case `"registerSpec"` on a traced stub and on the plain stub. -/
theorem registerSpec_trace (cd : Codec) (cr : Crypto) (t : TracedStub) (b : Bytes) :
    TraceSpec t (Traced.registerSpec cd cr t b) (registerSpec cd cr t.stub b) := by
  unfold TraceSpec
  rw [Traced.registerSpec_cases, registerSpec_eq]
  simp only
  cases hu : (cd.unmarshalIdentities ((t.stub.State ("OwnerName: " ++
      (cd.unmarshalRegisterSpecTX b).1.OwnerName)).getD [])).2 <;>
    cases hp : t.stub.putErr ("Spec: " ++ (cd.unmarshalRegisterSpecTX b).1.SpecName)
      (marshalled (cd.marshalSpec ⟨(cd.unmarshalRegisterSpecTX b).1.OwnerName,
        (cd.unmarshalRegisterSpecTX b).1.Data⟩)) <;>
    simp only [] <;> split_ifs <;>
    first
    | exact ⟨rfl, rfl, _, _, ops_one _ _, Op.isGet_get _, Op.isGet_nil _, fun _ _ => rfl⟩
    | exact ⟨rfl, rfl, _, _, ops_two _ _ _, Op.isGet_get₂ _ _, Op.isGet_nil _, fun _ _ => rfl⟩
    | exact ⟨rfl, rfl, _, _, ops_three _ _ _ _, Op.isGet_get₂ _ _, Op.isGet_put _ _,
        fun _ _ => rfl⟩
    | exact ⟨rfl, rfl, _, _, ops_three _ _ _ _, Op.isGet_get₂ _ _, Op.isGet_put _ _,
        fun herr => absurd rfl herr⟩

/-- The case `"registerThing"` on a traced stub, by cases. -/
theorem Traced.registerThing_cases (cd : Codec) (cr : Crypto) (t : TracedStub) (b : Bytes) :
    Traced.registerThing cd cr t b =
      let tx := (cd.unmarshalRegisterThingTX b).1
      let nonceKey := "Nonce: " ++ hexEncodeToString tx.Nonce
      let ownerKey := "OwnerName: " ++ tx.OwnerName
      let key := "Thing: " ++ hexEncodeToString tx.Nonce
      let checkIDBytes := (t.stub.State ownerKey).getD []
      let value := marshalled (cd.marshalThings tx.store)
      let t₁ : TracedStub := ⟨t.stub, t.ops ++ [Op.get nonceKey]⟩
      let t₂ : TracedStub := ⟨t.stub, t.ops ++ [Op.get nonceKey] ++ [Op.get ownerKey]⟩
      if t.stub.getErr nonceKey ≠ none then (Result.fail "Could not get Nonce State", t₁)
      else if t.stub.State.Holds nonceKey then
        (Result.fail ("Nonce is unavailable " ++ hexEncodeToString tx.Nonce), t₁)
      else if t.stub.getErr ownerKey ≠ none then (Result.fail "Failed to look up Owner Name", t₂)
      else if ¬ t.stub.State.Holds ownerKey then
        (Result.fail ("OwnerName is not registered " ++ tx.OwnerName), t₂)
      else
        match Traced.checkIdentities t₂ tx.Identities with
        | (some e, t₃) => (Result.fail e, t₃)
        | (none, t₃) =>
          match (cd.unmarshalIdentities checkIDBytes).2 with
          | some e => (Result.fail e, t₃)
          | none =>
            if verify cr (cd.unmarshalIdentities checkIDBytes).1.Pubkey tx.Signature
                (thingMessage tx) ≠ none then
              (Result.fail "Error verifying signature", t₃)
            else
              match Traced.putAliases cd tx.Nonce t₃ tx.Identities with
              | (some e, t₄) => (Result.fail e, t₄)
              | (none, t₄) =>
                match t₄.stub.putErr key value with
                | some e => (Result.fail e, ⟨t₄.stub, t₄.ops ++ [Op.put key value]⟩)
                | none =>
                  (Result.nilnil, ⟨⟨t₄.stub.State.put key value, t₄.stub.getErr, t₄.stub.putErr⟩,
                    t₄.ops ++ [Op.put key value]⟩) := by
  unfold Traced.registerThing TracedStub.GetState Stub.GetState Ledger.Holds
    RegisterThingTX.store
  simp only
  cases hg : t.stub.getErr
    ("Nonce: " ++ hexEncodeToString (cd.unmarshalRegisterThingTX b).1.Nonce) with
  | some e => simp
  | none =>
    simp only [ne_eq, not_true_eq_false, if_false, List.length_eq_zero, not_not]
    by_cases hh : (t.stub.State ("Nonce: " ++
        hexEncodeToString (cd.unmarshalRegisterThingTX b).1.Nonce)).getD [] = []
    · simp only [hh, not_true_eq_false, if_false]
      cases hg₂ : t.stub.getErr ("OwnerName: " ++ (cd.unmarshalRegisterThingTX b).1.OwnerName) with
      | some e => simp
      | none =>
        simp only [not_true_eq_false, if_false]
        by_cases ho : (t.stub.State ("OwnerName: " ++
            (cd.unmarshalRegisterThingTX b).1.OwnerName)).getD [] = []
        · simp only [ho, if_true]
        · simp only [ho, if_false]
          rcases hc : Traced.checkIdentities ⟨t.stub, t.ops ++
              [Op.get ("Nonce: " ++ hexEncodeToString (cd.unmarshalRegisterThingTX b).1.Nonce)] ++
              [Op.get ("OwnerName: " ++ (cd.unmarshalRegisterThingTX b).1.OwnerName)]⟩
            (cd.unmarshalRegisterThingTX b).1.Identities with ⟨_ | e, t₃⟩
          · simp only
            rcases hu : cd.unmarshalIdentities ((t.stub.State ("OwnerName: " ++
              (cd.unmarshalRegisterThingTX b).1.OwnerName)).getD []) with ⟨reg, _ | e⟩
            · simp only
              cases hv : verify cr reg.Pubkey (cd.unmarshalRegisterThingTX b).1.Signature
                  (thingMessage (cd.unmarshalRegisterThingTX b).1) with
              | some e => simp
              | none =>
                simp only [not_true_eq_false, if_false]
                rcases hp : Traced.putAliases cd (cd.unmarshalRegisterThingTX b).1.Nonce t₃
                  (cd.unmarshalRegisterThingTX b).1.Identities with ⟨_ | e, t₄⟩
                · simp only [TracedStub.PutState, Stub.PutState]
                  cases t₄.stub.putErr ("Thing: " ++
                    hexEncodeToString (cd.unmarshalRegisterThingTX b).1.Nonce)
                    (marshalled (cd.marshalThings ⟨(cd.unmarshalRegisterThingTX b).1.Identities,
                      (cd.unmarshalRegisterThingTX b).1.OwnerName,
                      (cd.unmarshalRegisterThingTX b).1.Data,
                      (cd.unmarshalRegisterThingTX b).1.Spec⟩)) <;> rfl
                · rfl
            · simp only
          · rfl
    · simp only [hh, not_false_eq_true, if_true]

/-- The case `"registerThing"` on a traced stub and on the plain stub. -/
theorem registerThing_trace (cd : Codec) (cr : Crypto) (t : TracedStub) (b : Bytes) :
    TraceSpec t (Traced.registerThing cd cr t b) (registerThing cd cr t.stub b) := by
  generalize hr : Traced.registerThing cd cr t b = r
  generalize hr₀ : registerThing cd cr t.stub b = r₀
  rw [Traced.registerThing_cases] at hr
  rw [registerThing_eq] at hr₀
  simp only [] at hr hr₀
  generalize (cd.unmarshalRegisterThingTX b).1 = tx at hr hr₀
  obtain ⟨gs, hgs, hck⟩ := checkIdentities_trace
    ⟨t.stub, t.ops ++ [Op.get ("Nonce: " ++ hexEncodeToString tx.Nonce)] ++
      [Op.get ("OwnerName: " ++ tx.OwnerName)]⟩ tx.Identities
  obtain ⟨ps, hps, hpa, hpe, hperr⟩ := putAliases_trace cd tx.Nonce
    ⟨t.stub, t.ops ++ [Op.get ("Nonce: " ++ hexEncodeToString tx.Nonce)] ++
      [Op.get ("OwnerName: " ++ tx.OwnerName)] ++ gs⟩ tx.Identities
  simp only [] at hck hpa hpe hperr
  rw [hck] at hr
  have hgets : ∀ o ∈ [Op.get ("Nonce: " ++ hexEncodeToString tx.Nonce)] ++
      [Op.get ("OwnerName: " ++ tx.OwnerName)] ++ gs, o.isGet = true := by
    intro o ho
    rcases List.mem_append.1 ho with h | h
    · exact Op.isGet_get₂ _ _ o h
    · exact hgs o h
  by_cases h₁ : t.stub.getErr ("Nonce: " ++ hexEncodeToString tx.Nonce) ≠ none
  · rw [if_pos h₁] at hr hr₀
    subst hr hr₀
    exact ⟨rfl, rfl, _, _, ops_one _ _, Op.isGet_get _, Op.isGet_nil _, fun _ _ => rfl⟩
  rw [if_neg h₁] at hr hr₀
  by_cases h₂ : t.stub.State.Holds ("Nonce: " ++ hexEncodeToString tx.Nonce)
  · rw [if_pos h₂] at hr hr₀
    subst hr hr₀
    exact ⟨rfl, rfl, _, _, ops_one _ _, Op.isGet_get _, Op.isGet_nil _, fun _ _ => rfl⟩
  rw [if_neg h₂] at hr hr₀
  by_cases h₃ : t.stub.getErr ("OwnerName: " ++ tx.OwnerName) ≠ none
  · rw [if_pos h₃] at hr hr₀
    subst hr hr₀
    exact ⟨rfl, rfl, _, _, ops_two _ _ _, Op.isGet_get₂ _ _, Op.isGet_nil _, fun _ _ => rfl⟩
  rw [if_neg h₃] at hr hr₀
  by_cases h₄ : ¬ t.stub.State.Holds ("OwnerName: " ++ tx.OwnerName)
  · rw [if_pos h₄] at hr hr₀
    subst hr hr₀
    exact ⟨rfl, rfl, _, _, ops_two _ _ _, Op.isGet_get₂ _ _, Op.isGet_nil _, fun _ _ => rfl⟩
  rw [if_neg h₄] at hr hr₀
  have hread : t.ops ++ [Op.get ("Nonce: " ++ hexEncodeToString tx.Nonce)] ++
      [Op.get ("OwnerName: " ++ tx.OwnerName)] ++ gs =
      t.ops ++ ([Op.get ("Nonce: " ++ hexEncodeToString tx.Nonce)] ++
        [Op.get ("OwnerName: " ++ tx.OwnerName)] ++ gs) ++ [] := by
    simp
  cases hc : checkIdentities t.stub tx.Identities with
  | some e =>
    rw [hc] at hr hr₀
    simp only [] at hr hr₀
    subst hr hr₀
    exact ⟨rfl, rfl, _, _, hread, hgets, Op.isGet_nil _, fun _ _ => rfl⟩
  | none =>
    rw [hc] at hr hr₀
    simp only [] at hr hr₀
    cases hu : (cd.unmarshalIdentities
        ((t.stub.State ("OwnerName: " ++ tx.OwnerName)).getD [])).2 with
    | some e =>
      rw [hu] at hr hr₀
      simp only [] at hr hr₀
      subst hr hr₀
      exact ⟨rfl, rfl, _, _, hread, hgets, Op.isGet_nil _, fun _ _ => rfl⟩
    | none =>
      rw [hu] at hr hr₀
      simp only [] at hr hr₀
      by_cases h₅ : verify cr (cd.unmarshalIdentities
          ((t.stub.State ("OwnerName: " ++ tx.OwnerName)).getD [])).1.Pubkey tx.Signature
          (thingMessage tx) ≠ none
      · rw [if_pos h₅] at hr hr₀
        subst hr hr₀
        exact ⟨rfl, rfl, _, _, hread, hgets, Op.isGet_nil _, fun _ _ => rfl⟩
      rw [if_neg h₅] at hr hr₀
      rw [hpa] at hr
      rcases hq : putAliases cd tx.Nonce t.stub tx.Identities with ⟨_ | e, stub₁⟩
      · rw [hq] at hr hr₀ hpe
        simp only [] at hr hr₀ hpe
        have hputs : ∀ o ∈ ps ++ [Op.put ("Thing: " ++ hexEncodeToString tx.Nonce)
            (marshalled (cd.marshalThings tx.store))], o.isGet = false := by
          intro o ho
          rcases List.mem_append.1 ho with h | h
          · exact hps o h
          · exact Op.isGet_put _ _ o h
        have hops : t.ops ++ [Op.get ("Nonce: " ++ hexEncodeToString tx.Nonce)] ++
            [Op.get ("OwnerName: " ++ tx.OwnerName)] ++ gs ++ ps ++
            [Op.put ("Thing: " ++ hexEncodeToString tx.Nonce)
              (marshalled (cd.marshalThings tx.store))] =
            t.ops ++ ([Op.get ("Nonce: " ++ hexEncodeToString tx.Nonce)] ++
              [Op.get ("OwnerName: " ++ tx.OwnerName)] ++ gs) ++
              (ps ++ [Op.put ("Thing: " ++ hexEncodeToString tx.Nonce)
                (marshalled (cd.marshalThings tx.store))]) := by
          simp
        cases hp : stub₁.putErr ("Thing: " ++ hexEncodeToString tx.Nonce)
            (marshalled (cd.marshalThings tx.store)) with
        | none =>
          rw [hp] at hr hr₀
          simp only [] at hr hr₀
          subst hr hr₀
          exact ⟨rfl, rfl, _, _, hops, hgets, hputs, fun herr => absurd rfl herr⟩
        | some e =>
          rw [hp] at hr hr₀
          simp only [] at hr hr₀
          subst hr hr₀
          refine ⟨rfl, rfl, _, _, hops, hgets, hputs, ?_⟩
          intro _ hall
          have hnone := hall ("Thing: " ++ hexEncodeToString tx.Nonce)
            (marshalled (cd.marshalThings tx.store)) (List.mem_append_right _
              (List.mem_singleton.2 rfl))
          rw [hpe, hnone] at hp
          exact absurd hp (by simp)
      · rw [hq] at hr hr₀ hperr
        simp only [] at hr hr₀ hperr
        subst hr hr₀
        have hsame : stub₁ = t.stub := hperr (by simp)
        refine ⟨rfl, rfl, _, _, ?_, hgets, hps, ?_⟩
        · show _ = t.ops ++ ([Op.get ("Nonce: " ++ hexEncodeToString tx.Nonce)] ++
              [Op.get ("OwnerName: " ++ tx.OwnerName)] ++ gs) ++ ps
          simp
        · intro _ _
          show stub₁.State = t.stub.State
          rw [hsame]

/-- The definition `Invoke` on a traced stub and on the plain stub. -/
theorem Invoke_trace (cd : Codec) (cr : Crypto) (t : TracedStub) (function : String)
    (args : List String) :
    TraceSpec t (Traced.Invoke cd cr t function args) (Invoke cd cr t.stub function args) := by
  have hnone : ∀ msg : String, TraceSpec t (Result.fail msg, t) (Result.fail msg, t.stub) :=
    fun msg => ⟨rfl, rfl, [], [], by simp, Op.isGet_nil _, Op.isGet_nil _, fun _ _ => rfl⟩
  cases args with
  | nil => exact hnone _
  | cons arg rest =>
    unfold Traced.Invoke Invoke
    simp only
    cases hb : hexDecodeString arg with
    | none => exact hnone _
    | some b =>
      simp only
      split_ifs
      · exact registerOwner_trace cd cr t b
      · exact registerThing_trace cd cr t b
      · exact registerSpec_trace cd cr t b
      · exact ⟨rfl, rfl, [], [], by simp, Op.isGet_nil _, Op.isGet_nil _, fun _ _ => rfl⟩

/-- C20: for every stub and every call of `Invoke`, the call on a stub that
lists the calls made on it returns what `Invoke` returns and leaves the stub
`Invoke` leaves; in the list no read comes after a write; and when `Invoke`
returns an error while each write in the list reported no error, the ledger
is the ledger before the call. -/
theorem C20_reads_precede_writes (cd : Codec) (cr : Crypto) (stub : Stub) (function : String)
    (args : List String) :
    (Traced.Invoke cd cr ⟨stub, []⟩ function args).1 = (Invoke cd cr stub function args).1 ∧
      (Traced.Invoke cd cr ⟨stub, []⟩ function args).2.stub =
        (Invoke cd cr stub function args).2 ∧
      readsFirst (Traced.Invoke cd cr ⟨stub, []⟩ function args).2.ops = true ∧
      ((Invoke cd cr stub function args).1.err ≠ none →
        (∀ k v, Op.put k v ∈ (Traced.Invoke cd cr ⟨stub, []⟩ function args).2.ops →
          stub.putErr k v = none) →
        (Invoke cd cr stub function args).2.State = stub.State) := by
  obtain ⟨h₁, h₂, gs, ps, hops, hg, hp, hat⟩ := Invoke_trace cd cr ⟨stub, []⟩ function args
  simp only [List.nil_append] at hops
  refine ⟨h₁, h₂, ?_, ?_⟩
  · rw [hops]
    exact readsFirst_append gs ps hg hp
  · intro herr hall
    refine hat herr fun k v hkv => hall k v ?_
    rw [hops]
    exact List.mem_append_right _ hkv

set_option maxRecDepth 10000 in
/-- C20 on the ledger of the test file: "Alice" registers a thing with the
alias "Alice"; the call reads four keys, writes none, returns the error of the
first loop, and the ledger is as it was; and her thing of the test file is
registered with four reads followed by three writes. -/
theorem C20_reads_precede_writes_witness :
    (Traced.Invoke Codec.proto3 Crypto.sample ⟨Stub.mk0 ledgerAlice, []⟩ "registerThing"
        [aliceAliasTx.arg]).2.ops =
        [Op.get "Nonce: 02", Op.get "OwnerName: Alice", Op.get "OwnerName: Foo",
          Op.get "OwnerName: Alice"] ∧
      (Invoke Codec.proto3 Crypto.sample (Stub.mk0 ledgerAlice) "registerThing"
        [aliceAliasTx.arg]).1.err = some "OwnerName: (Alice) is already in registry" ∧
      (Invoke Codec.proto3 Crypto.sample (Stub.mk0 ledgerAlice) "registerThing"
        [aliceAliasTx.arg]).2.State = ledgerAlice ∧
      (Traced.Invoke Codec.proto3 Crypto.sample ⟨Stub.mk0 ledgerAlice, []⟩ "registerThing"
        [aliceThingTx.arg]).2.ops =
        [Op.get "Nonce: 1f7b169c846f218ab552fa82fbf86758", Op.get "OwnerName: Alice",
          Op.get "OwnerName: Foo", Op.get "OwnerName: Bar",
          Op.put "Alias:Foo" (marshalled (Codec.proto3.marshalAlias ⟨aliceNonce⟩)),
          Op.put "Alias:Bar" (marshalled (Codec.proto3.marshalAlias ⟨aliceNonce⟩)),
          Op.put "Thing: 1f7b169c846f218ab552fa82fbf86758"
            (marshalled (Codec.proto3.marshalThings aliceThingTx.store))] :=
  ⟨by decide, by decide,
    (C20_reads_precede_writes Codec.proto3 Crypto.sample (Stub.mk0 ledgerAlice) "registerThing"
      [aliceAliasTx.arg]).2.2.2 (by decide) (fun _ _ _ => rfl),
    by decide⟩

set_option maxRecDepth 10000 in
/-- The condition of C20 on the writes is needed: when the write of the thing
record fails, `Invoke` returns its error and the alias records written before
it stay in the ledger. -/
theorem registerThing_partial_write :
    (Invoke Codec.proto3 Crypto.sample stubThingPutFails "registerThing"
        [aliceThingTx.arg]).1.err = some "put failed" ∧
      (Invoke Codec.proto3 Crypto.sample stubThingPutFails "registerThing"
        [aliceThingTx.arg]).2.State "Alias:Foo" =
        some (marshalled (Codec.proto3.marshalAlias ⟨aliceNonce⟩)) ∧
      stubThingPutFails.State "Alias:Foo" = none := by
  decide

/-! ## C21 -/

/-- When the checks of `registerThing` pass and the alias record marshals (or
there is no alias), the error `registerThing` returns is the one the write of
the thing record returns: what the writes of the alias records return has no
part in it. -/
theorem registerThing_err_eq_thing_put {cd : Codec} {cr : Crypto} {stub : Stub} {b : Bytes}
    (h : ThingChecks cd cr stub (cd.unmarshalRegisterThingTX b).1) (value : Bytes)
    (hm : (cd.unmarshalRegisterThingTX b).1.Identities ≠ [] →
      cd.marshalAlias ⟨(cd.unmarshalRegisterThingTX b).1.Nonce⟩ = .ok value) :
    (registerThing cd cr stub b).1.err =
      stub.putErr ("Thing: " ++ hexEncodeToString (cd.unmarshalRegisterThingTX b).1.Nonce)
        (marshalled (cd.marshalThings (cd.unmarshalRegisterThingTX b).1.store)) := by
  rw [registerThing_writes h value hm]
  cases stub.putErr ("Thing: " ++ hexEncodeToString (cd.unmarshalRegisterThingTX b).1.Nonce)
    (marshalled (cd.marshalThings (cd.unmarshalRegisterThingTX b).1.store)) <;> rfl

set_option maxRecDepth 10000 in
/-- C21 fails on the thing of the test file when the write of its first alias
record fails: the record passes the checks, the call makes its three writes, the write
under `"Alias:Foo"` reports an error, and `Invoke` returns `nil, nil`; the
ledger then holds the thing record, which names the alias "Foo", and nothing
under `"Alias:Foo"`. -/
theorem C21_alias_put_failure_unreported :
    ThingChecks Codec.proto3 Crypto.sample stubAliasPutFails aliceThingTx ∧
      (Traced.Invoke Codec.proto3 Crypto.sample ⟨stubAliasPutFails, []⟩ "registerThing"
        [aliceThingTx.arg]).2.ops =
        [Op.get "Nonce: 1f7b169c846f218ab552fa82fbf86758", Op.get "OwnerName: Alice",
          Op.get "OwnerName: Foo", Op.get "OwnerName: Bar",
          Op.put "Alias:Foo" (marshalled (Codec.proto3.marshalAlias ⟨aliceNonce⟩)),
          Op.put "Alias:Bar" (marshalled (Codec.proto3.marshalAlias ⟨aliceNonce⟩)),
          Op.put "Thing: 1f7b169c846f218ab552fa82fbf86758"
            (marshalled (Codec.proto3.marshalThings aliceThingTx.store))] ∧
      (stubAliasPutFails.PutState "Alias:Foo"
        (marshalled (Codec.proto3.marshalAlias ⟨aliceNonce⟩))).2 = some "put failed" ∧
      (Invoke Codec.proto3 Crypto.sample stubAliasPutFails "registerThing"
        [aliceThingTx.arg]).1 = Result.nilnil ∧
      (Invoke Codec.proto3 Crypto.sample stubAliasPutFails "registerThing"
        [aliceThingTx.arg]).2.State "Alias:Foo" = none ∧
      (Invoke Codec.proto3 Crypto.sample stubAliasPutFails "registerThing"
        [aliceThingTx.arg]).2.State "Alias:Bar" =
        some (marshalled (Codec.proto3.marshalAlias ⟨aliceNonce⟩)) ∧
      (Invoke Codec.proto3 Crypto.sample stubAliasPutFails "registerThing"
        [aliceThingTx.arg]).2.State "Thing: 1f7b169c846f218ab552fa82fbf86758" =
        some (marshalled (Codec.proto3.marshalThings aliceThingTx.store)) ∧
      aliceThingTx.store.Alias = ["Foo", "Bar"] := by
  unfold ThingChecks
  decide

/-! ## C22 -/

/-- The ledger after the alias records have been put, when each of the writes
reports no error. -/
theorem putAliasRecords_state (value : Bytes) (stub : Stub) (identities : List String)
    (hput : ∀ a ∈ identities, stub.putErr ("Alias:" ++ a) value = none) :
    (putAliasRecords value stub identities).State =
      identities.foldl (fun l a => l.put ("Alias:" ++ a) value) stub.State := by
  induction identities generalizing stub with
  | nil => rfl
  | cons x rest ih =>
    simp only [putAliasRecords, List.foldl_cons] at ih ⊢
    have hx : (stub.PutState ("Alias:" ++ x) value).2 = none := by
      simp [Stub.PutState, hput x (List.mem_cons_self _ _)]
    rw [ih (stub.PutState ("Alias:" ++ x) value).1 (fun a ha => by
      rw [Stub.PutState_putErr]
      exact hput a (List.mem_cons_of_mem _ ha)), (Stub.PutState_ok hx).1]

/-- The writes of a `registerThing` that succeeds, when no write of an alias
record fails: let `Invoke("registerThing")` report no error on a transaction,
and let the write of the alias record report no error for each of its aliases.
Then the ledger after the call is the ledger before it, updated for each alias
in the order of the transaction with the alias record of the nonce under
`"Alias:" + alias`, and then with the thing record of the aliases, owner name,
data and specification under `"Thing: " + hex(nonce)`; a key that is neither
holds what it held, and so does every key that begins with `"OwnerName: "`,
`"Spec: "` or `"Nonce: "`. -/
theorem registerThing_write_set (cd : Codec) (cr : Crypto) (stub : Stub) (arg : String)
    (rest : List String) (b : Bytes) (hb : hexDecodeString arg = some b)
    (hok : (Invoke cd cr stub "registerThing" (arg :: rest)).1.err = none)
    (hput : ∀ a ∈ (cd.unmarshalRegisterThingTX b).1.Identities,
      stub.putErr ("Alias:" ++ a)
        (marshalled (cd.marshalAlias ⟨(cd.unmarshalRegisterThingTX b).1.Nonce⟩)) = none) :
    (Invoke cd cr stub "registerThing" (arg :: rest)).2.State =
        registerThingLedger cd stub.State (cd.unmarshalRegisterThingTX b).1 ∧
      (∀ k, (∀ a ∈ (cd.unmarshalRegisterThingTX b).1.Identities, k ≠ "Alias:" ++ a) →
        k ≠ "Thing: " ++ hexEncodeToString (cd.unmarshalRegisterThingTX b).1.Nonce →
        (Invoke cd cr stub "registerThing" (arg :: rest)).2.State k = stub.State k) ∧
      ∀ x, (Invoke cd cr stub "registerThing" (arg :: rest)).2.State ("OwnerName: " ++ x) =
          stub.State ("OwnerName: " ++ x) ∧
        (Invoke cd cr stub "registerThing" (arg :: rest)).2.State ("Spec: " ++ x) =
          stub.State ("Spec: " ++ x) ∧
        (Invoke cd cr stub "registerThing" (arg :: rest)).2.State ("Nonce: " ++ x) =
          stub.State ("Nonce: " ++ x) := by
  rw [Invoke_eq cd cr stub "registerThing" arg rest b hb] at hok ⊢
  simp only [show ¬ ("registerThing" = "registerOwner") by decide, if_true, if_false] at hok ⊢
  have hc := (registerThing_ok hok).1
  have hother : ∀ k, (∀ a ∈ (cd.unmarshalRegisterThingTX b).1.Identities, k ≠ "Alias:" ++ a) →
      k ≠ "Thing: " ++ hexEncodeToString (cd.unmarshalRegisterThingTX b).1.Nonce →
      (registerThing cd cr stub b).2.State k = stub.State k := by
    intro k h₁ h₂
    by_contra hne
    rcases (registerThing_changed hne).2 with ⟨a, ha, hk⟩ | ⟨hk, _⟩
    · exact h₁ a ha hk
    · exact h₂ hk
  refine ⟨?_, hother, fun x => ⟨?_, ?_, ?_⟩⟩
  · have hm : (cd.unmarshalRegisterThingTX b).1.Identities ≠ [] →
        cd.marshalAlias ⟨(cd.unmarshalRegisterThingTX b).1.Nonce⟩ =
          .ok (marshalled (cd.marshalAlias ⟨(cd.unmarshalRegisterThingTX b).1.Nonce⟩)) := by
      intro hi
      cases hma : cd.marshalAlias ⟨(cd.unmarshalRegisterThingTX b).1.Nonce⟩ with
      | error e => exact absurd hok (registerThing_alias_error hc e hi hma).2
      | ok value => rfl
    have herr := registerThing_err_eq_thing_put hc _ hm
    rw [hok] at herr
    rw [registerThing_writes hc _ hm, ← herr]
    simp only [registerThingLedger, RegisterThingTX.store]
    rw [putAliasRecords_state _ _ _ hput]
  · exact hother _ (fun a _ => key_ne_of_head "OwnerName: " "Alias:" x a (by simp))
      (key_ne_of_head "OwnerName: " "Thing: " x _ (by simp))
  · exact hother _ (fun a _ => key_ne_of_head "Spec: " "Alias:" x a (by simp))
      (key_ne_of_head "Spec: " "Thing: " x _ (by simp))
  · exact hother _ (fun a _ => key_ne_of_head "Nonce: " "Alias:" x a (by simp))
      (key_ne_of_head "Nonce: " "Thing: " x _ (by simp))

set_option maxRecDepth 10000 in
/-- The writes of the thing of the test file, registered on the ledger after
"Alice" has registered: the ledger after the call is that ledger with the alias record
under `"Alias:Foo"`, then under `"Alias:Bar"`, and then the thing record under
the key of the nonce; the key `"OwnerName: Alice"` holds what it held. -/
theorem registerThing_write_set_witness :
    (Invoke Codec.proto3 Crypto.sample (Stub.mk0 ledgerAlice) "registerThing"
        [aliceThingTx.arg]).1.err = none ∧
      (Invoke Codec.proto3 Crypto.sample (Stub.mk0 ledgerAlice) "registerThing"
        [aliceThingTx.arg]).2.State =
        ((ledgerAlice.put "Alias:Foo" (marshalled (Codec.proto3.marshalAlias ⟨aliceNonce⟩))).put
          "Alias:Bar" (marshalled (Codec.proto3.marshalAlias ⟨aliceNonce⟩))).put
          "Thing: 1f7b169c846f218ab552fa82fbf86758"
          (marshalled (Codec.proto3.marshalThings
            ⟨["Foo", "Bar"], "Alice", "test data", "test spec"⟩)) ∧
      (Invoke Codec.proto3 Crypto.sample (Stub.mk0 ledgerAlice) "registerThing"
        [aliceThingTx.arg]).2.State ("OwnerName: " ++ "Alice") =
        ledgerAlice ("OwnerName: " ++ "Alice") :=
  ⟨by decide,
    (registerThing_write_set Codec.proto3 Crypto.sample (Stub.mk0 ledgerAlice)
      aliceThingTx.arg [] ((hexDecodeString aliceThingTx.arg).getD []) (by decide) (by decide)
      (fun _ _ => rfl)).1,
    ((registerThing_write_set Codec.proto3 Crypto.sample (Stub.mk0 ledgerAlice)
      aliceThingTx.arg [] ((hexDecodeString aliceThingTx.arg).getD []) (by decide) (by decide)
      (fun _ _ => rfl)).2.2 "Alice").1⟩

set_option maxRecDepth 10000 in
/-- C22 fails on the thing of the test file when the write of its first alias
record fails.  `Invoke("registerThing")` returns `nil, nil`.  The ledger before
the call, updated with the alias record under `"Alias:Foo"` and `"Alias:Bar"`
and then with the thing record, holds the alias record under `"Alias:Foo"`; the
ledger after the call holds nothing there, and so is another ledger. -/
theorem C22_failed_alias_write_missing :
    (Invoke Codec.proto3 Crypto.sample stubAliasPutFails "registerThing"
        [aliceThingTx.arg]).1 = ⟨none, none⟩ ∧
      (Codec.proto3.unmarshalRegisterThingTX ((hexDecodeString aliceThingTx.arg).getD [])).1 =
        aliceThingTx ∧
      registerThingLedger Codec.proto3 stubAliasPutFails.State aliceThingTx "Alias:Foo" =
        some (marshalled (Codec.proto3.marshalAlias ⟨aliceNonce⟩)) ∧
      (Invoke Codec.proto3 Crypto.sample stubAliasPutFails "registerThing"
        [aliceThingTx.arg]).2.State "Alias:Foo" = none ∧
      (Invoke Codec.proto3 Crypto.sample stubAliasPutFails "registerThing"
        [aliceThingTx.arg]).2.State ≠
        registerThingLedger Codec.proto3 stubAliasPutFails.State aliceThingTx :=
  ⟨by decide, by decide, by decide, by decide,
    fun h => absurd (congrFun h "Alias:Foo") (by decide)⟩

/-! ## C23 -/

/-- C23: for every stub, every function name other than `"registerOwner"`,
`"registerThing"` and `"registerSpec"`, and every argument list whose first
element is hexadecimal, `Invoke` returns `nil, nil` and the stub as it was, so
the ledger is unchanged; it makes no call on the stub. -/
theorem C23_other_function_no_effect (cd : Codec) (cr : Crypto) (stub : Stub)
    (function arg : String) (rest : List String) (b : Bytes)
    (hb : hexDecodeString arg = some b) (h₁ : function ≠ "registerOwner")
    (h₂ : function ≠ "registerThing") (h₃ : function ≠ "registerSpec") :
    (Invoke cd cr stub function (arg :: rest)).1 = Result.nilnil ∧
      (Invoke cd cr stub function (arg :: rest)).1.err = none ∧
      (Invoke cd cr stub function (arg :: rest)).2 = stub ∧
      (Invoke cd cr stub function (arg :: rest)).2.State = stub.State ∧
      (Traced.Invoke cd cr ⟨stub, []⟩ function (arg :: rest)).2.ops = [] := by
  rw [Invoke_no_case cd cr stub function arg rest b hb h₁ h₂ h₃]
  refine ⟨rfl, rfl, rfl, rfl, ?_⟩
  simp only [Traced.Invoke, hb, h₁, h₂, h₃, if_false]

set_option maxRecDepth 10000 in
/-- C23 on the ledger after "Alice" has registered: the call
`Invoke("createRegistrant")` of the test file, and a call with the empty
function name and the empty string as its argument, return `nil, nil` and
leave the ledger as it was. -/
theorem C23_other_function_no_effect_witness :
    (Invoke Codec.proto3 Crypto.sample (Stub.mk0 ledgerAlice) "createRegistrant"
        [aliceRegistrantTx.arg]).1 = Result.nilnil ∧
      (Invoke Codec.proto3 Crypto.sample (Stub.mk0 ledgerAlice) "createRegistrant"
        [aliceRegistrantTx.arg]).2.State = ledgerAlice ∧
      (Invoke Codec.proto3 Crypto.sample (Stub.mk0 ledgerAlice) "" ["", "zz"]).1.err = none ∧
      (Invoke Codec.proto3 Crypto.sample (Stub.mk0 ledgerAlice) "" ["", "zz"]).2.State =
        ledgerAlice :=
  ⟨(C23_other_function_no_effect Codec.proto3 Crypto.sample (Stub.mk0 ledgerAlice)
      "createRegistrant" aliceRegistrantTx.arg [] ((hexDecodeString aliceRegistrantTx.arg).getD [])
      (by rfl) (by decide) (by decide) (by decide)).1,
    (C23_other_function_no_effect Codec.proto3 Crypto.sample (Stub.mk0 ledgerAlice)
      "createRegistrant" aliceRegistrantTx.arg [] ((hexDecodeString aliceRegistrantTx.arg).getD [])
      (by rfl) (by decide) (by decide) (by decide)).2.2.2.1,
    (C23_other_function_no_effect Codec.proto3 Crypto.sample (Stub.mk0 ledgerAlice)
      "" "" ["zz"] [] (by decide) (by decide) (by decide) (by decide)).2.1,
    (C23_other_function_no_effect Codec.proto3 Crypto.sample (Stub.mk0 ledgerAlice)
      "" "" ["zz"] [] (by decide) (by decide) (by decide) (by decide)).2.2.2.1⟩

/-! ## C24 -/

/-- C24: the message `registerThing` verifies does not determine the record.
For every owner name, specification and strings `a`, `b`, the record with the
alias `a` and the data `b` and the record with no alias and the data
`a + ":" + b` differ in their aliases and have the same message, whatever
their nonces; so for every signature and every key `verify` returns the same
for both, on every ledger the owner's stored key accepts the signature for
the one exactly when it does for the other, and when it accepts it for the
first record, `Invoke("registerThing")` on the second record carrying that
signature returns `nil, nil` and stores the second record, provided its nonce
key is free, the two reads and the write report no error. -/
theorem C24_thing_message_not_injective (cd : Codec) (cr : Crypto) (stub : Stub)
    (n₁ n₂ sig : Bytes) (owner a b spec : String) :
    ([a], b) ≠ (([] : List String), a ++ ":" ++ b) ∧
      thingMessage ⟨n₁, owner, [a], spec, b, sig⟩ =
        thingMessage ⟨n₂, owner, [], spec, a ++ ":" ++ b, sig⟩ ∧
      (∀ pubKeyBytes : Bytes,
        verify cr pubKeyBytes sig (thingMessage ⟨n₁, owner, [a], spec, b, sig⟩) =
          verify cr pubKeyBytes sig (thingMessage ⟨n₂, owner, [], spec, a ++ ":" ++ b, sig⟩)) ∧
      (Authorized cd cr stub.State owner sig (thingMessage ⟨n₁, owner, [a], spec, b, sig⟩) ↔
        Authorized cd cr stub.State owner sig
          (thingMessage ⟨n₂, owner, [], spec, a ++ ":" ++ b, sig⟩)) ∧
      ∀ (arg : String) (rest : List String) (argsBytes : Bytes),
        hexDecodeString arg = some argsBytes →
        (cd.unmarshalRegisterThingTX argsBytes).1 = ⟨n₂, owner, [], spec, a ++ ":" ++ b, sig⟩ →
        Authorized cd cr stub.State owner sig (thingMessage ⟨n₁, owner, [a], spec, b, sig⟩) →
        stub.getErr ("Nonce: " ++ hexEncodeToString n₂) = none →
        ¬ stub.State.Holds ("Nonce: " ++ hexEncodeToString n₂) →
        stub.getErr ("OwnerName: " ++ owner) = none →
        stub.putErr ("Thing: " ++ hexEncodeToString n₂)
          (marshalled (cd.marshalThings ⟨[], owner, a ++ ":" ++ b, spec⟩)) = none →
        (Invoke cd cr stub "registerThing" (arg :: rest)).1 = Result.nilnil ∧
          (Invoke cd cr stub "registerThing" (arg :: rest)).2.State
              ("Thing: " ++ hexEncodeToString n₂) =
            some (marshalled (cd.marshalThings ⟨[], owner, a ++ ":" ++ b, spec⟩)) := by
  have hmsg : thingMessage ⟨n₁, owner, [a], spec, b, sig⟩ =
      thingMessage ⟨n₂, owner, [], spec, a ++ ":" ++ b, sig⟩ := by
    simp only [thingMessage, List.foldl_cons, List.foldl_nil, String.append_assoc]
  refine ⟨?_, hmsg, fun _ => by rw [hmsg], by rw [hmsg], ?_⟩
  · intro h
    exact List.cons_ne_nil a [] (congrArg Prod.fst h)
  · intro arg rest argsBytes hb htx hauth hg₁ hh hg₂ hp
    rw [hmsg] at hauth
    have hc : ThingChecks cd cr stub (cd.unmarshalRegisterThingTX argsBytes).1 := by
      rw [htx]
      exact ⟨hg₁, hh, hg₂, rfl, hauth⟩
    have hw := registerThing_writes hc [] (fun hne => absurd (by rw [htx]) hne)
    rw [htx] at hw
    simp only [RegisterThingTX.store, putAliasRecords, List.foldl_nil, hp] at hw
    rw [Invoke_eq cd cr stub "registerThing" arg rest argsBytes hb]
    simp only [show ¬ ("registerThing" = "registerOwner") by decide, if_true, if_false]
    rw [hw]
    exact ⟨rfl, Ledger.put_same _ _ _⟩

set_option maxRecDepth 10000 in
/-- C24 on the ledger after "Alice" has registered: she signs the thing with
the alias "a" and the data "b"; the signature is accepted for the message
`"Alice:a:b:spec"` of that thing, and `Invoke("registerThing")` on the thing
with no alias and the data "a:b" that carries it returns `nil, nil` and
stores that thing under its own nonce. -/
theorem C24_thing_message_not_injective_witness :
    thingMessage signedThingTx = "Alice:a:b:spec" ∧
      thingMessage replayedThingTx = "Alice:a:b:spec" ∧
      Authorized Codec.proto3 Crypto.sample ledgerAlice "Alice" signedThingTx.Signature
        (thingMessage signedThingTx) ∧
      (Invoke Codec.proto3 Crypto.sample (Stub.mk0 ledgerAlice) "registerThing"
        [replayedThingTx.arg]).1 = Result.nilnil ∧
      (Invoke Codec.proto3 Crypto.sample (Stub.mk0 ledgerAlice) "registerThing"
        [replayedThingTx.arg]).2.State ("Thing: " ++ hexEncodeToString [4]) =
        some (marshalled (Codec.proto3.marshalThings ⟨[], "Alice", "a" ++ ":" ++ "b", "spec"⟩)) :=
  ⟨by decide, by decide, by decide,
    (C24_thing_message_not_injective Codec.proto3 Crypto.sample (Stub.mk0 ledgerAlice) [3] [4]
      signedThingTx.Signature "Alice" "a" "b" "spec").2.2.2.2 replayedThingTx.arg []
      ((hexDecodeString replayedThingTx.arg).getD []) (by decide) (by decide) (by decide)
      (by decide) (by decide) (by decide) (by decide)⟩

end IOTRegistry
